import Mathlib

/-!
# Intcode virtual machine

A shallow embedding of `pkg/intcode/vm.go` and a verification of the
behaviour its specification describes.

Modelling conventions

* Go's `int` is the 64-bit two's-complement integer (the constants of the
  repository's tests do not fit in 32 bits).  Values are Lean integers and
  every `+` and `*` of the source is `intAdd` and `intMul`: the exact result
  reduced to the signed 64-bit range by `wrapInt`.
* A Go `string` is a list of characters, a Go `map[int]int` is a function
  `Int → Option Int` (`none` for an absent key), a slice that may be `nil`
  is an `Option (List Int)`.
* A `panic` is a result value that carries the state reached when the panic
  was raised; nothing is rolled back.
* The console and the two channels are the boundary of the machine.  The
  `World` holds the values still to arrive on the input side and the ordered
  trace of the values that left on the output side.
* A loop without a bound (`Run`) takes a fuel argument; a claim that it
  terminates is proved by giving the fuel with which it returns.
-/

namespace Intcode

/-! ## Integers and text -/

/-- Reduction of an integer to the range of Go's 64-bit `int`
(two's-complement wrap-around). -/
def wrapInt (x : Int) : Int :=
  (x + 9223372036854775808) % 18446744073709551616 - 9223372036854775808

/-- Go's `+` on `int`. -/
def intAdd (a b : Int) : Int := wrapInt (a + b)

/-- Go's `*` on `int`. -/
def intMul (a b : Int) : Int := wrapInt (a * b)

/-- The values a Go `int` can hold. -/
def isInt64 (x : Int) : Prop :=
  -9223372036854775808 ≤ x ∧ x ≤ 9223372036854775807

instance (x : Int) : Decidable (isInt64 x) := by
  unfold isInt64; infer_instance

/-- The ways in which the program can panic. -/
inductive Fault where
  /-- `shared.StringToInt` on a token that is not a decimal integer -/
  | parseError (token : List Char)
  /-- "Unknown mode: %d" of `ReadNextGivenMode` and `WriteNextGivenMode` -/
  | unknownMode (mode : Int)
  /-- "Illegal mode for write operations" -/
  | illegalWriteMode
  /-- "Unknown mode: %d | %d" of `ReadOpcode`: no arity for the operation -/
  | unknownOpcode (value : Int) (position : Int)
  /-- "Invalid opcode: %d" of `Step` -/
  | invalidOpcode (value : Int)
  /-- Go's run-time panic for an index outside a slice -/
  | indexOutOfRange
  /-- the error of `fmt.Scan` -/
  | scanError
  /-- "Input buffer is empty" -/
  | inputBufferEmpty
  /-- "Cannot input without buffers" -/
  | cannotInput
  /-- "Cannot output without buffers" -/
  | cannotOutput
  deriving DecidableEq, Repr

/-- The character of a decimal digit. -/
def digitChar (d : Nat) : Char :=
  match d with
  | 0 => '0'
  | 1 => '1'
  | 2 => '2'
  | 3 => '3'
  | 4 => '4'
  | 5 => '5'
  | 6 => '6'
  | 7 => '7'
  | 8 => '8'
  | _ => '9'

/-- The value of a decimal digit character, `none` for any other character. -/
def digitValue (r : Char) : Option Nat :=
  if r = '0' then some 0
  else if r = '1' then some 1
  else if r = '2' then some 2
  else if r = '3' then some 3
  else if r = '4' then some 4
  else if r = '5' then some 5
  else if r = '6' then some 6
  else if r = '7' then some 7
  else if r = '8' then some 8
  else if r = '9' then some 9
  else none

/-- Decimal digits of a natural number, most significant first; the fuel
bounds the number of digits. -/
def natToStringAux : Nat → Nat → List Char
  | 0, _ => []
  | fuel + 1, n =>
    if n < 10 then [digitChar n]
    else natToStringAux fuel (n / 10) ++ [digitChar (n % 10)]

/-- Decimal text of a natural number. -/
def natToString (n : Nat) : List Char :=
  natToStringAux (n + 1) n

/-- Modelled from the spec: `shared.IntToString`, which is not among the
sources.  The program text format of the spec is base-10 digits, prefixed
with `-` for a negative value. -/
def IntToString (value : Int) : List Char :=
  if value < 0 then '-' :: natToString value.natAbs
  else natToString value.natAbs

/-- Value of a run of decimal digits read from the left, starting from `acc`;
`none` when a character is not a digit. -/
def digitsToNat : List Char → Nat → Option Nat
  | [], acc => some acc
  | r :: rs, acc =>
    match digitValue r with
    | some d => digitsToNat rs (acc * 10 + d)
    | none => none

/-- Modelled from the spec: `shared.StringToInt`, which is not among the
sources.  A field is a base-10 integer optionally prefixed with `-`, with no
whitespace tolerance; any other field fails with a parse error that names
the token. -/
def StringToInt (s : List Char) : Except Fault Int :=
  if s.head? = some '-' then
    if s.tail = [] then .error (.parseError s)
    else
      match digitsToNat s.tail 0 with
      | some n => .ok (-(n : Int))
      | none => .error (.parseError s)
  else if s = [] then .error (.parseError s)
  else
    match digitsToNat s 0 with
    | some n => .ok (n : Int)
    | none => .error (.parseError s)

/-- Modelled from the spec: `shared.RuneToInt`, which is not among the
sources.  The decoder reads mode digits with it: a decimal digit character
gives its value.  The spec does not say what another character gives; it is
modelled as a parse error of that character. -/
def RuneToInt (r : Char) : Except Fault Int :=
  match digitValue r with
  | some d => .ok (d : Int)
  | none => .error (.parseError [r])

/-- Go's `strings.Split(s, ",")`: the fields between the commas, one more
than there are commas (a single empty field for the empty string). -/
def Split : List Char → List (List Char)
  | [] => [[]]
  | r :: rs =>
    if r = ',' then [] :: Split rs
    else
      match Split rs with
      | [] => [[r]]
      | field :: fields => (r :: field) :: fields

/-- The loop of `Parser`: convert the fields in order, stopping at the first
panic. -/
def parseFields : List (List Char) → Except Fault (List Int)
  | [] => .ok []
  | instruction :: instructions =>
    match StringToInt instruction with
    | .error e => .error e
    | .ok code =>
      match parseFields instructions with
      | .error e => .error e
      | .ok codes => .ok (code :: codes)

/-- `Parser`: program text to the sequence of its integers. -/
def Parser (program : List Char) : Except Fault (List Int) :=
  parseFields (Split program)

/-! ## The machine state -/

/-- An unbuffered Go channel, known to the machine only as present or absent. -/
abbrev Chan := Unit

/-- Go's `map[int]int`. -/
abbrev MemoryMap := Int → Option Int

/-- The map with `address` bound to `value`. -/
def MemoryMap.store (memory : MemoryMap) (address value : Int) : MemoryMap :=
  fun a => if a = address then some value else memory a

/-- The struct `Computer`. -/
structure Computer where
  Position : Int
  RPosition : Int
  Codes : List Int
  Memory : MemoryMap
  InBuffer : Option Chan
  OutBuffer : Option Chan
  InQueue : Option (List Int)
  OutQueue : Option (List Int)
  Halted : Bool

/-- The struct `Opcode`. -/
structure Opcode where
  Value : Int
  Modes : List Int
  deriving DecidableEq, Repr

/-- What lies outside the machine: `supply` are the values still to arrive on
the input side (numbers on standard input, or values a producer hands to
`InBuffer`), `emitted` the values that left through `fmt.Println` or
`OutBuffer`, oldest first. -/
structure World where
  supply : List Int
  emitted : List Int
  deriving DecidableEq, Repr

/-- Result of a method that may panic: the returned value and the state, or
the fault and the state at the time of the panic. -/
inductive Res (α : Type) where
  | ok (value : α) (computer : Computer)
  | panic (fault : Fault) (computer : Computer)

/-- Sequencing: a panic ends the computation. -/
def Res.andThen {α β : Type} (r : Res α) (k : α → Computer → Res β) : Res β :=
  match r with
  | .ok value computer => k value computer
  | .panic fault computer => .panic fault computer

/-- The loop of `createMemoryMap` from index `c` on. -/
def fillMemory : List Int → Int → MemoryMap → MemoryMap
  | [], _, memory => memory
  | code :: codes, c, memory => fillMemory codes (c + 1) (memory.store c code)

/-- `createMemoryMap`: address `c` holds `codes[c]`. -/
def createMemoryMap (codes : List Int) : MemoryMap :=
  fillMemory codes 0 (fun _ => none)

/-- `New`: the console machine. -/
def New (program : List Char) : Except Fault Computer :=
  match Parser program with
  | .error e => .error e
  | .ok codes =>
    .ok { Position := 0, RPosition := 0, Codes := codes,
          Memory := createMemoryMap codes,
          InBuffer := none, OutBuffer := none,
          InQueue := none, OutQueue := none, Halted := false }

/-- `BufferedNew`: the machine with a channel on either side. -/
def BufferedNew (program : List Char) : Except Fault Computer :=
  match Parser program with
  | .error e => .error e
  | .ok codes =>
    .ok { Position := 0, RPosition := 0, Codes := codes,
          Memory := createMemoryMap codes,
          InBuffer := some (), OutBuffer := some (),
          InQueue := none, OutQueue := none, Halted := false }

/-- `QueuedNew`: the machine with a queue on either side. -/
def QueuedNew (program : List Char) : Except Fault Computer :=
  match Parser program with
  | .error e => .error e
  | .ok codes =>
    .ok { Position := 0, RPosition := 0, Codes := codes,
          Memory := createMemoryMap codes,
          InBuffer := none, OutBuffer := none,
          InQueue := some [], OutQueue := some [], Halted := false }

/-! ## Memory and operand access -/

/-- `CheckAddress`: an absent address is created holding 0. -/
def CheckAddress (computer : Computer) (address : Int) : Computer :=
  match computer.Memory address with
  | some _ => computer
  | none => { computer with Memory := computer.Memory.store address 0 }

/-- `ReadMemory`. -/
def ReadMemory (computer : Computer) (address : Int) : Int × Computer :=
  let computer := CheckAddress computer address
  ((computer.Memory address).getD 0, computer)

/-- `WriteMemory`. -/
def WriteMemory (computer : Computer) (address value : Int) : Computer :=
  let computer := CheckAddress computer address
  { computer with Memory := computer.Memory.store address value }

/-- `Next`. -/
def Next (computer : Computer) : Computer :=
  { computer with Position := intAdd computer.Position 1 }

/-- `Jump`. -/
def Jump (computer : Computer) (address : Int) : Computer :=
  let computer := CheckAddress computer address
  { computer with Position := address }

/-- `RelativeJump`. -/
def RelativeJump (computer : Computer) (address : Int) : Computer :=
  let relativeAddress := intAdd computer.RPosition address
  let computer := CheckAddress computer relativeAddress
  { computer with RPosition := relativeAddress }

/-- `Read`. -/
def Read (computer : Computer) : Int × Computer :=
  ReadMemory computer computer.Position

/-- `ReadRelative`. -/
def ReadRelative (computer : Computer) (address : Int) : Int × Computer :=
  ReadMemory computer (intAdd computer.RPosition address)

/-- `ReadNext`. -/
def ReadNext (computer : Computer) : Int × Computer :=
  Read (Next computer)

/-- `ReadRelativeNext`. -/
def ReadRelativeNext (computer : Computer) : Int × Computer :=
  let r := ReadNext computer
  ReadRelative r.2 r.1

/-- `ReadFromNext`. -/
def ReadFromNext (computer : Computer) : Int × Computer :=
  let r := ReadNext computer
  ReadMemory r.2 r.1

/-- `ReadFromRelativeNext`. -/
def ReadFromRelativeNext (computer : Computer) : Int × Computer :=
  let r := ReadRelativeNext computer
  ReadMemory r.2 r.1

/-- `ReadNextGivenMode`. -/
def ReadNextGivenMode (computer : Computer) (mode : Int) : Res Int :=
  if mode = 0 then
    let r := ReadFromNext computer
    .ok r.1 r.2
  else if mode = 1 then
    let r := ReadNext computer
    .ok r.1 r.2
  else if mode = 2 then
    let r := ReadRelativeNext computer
    .ok r.1 r.2
  else .panic (.unknownMode mode) computer

/-- `WriteToNext`. -/
def WriteToNext (computer : Computer) (value : Int) : Computer :=
  let r := ReadNext computer
  WriteMemory r.2 r.1 value

/-- `WriteToRelative`. -/
def WriteToRelative (computer : Computer) (value : Int) : Computer :=
  let r := ReadNext computer
  let address := intAdd computer.RPosition r.1
  WriteMemory r.2 address value

/-- `WriteNextGivenMode`. -/
def WriteNextGivenMode (computer : Computer) (mode : Int) (value : Int) : Res Unit :=
  if mode = 0 then .ok () (WriteToNext computer value)
  else if mode = 1 then .panic .illegalWriteMode computer
  else if mode = 2 then .ok () (WriteToRelative computer value)
  else .panic (.unknownMode mode) computer

/-! ## The decoder -/

/-- The table `expectedModes` of `ReadOpcode`: parameters per operation. -/
def expectedModes (opcode : Int) : Option Nat :=
  if opcode = 1 then some 3
  else if opcode = 2 then some 3
  else if opcode = 3 then some 1
  else if opcode = 4 then some 1
  else if opcode = 5 then some 2
  else if opcode = 6 then some 2
  else if opcode = 7 then some 3
  else if opcode = 8 then some 3
  else if opcode = 9 then some 1
  else none

/-- The padding loop of `ReadOpcode`: `count` times `params = "0" + params`. -/
def padZeroes : Nat → List Char → List Char
  | 0, params => params
  | count + 1, params => padZeroes count ('0' :: params)

/-- The mode loop of `ReadOpcode` over the characters in the order it visits
them: each is converted and appended. -/
def runesToModes : List Char → Except Fault (List Int)
  | [] => .ok []
  | param :: rest =>
    match RuneToInt param with
    | .error e => .error e
    | .ok mode =>
      match runesToModes rest with
      | .error e => .error e
      | .ok modes => .ok (mode :: modes)

/-- `ReadOpcode`.  The receiver is only read (its `Position` goes into the
panic message), so the result is the opcode or the fault.  The last loop
reads `params[paramsSize-p]` for `p = 1, ..., paramsSize`, the characters
from the last to the first. -/
def ReadOpcode (computer : Computer) (value : Int) : Except Fault Opcode :=
  if value = 99 then .ok { Value := value, Modes := [] }
  else
    let parsed := IntToString value
    let parsedSize := parsed.length
    let padded := decide (parsedSize < 2)
    let parsed := if padded then '0' :: parsed else parsed
    let parsedSize := if padded then 2 else parsedSize
    match StringToInt (parsed.drop (parsedSize - 2)) with
    | .error e => .error e
    | .ok opcode =>
      let params := parsed.take (parsedSize - 2)
      let paramsSize := params.length
      match expectedModes opcode with
      | none => .error (.unknownOpcode value computer.Position)
      | some expecting =>
        let params :=
          if paramsSize < expecting then padZeroes (expecting - paramsSize) params
          else params
        match runesToModes params.reverse with
        | .error e => .error e
        | .ok modes => .ok { Value := opcode, Modes := modes }

/-- `ReadNextOpcode`. -/
def ReadNextOpcode (computer : Computer) : Res Opcode :=
  let r := Read computer
  match ReadOpcode r.2 r.1 with
  | .ok opcode => .ok opcode r.2
  | .error e => .panic e r.2

/-! ## Execution -/

/-- The index expression `opcode.Modes[i]`, which panics outside the slice. -/
def modeAt (opcode : Opcode) (i : Nat) (computer : Computer) : Res Int :=
  match opcode.Modes[i]? with
  | some mode => .ok mode computer
  | none => .panic .indexOutOfRange computer

/-- Outcome of `Step`: it returns, it panics, or it waits for ever on a
channel nobody serves. -/
inductive StepResult where
  | ok (computer : Computer) (world : World)
  | panic (fault : Fault) (computer : Computer) (world : World)
  | blocked (computer : Computer) (world : World)

/-- A step that does not touch the world. -/
def StepResult.ofRes (r : Res Unit) (world : World) : StepResult :=
  match r with
  | .ok _ computer => .ok computer world
  | .panic fault computer => .panic fault computer world

/-- Cases ADD and MUL of `Step`; `op` is Go's `+` or `*`. -/
def stepArith (op : Int → Int → Int) (opcode : Opcode) (computer : Computer) : Res Unit :=
  (modeAt opcode 0 computer).andThen fun mode0 computer =>
  (ReadNextGivenMode computer mode0).andThen fun value1 computer =>
  (modeAt opcode 1 computer).andThen fun mode1 computer =>
  (ReadNextGivenMode computer mode1).andThen fun value2 computer =>
  (modeAt opcode 2 computer).andThen fun mode2 computer =>
  (WriteNextGivenMode computer mode2 (op value1 value2)).andThen fun _ computer =>
  .ok () (Next computer)

/-- Cases LST and EQT of `Step`; `test` is `<` or `==`. -/
def stepCompare (test : Int → Int → Bool) (opcode : Opcode) (computer : Computer) : Res Unit :=
  (modeAt opcode 0 computer).andThen fun mode0 computer =>
  (ReadNextGivenMode computer mode0).andThen fun value1 computer =>
  (modeAt opcode 1 computer).andThen fun mode1 computer =>
  (ReadNextGivenMode computer mode1).andThen fun value2 computer =>
  (if test value1 value2 then
    (modeAt opcode 2 computer).andThen fun mode2 computer =>
    WriteNextGivenMode computer mode2 1
  else
    (modeAt opcode 2 computer).andThen fun mode2 computer =>
    WriteNextGivenMode computer mode2 0).andThen fun _ computer =>
  .ok () (Next computer)

/-- Cases JIT and JIF of `Step`; `test` is `check != 0` or `check == 0`. -/
def stepJump (test : Int → Bool) (opcode : Opcode) (computer : Computer) : Res Unit :=
  (modeAt opcode 0 computer).andThen fun mode0 computer =>
  (ReadNextGivenMode computer mode0).andThen fun check computer =>
  (modeAt opcode 1 computer).andThen fun mode1 computer =>
  (ReadNextGivenMode computer mode1).andThen fun position computer =>
  if test check then .ok () (Jump computer position)
  else .ok () (Next computer)

/-- The end of case GET of `Step`, once the input value is there. -/
def stepStore (opcode : Opcode) (computer : Computer) (input : Int) : Res Unit :=
  (modeAt opcode 0 computer).andThen fun mode0 computer =>
  (WriteNextGivenMode computer mode0 input).andThen fun _ computer =>
  .ok () (Next computer)

/-- Case GET of `Step`. -/
def stepInput (opcode : Opcode) (computer : Computer) (world : World) : StepResult :=
  if computer.InBuffer = none ∧ computer.InQueue = none then
    match world.supply with
    | [] => .panic .scanError computer world
    | input :: rest =>
      StepResult.ofRes (stepStore opcode computer input) { world with supply := rest }
  else if computer.InBuffer ≠ none then
    match world.supply with
    | [] => .blocked computer world
    | input :: rest =>
      StepResult.ofRes (stepStore opcode computer input) { world with supply := rest }
  else
    match computer.InQueue with
    | none => StepResult.ofRes (stepStore opcode computer 0) world
    | some queue =>
      match queue.getLast? with
      | none => .panic .indexOutOfRange computer world
      | some input =>
        StepResult.ofRes
          (stepStore opcode { computer with InQueue := some queue.dropLast } input) world

/-- Case SHW of `Step`. -/
def stepOutput (opcode : Opcode) (computer : Computer) (world : World) : StepResult :=
  match (modeAt opcode 0 computer).andThen fun mode0 computer =>
      ReadNextGivenMode computer mode0 with
  | .panic fault computer => .panic fault computer world
  | .ok value computer =>
    if computer.OutBuffer = none ∧ computer.OutQueue = none then
      .ok (Next computer) { world with emitted := world.emitted ++ [value] }
    else if computer.OutBuffer ≠ none then
      .ok (Next computer) { world with emitted := world.emitted ++ [value] }
    else
      match computer.OutQueue with
      | none => .ok (Next computer) world
      | some queue => .ok (Next { computer with OutQueue := some (queue ++ [value]) }) world

/-- Case ARP of `Step`. -/
def stepRelative (opcode : Opcode) (computer : Computer) : Res Unit :=
  (modeAt opcode 0 computer).andThen fun mode0 computer =>
  (ReadNextGivenMode computer mode0).andThen fun position computer =>
  .ok () (Next (RelativeJump computer position))

/-- `Step`. -/
def Step (computer : Computer) (world : World) : StepResult :=
  match ReadNextOpcode computer with
  | .panic fault computer => .panic fault computer world
  | .ok opcode computer =>
    if opcode.Value = 1 then
      StepResult.ofRes (stepArith intAdd opcode computer) world
    else if opcode.Value = 2 then
      StepResult.ofRes (stepArith intMul opcode computer) world
    else if opcode.Value = 3 then stepInput opcode computer world
    else if opcode.Value = 4 then stepOutput opcode computer world
    else if opcode.Value = 5 then
      StepResult.ofRes (stepJump (fun check => decide (check ≠ 0)) opcode computer) world
    else if opcode.Value = 6 then
      StepResult.ofRes (stepJump (fun check => decide (check = 0)) opcode computer) world
    else if opcode.Value = 7 then
      StepResult.ofRes (stepCompare (fun a b => decide (a < b)) opcode computer) world
    else if opcode.Value = 8 then
      StepResult.ofRes (stepCompare (fun a b => decide (a = b)) opcode computer) world
    else if opcode.Value = 9 then StepResult.ofRes (stepRelative opcode computer) world
    else if opcode.Value = 99 then .ok { computer with Halted := true } world
    else .panic (.invalidOpcode opcode.Value) computer world

/-- Outcome of `Run`: it returns the memory, it panics, it waits for ever, or
the fuel of the model is used up. -/
inductive RunResult where
  | done (memory : MemoryMap) (computer : Computer) (world : World)
  | panic (fault : Fault) (computer : Computer) (world : World)
  | blocked (computer : Computer) (world : World)
  | outOfFuel (computer : Computer) (world : World)

/-- `Run`: `Step` until `Halted`, at most `fuel` times. -/
def Run : Nat → Computer → World → RunResult
  | 0, computer, world => .outOfFuel computer world
  | fuel + 1, computer, world =>
    match Step computer world with
    | .ok computer world =>
      if computer.Halted then .done computer.Memory computer world
      else Run fuel computer world
    | .panic fault computer world => .panic fault computer world
    | .blocked computer world => .blocked computer world

/-- Whether `Run` returned. -/
def RunResult.returned : RunResult → Bool
  | .done _ _ _ => true
  | _ => false

/-- The machine a run ended with. -/
def RunResult.computer : RunResult → Computer
  | .done _ computer _ => computer
  | .panic _ computer _ => computer
  | .blocked computer _ => computer
  | .outOfFuel computer _ => computer

/-- The world a run ended with. -/
def RunResult.world : RunResult → World
  | .done _ _ world => world
  | .panic _ _ world => world
  | .blocked _ world => world
  | .outOfFuel _ world => world

/-- The memory `Run` returned, if it returned. -/
def RunResult.memory : RunResult → Option MemoryMap
  | .done memory _ _ => some memory
  | _ => none

/-- `Reset`. -/
def Reset (computer : Computer) : Computer :=
  { computer with
    Position := 0, RPosition := 0,
    Memory := createMemoryMap computer.Codes, Halted := false }

/-- `Load`. -/
def Load (computer : Computer) (program : List Char) : Except Fault Computer :=
  match Parser program with
  | .error e => .error e
  | .ok codes => .ok (Reset { computer with Codes := codes })

/-- A world with nothing to read and nothing emitted yet. -/
def World.silent : World :=
  { supply := [], emitted := [] }

/-! ## Observations used by the statements -/

/-- The value of an address, an absent address reading as 0. -/
def Computer.valueAt (computer : Computer) (address : Int) : Int :=
  (computer.Memory address).getD 0

/-- The operand resolver of the specification for a read: the parameter at
`cursor` taken as a pointer (mode 0), as a literal (mode 1), or as an offset
from the relative base (mode 2). -/
def Computer.operand (computer : Computer) (cursor mode : Int) : Int :=
  if mode = 0 then computer.valueAt (computer.valueAt cursor)
  else if mode = 1 then computer.valueAt cursor
  else computer.valueAt (intAdd computer.RPosition (computer.valueAt cursor))

/-- The operand resolver of the specification for a write target: the address
named by the parameter at `cursor` (mode 0) or the relative base plus that
parameter (mode 2). -/
def Computer.target (computer : Computer) (cursor mode : Int) : Int :=
  if mode = 0 then computer.valueAt cursor
  else intAdd computer.RPosition (computer.valueAt cursor)

/-- The table of the specification for the three-parameter operations:
ADD, MUL, LESS-THAN, EQUALS. -/
def threeParameterResult (operation a b : Int) : Int :=
  if operation = 1 then intAdd a b
  else if operation = 2 then intMul a b
  else if operation = 7 then (if a < b then 1 else 0)
  else (if a = b then 1 else 0)

/-- The condition of the specification for the two jumps: `a ≠ 0` for
JUMP-IF-TRUE, `a = 0` for JUMP-IF-FALSE. -/
def jumpCondition (operation a : Int) : Bool :=
  if operation = 5 then decide (a ≠ 0) else decide (a = 0)

/-- What a state shows: the registers, the program, the buffers and the value
of every address, an absent address reading as 0. -/
@[ext]
structure View where
  Position : Int
  RPosition : Int
  Codes : List Int
  value : Int → Int
  InBuffer : Option Chan
  OutBuffer : Option Chan
  InQueue : Option (List Int)
  OutQueue : Option (List Int)
  Halted : Bool

/-- The view of a machine. -/
def Computer.view (computer : Computer) : View :=
  { Position := computer.Position, RPosition := computer.RPosition,
    Codes := computer.Codes, value := computer.valueAt,
    InBuffer := computer.InBuffer, OutBuffer := computer.OutBuffer,
    InQueue := computer.InQueue, OutQueue := computer.OutQueue,
    Halted := computer.Halted }

/-- Every address present in the first machine is present in the second. -/
def memoryKept (c c1 : Computer) : Prop :=
  ∀ x, (c.Memory x).isSome = true → (c1.Memory x).isSome = true

/-- The view after `Next`. -/
def View.next (v : View) : View :=
  { v with Position := intAdd v.Position 1 }

/-- The operand resolver for a read, on a view. -/
def View.operand (v : View) (cursor mode : Int) : Int :=
  if mode = 0 then v.value (v.value cursor)
  else if mode = 1 then v.value cursor
  else v.value (intAdd v.RPosition (v.value cursor))

/-- The operand resolver for a write target, on a view. -/
def View.target (v : View) (cursor mode : Int) : Int :=
  if mode = 0 then v.value cursor
  else intAdd v.RPosition (v.value cursor)

/-- Go's `strings.Join(fields, ",")`. -/
def joinFields : List (List Char) → List Char
  | [] => []
  | field :: fields =>
    match fields with
    | [] => field
    | _ :: _ => field ++ ',' :: joinFields fields

/-- The program text of a sequence of integers: each element written in
decimal, with a leading `-` when negative, the elements joined with `,`. -/
def programText (codes : List Int) : List Char :=
  joinFields (codes.map IntToString)

/-- The machine `BufferedNew` builds from these codes. -/
def bufferedMachineOf (codes : List Int) : Computer :=
  { Position := 0, RPosition := 0, Codes := codes,
    Memory := createMemoryMap codes,
    InBuffer := some (), OutBuffer := some (),
    InQueue := none, OutQueue := none, Halted := false }

/-- The program `1102,a,b,7,4,7,99,0`: multiply the literals `a` and `b` into
address 7, emit address 7, halt. -/
def multiplyProgram (a b : Int) : List Int :=
  [1102, a, b, 7, 4, 7, 99, 0]

/-- The program `109,k,21101,v,0,j,204,j,99`: move the relative base by `k`,
store `v + 0` at offset `j` from the base, emit the value at offset `j` from
the base, halt. -/
def relativeProgram (k j v : Int) : List Int :=
  [109, k, 21101, v, 0, j, 204, j, 99]

/-- The first program of `TestComputer`. -/
def sampleCodes : List Int :=
  [1, 9, 10, 3, 2, 3, 11, 0, 99, 30, 40, 50]

/-- The self-reproducing program of `TestComputer`. -/
def quineCodes : List Int :=
  [109, 1, 204, -1, 1001, 100, 1, 100, 1008, 100, 16, 101, 1006, 101, 0, 99]

/-- The memory of the self-reproducing program when its loop has been run
`i` times (`i ≤ 15`): the program, then the stores of each round in the order
the machine makes them.  Round 1 creates the addresses 100 and 101 before it
writes them; every round writes the counter to 100 and the comparison result
0 to 101. -/
def quineMemory : Nat → MemoryMap
  | 0 => createMemoryMap quineCodes
  | 1 => ((((createMemoryMap quineCodes).store 100 0).store 100 1).store 101 0).store 101 0
  | i + 1 => ((quineMemory i).store 100 ((i : Int) + 1)).store 101 0

/-- The machine of the self-reproducing program when its loop has been run
`i` times: back at address 0, the relative base at `i`. -/
def quineState (i : Nat) : Computer :=
  { Position := 0, RPosition := (i : Int), Codes := quineCodes, Memory := quineMemory i,
    InBuffer := some (), OutBuffer := some (),
    InQueue := none, OutQueue := none, Halted := false }

/-- The world of the self-reproducing program when its loop has been run `i`
times: the first `i` values of the program have been emitted. -/
def quineWorld (i : Nat) : World :=
  { supply := [], emitted := quineCodes.take i }

/-- The number of parameters of an operation as the specification lists it:
3 for ADD, MUL, LESS-THAN and EQUALS, 2 for the two jumps, 1 for INPUT,
OUTPUT and ADJUST-RELATIVE-BASE. -/
def arity (operation : Int) : Nat :=
  if operation = 1 ∨ operation = 2 ∨ operation = 7 ∨ operation = 8 then 3
  else if operation = 5 ∨ operation = 6 then 2
  else 1

/-- A machine with the given memory image, at address 0, with no program
text kept and no buffers: the state `New` builds from these codes. -/
def machineOf (codes : List Int) : Computer :=
  { Position := 0, RPosition := 0, Codes := codes,
    Memory := createMemoryMap codes,
    InBuffer := none, OutBuffer := none,
    InQueue := none, OutQueue := none, Halted := false }

/-! ## The rest of the interface -/

/-- The machine a step ended with. -/
def StepResult.computer : StepResult → Computer
  | .ok computer _ => computer
  | .panic _ computer _ => computer
  | .blocked computer _ => computer

/-- The world a step ended with. -/
def StepResult.world : StepResult → World
  | .ok _ world => world
  | .panic _ _ world => world
  | .blocked _ world => world

/-- Whether `Step` did not run its instruction to the end: it panicked, or it
waits on a channel for ever. -/
def StepResult.failed : StepResult → Bool
  | .ok _ _ => false
  | _ => true

/-- Outcome of `StepUntil`: it returns the opcode found, it panics, it waits
for ever, or the fuel of the model is used up. -/
inductive UntilResult where
  | found (opcode : Int) (computer : Computer) (world : World)
  | panic (fault : Fault) (computer : Computer) (world : World)
  | blocked (computer : Computer) (world : World)
  | outOfFuel (computer : Computer) (world : World)

/-- `StepUntil`: at most `fuel` turns of its loop.  A turn decodes the next
instruction, returns the first of `opcodes` equal to its operation, and
otherwise calls `Step`. -/
def StepUntil : Nat → List Int → Computer → World → UntilResult
  | 0, _, computer, world => .outOfFuel computer world
  | fuel + 1, opcodes, computer, world =>
    match ReadNextOpcode computer with
    | .panic fault computer => .panic fault computer world
    | .ok nextOpcode computer =>
      match opcodes.find? (fun opcode => decide (opcode = nextOpcode.Value)) with
      | some opcode => .found opcode computer world
      | none =>
        match Step computer world with
        | .ok computer world => StepUntil fuel opcodes computer world
        | .panic fault computer world => .panic fault computer world
        | .blocked computer world => .blocked computer world

/-- `RunAndReset`: `Run`, then `Reset`.  The result carries the memory `Run`
returned (which `RunAndReset` drops) and the machine after `Reset`. -/
def RunAndReset (fuel : Nat) (computer : Computer) (world : World) : RunResult :=
  match Run fuel computer world with
  | .done memory computer world => .done memory (Reset computer) world
  | .panic fault computer world => .panic fault computer world
  | .blocked computer world => .blocked computer world
  | .outOfFuel computer world => .outOfFuel computer world

/-- `Input`.  A value sent on `InBuffer` joins the values the world still has
to hand to the machine; a value for the queue is appended to `InQueue`. -/
def Input (computer : Computer) (world : World) (value : Int) :
    Except Fault (Computer × World) :=
  if computer.InBuffer = none ∧ computer.InQueue = none then .error .cannotInput
  else if computer.InBuffer ≠ none then
    .ok (computer, { world with supply := world.supply ++ [value] })
  else
    match computer.InQueue with
    | none => .ok (computer, world)
    | some queue => .ok ({ computer with InQueue := some (queue ++ [value]) }, world)

/-- Outcome of `Output`: the value and the state, a panic, or a wait for ever
on a channel on which nothing was sent. -/
inductive OutputResult where
  | ok (value : Int) (computer : Computer) (world : World)
  | panic (fault : Fault) (computer : Computer) (world : World)
  | blocked (computer : Computer) (world : World)

/-- `Output`.  On a machine with `OutBuffer` the caller is the receiver of the
channel: it takes the oldest value sent and not yet received.  On a machine
with `OutQueue` it removes the last element of the queue. -/
def Output (computer : Computer) (world : World) : OutputResult :=
  if computer.OutBuffer ≠ none then
    match world.emitted with
    | [] => .blocked computer world
    | value :: rest => .ok value computer { world with emitted := rest }
  else
    match computer.OutQueue with
    | some queue =>
      match queue.getLast? with
      | none => .panic .indexOutOfRange computer world
      | some output => .ok output { computer with OutQueue := some queue.dropLast } world
    | none => .panic .cannotOutput computer world

/-- The machine `QueuedNew` builds from these codes. -/
def queuedMachineOf (codes : List Int) : Computer :=
  { Position := 0, RPosition := 0, Codes := codes,
    Memory := createMemoryMap codes,
    InBuffer := none, OutBuffer := none,
    InQueue := some [], OutQueue := some [], Halted := false }

/-- The states a machine goes through from `start` by calls of `Step` that
return, whatever the world offers at each call. -/
inductive Reachable (start : Computer) : Computer → Prop where
  | start : Reachable start start
  | step (c c1 : Computer) (w w1 : World) :
      Reachable start c → Step c w = .ok c1 w1 → Reachable start c1

/-- A machine whose `Halted` flag is set while `Position` holds an ADD
instruction, reached through exported methods only: `Run` of the program
`1,5,5,5,99,1` (which doubles address 5 and halts), then `Jump(0)`. -/
def haltedAdder : Computer :=
  Jump (Run 2 (machineOf [1, 5, 5, 5, 99, 1]) World.silent).computer 0

/-- The machine a method ended with. -/
def Res.computer {α : Type} : Res α → Computer
  | .ok _ computer => computer
  | .panic _ computer => computer

/-- The fields no instruction other than HALT changes: the program, the
`Halted` flag and the two channels. -/
def Computer.fixed (computer : Computer) : List Int × Bool × Option Chan × Option Chan :=
  (computer.Codes, computer.Halted, computer.InBuffer, computer.OutBuffer)

/-- Whether `Step` accepts the mode `mode` for parameter `i` of the operation
`operation`: 0 or 2 where it calls `WriteNextGivenMode` (the third parameter
of ADD, MUL, LST and EQT, the parameter of GET), and 0, 1 or 2 where it calls
`ReadNextGivenMode`. -/
def legalMode (operation : Int) (i : Nat) (mode : Int) : Prop :=
  if i = 2 ∨ operation = 3 then mode = 0 ∨ mode = 2 else mode = 0 ∨ mode = 1 ∨ mode = 2

/-- The machine with its output queue taken away: what is left is all that
an instruction other than OUTPUT reads. -/
def Computer.quiet (computer : Computer) : Computer :=
  { computer with OutQueue := none }

/-- The world with the emitted values taken away. -/
def World.quiet (world : World) : World :=
  { world with emitted := [] }

/-- A result with the output queue of its machine taken away. -/
def Res.quiet {α : Type} : Res α → Res α
  | .ok value computer => .ok value computer.quiet
  | .panic fault computer => .panic fault computer.quiet

/-- The outcome of a step with the output queue and the emitted values taken
away. -/
def StepResult.quiet : StepResult → StepResult
  | .ok computer world => .ok computer.quiet world.quiet
  | .panic fault computer world => .panic fault computer.quiet world.quiet
  | .blocked computer world => .blocked computer.quiet world.quiet

/-! ## Theorems -/

/-! ### Memory -/

theorem CheckAddress_fields (c : Computer) (a : Int) :
    (CheckAddress c a).Position = c.Position ∧ (CheckAddress c a).RPosition = c.RPosition ∧
    (CheckAddress c a).Codes = c.Codes ∧ (CheckAddress c a).InBuffer = c.InBuffer ∧
    (CheckAddress c a).OutBuffer = c.OutBuffer ∧ (CheckAddress c a).InQueue = c.InQueue ∧
    (CheckAddress c a).OutQueue = c.OutQueue ∧ (CheckAddress c a).Halted = c.Halted := by
  unfold CheckAddress
  split <;> simp

theorem valueAt_CheckAddress (c : Computer) (a x : Int) :
    (CheckAddress c a).valueAt x = c.valueAt x := by
  unfold CheckAddress
  split
  · rfl
  · rename_i hnone
    unfold Computer.valueAt MemoryMap.store
    by_cases h : x = a
    · subst h; simp [hnone]
    · simp [h]

theorem view_CheckAddress (c : Computer) (a : Int) : (CheckAddress c a).view = c.view := by
  obtain ⟨h1, h2, h3, h4, h5, h6, h7, h8⟩ := CheckAddress_fields c a
  apply View.ext <;> simp only [Computer.view, h1, h2, h3, h4, h5, h6, h7, h8]
  funext x
  exact valueAt_CheckAddress c a x

theorem ReadMemory_fst (c : Computer) (a : Int) : (ReadMemory c a).1 = c.valueAt a := by
  unfold ReadMemory CheckAddress Computer.valueAt
  split
  · rfl
  · rename_i hnone
    simp [MemoryMap.store, hnone]

theorem view_ReadMemory (c : Computer) (a : Int) : (ReadMemory c a).2.view = c.view :=
  view_CheckAddress c a

theorem view_WriteMemory (c : Computer) (a v : Int) :
    (WriteMemory c a v).view = { c.view with value := Function.update c.view.value a v } := by
  obtain ⟨h1, h2, h3, h4, h5, h6, h7, h8⟩ := CheckAddress_fields c a
  apply View.ext <;> simp only [WriteMemory, Computer.view, h1, h2, h3, h4, h5, h6, h7, h8]
  funext x
  have hv := valueAt_CheckAddress c a x
  unfold Computer.valueAt MemoryMap.store at *
  by_cases hx : x = a
  · subst hx; simp
  · simp [hx, Function.update, hv]

/-- C9: reading an address after writing a value to it returns that value,
for every machine state, address (present before or not) and value. -/
theorem read_after_write (c : Computer) (a v : Int) :
    (ReadMemory (WriteMemory c a v) a).1 = v := by
  rw [ReadMemory_fst]
  have h := congrFun (congrArg View.value (view_WriteMemory c a v)) a
  simpa [Computer.view] using h

theorem memoryKept_refl (c : Computer) : memoryKept c c := fun _ h => h

theorem memoryKept_trans {c c1 c2 : Computer} (h1 : memoryKept c c1) (h2 : memoryKept c1 c2) :
    memoryKept c c2 := fun x h => h2 x (h1 x h)

theorem CheckAddress_kept (c : Computer) (a : Int) : memoryKept c (CheckAddress c a) := by
  intro x hx
  unfold CheckAddress
  split
  · exact hx
  · simp only [MemoryMap.store]
    by_cases h : x = a
    · simp [h]
    · simpa [h] using hx

theorem ReadMemory_kept (c : Computer) (a : Int) : memoryKept c (ReadMemory c a).2 :=
  CheckAddress_kept c a

theorem ReadNext_kept (c : Computer) : memoryKept c (ReadNext c).2 :=
  CheckAddress_kept (Next c) (Next c).Position

theorem ReadNextGivenMode_kept (c : Computer) (mode value : Int) (c1 : Computer)
    (h : ReadNextGivenMode c mode = .ok value c1) : memoryKept c c1 := by
  unfold ReadNextGivenMode at h
  split_ifs at h
  · injection h with _ hc
    rw [← hc]
    exact memoryKept_trans (ReadNext_kept c) (ReadMemory_kept _ _)
  · injection h with _ hc
    rw [← hc]
    exact ReadNext_kept c
  · injection h with _ hc
    rw [← hc]
    exact memoryKept_trans (ReadNext_kept c) (ReadMemory_kept _ _)

/-! ### Operand access -/

theorem wrapInt_add_left (x y : Int) : wrapInt (wrapInt x + y) = wrapInt (x + y) := by
  unfold wrapInt; omega

theorem wrapInt_of_isInt64 (x : Int) (h : isInt64 x) : wrapInt x = x := by
  unfold isInt64 at h; unfold wrapInt; omega

theorem isInt64_wrapInt (x : Int) : isInt64 (wrapInt x) := by
  unfold isInt64 wrapInt; omega

/-- Go's `+` is the exact sum whenever that fits in 64 bits. -/
theorem intAdd_of_fits (a b : Int) (h : isInt64 (a + b)) : intAdd a b = a + b :=
  wrapInt_of_isInt64 _ h

theorem intAdd_intAdd (p a b : Int) : intAdd (intAdd p a) b = intAdd p (a + b) := by
  unfold intAdd
  rw [wrapInt_add_left, add_assoc]

theorem operand_eq_view (c : Computer) (cursor mode : Int) :
    c.operand cursor mode = c.view.operand cursor mode := rfl

theorem target_eq_view (c : Computer) (cursor mode : Int) :
    c.target cursor mode = c.view.target cursor mode := rfl

theorem view_Next (c : Computer) : (Next c).view = c.view.next := rfl

theorem ReadNext_fst (c : Computer) :
    (ReadNext c).1 = c.view.value (intAdd c.view.Position 1) := by
  unfold ReadNext Read
  rw [ReadMemory_fst]
  rfl

theorem view_ReadNext (c : Computer) : (ReadNext c).2.view = c.view.next := by
  unfold ReadNext Read
  rw [view_ReadMemory, view_Next]

theorem ReadNextGivenMode_spec (c : Computer) (mode : Int)
    (hmode : mode = 0 ∨ mode = 1 ∨ mode = 2) :
    ∃ c1, ReadNextGivenMode c mode
        = .ok (c.view.operand (intAdd c.view.Position 1) mode) c1 ∧ c1.view = c.view.next := by
  have hv : ∀ x, (ReadNext c).2.valueAt x = c.view.value x := fun x => by
    have := congrArg View.value (view_ReadNext c)
    exact congrFun this x
  have hr : (ReadNext c).2.RPosition = c.view.RPosition :=
    congrArg View.RPosition (view_ReadNext c)
  rcases hmode with h | h | h
  · subst h
    refine ⟨(ReadFromNext c).2, ?_, ?_⟩
    · simp only [ReadNextGivenMode, if_true, View.operand]
      congr 1
      unfold ReadFromNext
      rw [ReadMemory_fst, hv, ReadNext_fst]
    · unfold ReadFromNext
      rw [view_ReadMemory, view_ReadNext]
  · subst h
    refine ⟨(ReadNext c).2, ?_, view_ReadNext c⟩
    simp only [ReadNextGivenMode, View.operand]
    simp [ReadNext_fst]
  · subst h
    refine ⟨(ReadRelativeNext c).2, ?_, ?_⟩
    · simp only [ReadNextGivenMode, View.operand]
      simp only [show ((2 : Int) = 0) = False by decide, show ((2 : Int) = 1) = False by decide,
        if_false, if_true]
      congr 1
      unfold ReadRelativeNext ReadRelative
      rw [ReadMemory_fst, hv, hr, ReadNext_fst]
    · unfold ReadRelativeNext ReadRelative
      rw [view_ReadMemory, view_ReadNext]

theorem WriteMemory_Memory (c : Computer) (a v : Int) : (WriteMemory c a v).Memory a = some v := by
  simp [WriteMemory, MemoryMap.store]

theorem WriteNextGivenMode_spec (c : Computer) (mode value : Int)
    (hmode : mode = 0 ∨ mode = 2) :
    ∃ c1, WriteNextGivenMode c mode value = .ok () c1 ∧
      c1.view = { c.view.next with
        value := Function.update c.view.value
          (c.view.target (intAdd c.view.Position 1) mode) value } ∧
      c1.Memory (c.view.target (intAdd c.view.Position 1) mode) = some value := by
  rcases hmode with h | h
  · subst h
    refine ⟨WriteToNext c value, ?_, ?_, ?_⟩
    · simp [WriteNextGivenMode]
    · unfold WriteToNext
      rw [view_WriteMemory, view_ReadNext, ReadNext_fst]
      simp [View.target, View.next]
    · have ht : c.view.target (intAdd c.view.Position 1) 0 = (ReadNext c).1 := by
        rw [ReadNext_fst]; simp [View.target]
      rw [ht]
      exact WriteMemory_Memory _ _ _
  · subst h
    refine ⟨WriteToRelative c value, ?_, ?_, ?_⟩
    · simp [WriteNextGivenMode]
    · unfold WriteToRelative
      rw [view_WriteMemory, view_ReadNext, ReadNext_fst]
      simp [View.target, View.next, Computer.view]
    · have ht : c.view.target (intAdd c.view.Position 1) 2
          = intAdd c.RPosition (ReadNext c).1 := by
        rw [ReadNext_fst]; simp [View.target, Computer.view]
      rw [ht]
      exact WriteMemory_Memory _ _ _

/-! ### The instructions -/

theorem Res.andThen_ok {α β : Type} (a : α) (c : Computer) (k : α → Computer → Res β) :
    (Res.ok a c).andThen k = k a c := rfl

theorem modeAt_eq (opcode : Opcode) (i : Nat) (c : Computer) (m : Int)
    (h : opcode.Modes[i]? = some m) : modeAt opcode i c = .ok m c := by
  unfold modeAt; rw [h]

theorem stepArith_spec (op : Int → Int → Int) (opcode : Opcode) (c : Computer)
    (m0 m1 m2 : Int)
    (h0 : opcode.Modes[0]? = some m0) (h1 : opcode.Modes[1]? = some m1)
    (h2 : opcode.Modes[2]? = some m2)
    (hm0 : m0 = 0 ∨ m0 = 1 ∨ m0 = 2) (hm1 : m1 = 0 ∨ m1 = 1 ∨ m1 = 2)
    (hm2 : m2 = 0 ∨ m2 = 2) :
    ∃ c1, stepArith op opcode c = .ok () c1 ∧
      c1.view = { c.view with
        Position := intAdd c.view.Position 4,
        value := Function.update c.view.value
          (c.view.target (intAdd c.view.Position 3) m2)
          (op (c.view.operand (intAdd c.view.Position 1) m0)
              (c.view.operand (intAdd c.view.Position 2) m1)) } ∧
      c1.Memory (c.view.target (intAdd c.view.Position 3) m2)
        = some (op (c.view.operand (intAdd c.view.Position 1) m0)
              (c.view.operand (intAdd c.view.Position 2) m1)) := by
  obtain ⟨c1, e1, v1⟩ := ReadNextGivenMode_spec c m0 hm0
  obtain ⟨c2, e2, v2⟩ := ReadNextGivenMode_spec c1 m1 hm1
  have hb : c1.view.operand (intAdd c1.view.Position 1) m1
      = c.view.operand (intAdd c.view.Position 2) m1 := by
    rw [v1]; simp [View.next, View.operand, intAdd_intAdd]
  have ht : c2.view.target (intAdd c2.view.Position 1) m2
      = c.view.target (intAdd c.view.Position 3) m2 := by
    rw [v2, v1]; simp [View.next, View.target, intAdd_intAdd]
  obtain ⟨c3, e3, v3, p3⟩ := WriteNextGivenMode_spec c2 m2
    (op (c.view.operand (intAdd c.view.Position 1) m0)
      (c.view.operand (intAdd c.view.Position 2) m1)) hm2
  refine ⟨Next c3, ?_, ?_, ?_⟩
  · unfold stepArith
    rw [modeAt_eq _ _ _ _ h0, Res.andThen_ok, e1, Res.andThen_ok, modeAt_eq _ _ _ _ h1,
      Res.andThen_ok, e2, Res.andThen_ok, hb, modeAt_eq _ _ _ _ h2, Res.andThen_ok, e3,
      Res.andThen_ok]
  · rw [view_Next, v3, ht, v2, v1]
    simp [View.next, intAdd_intAdd]
  · rw [ht] at p3
    exact p3

theorem stepCompare_spec (test : Int → Int → Bool) (opcode : Opcode) (c : Computer)
    (m0 m1 m2 : Int)
    (h0 : opcode.Modes[0]? = some m0) (h1 : opcode.Modes[1]? = some m1)
    (h2 : opcode.Modes[2]? = some m2)
    (hm0 : m0 = 0 ∨ m0 = 1 ∨ m0 = 2) (hm1 : m1 = 0 ∨ m1 = 1 ∨ m1 = 2)
    (hm2 : m2 = 0 ∨ m2 = 2) :
    ∃ c1, stepCompare test opcode c = .ok () c1 ∧
      c1.view = { c.view with
        Position := intAdd c.view.Position 4,
        value := Function.update c.view.value
          (c.view.target (intAdd c.view.Position 3) m2)
          (if test (c.view.operand (intAdd c.view.Position 1) m0)
              (c.view.operand (intAdd c.view.Position 2) m1) then 1 else 0) } ∧
      c1.Memory (c.view.target (intAdd c.view.Position 3) m2)
        = some (if test (c.view.operand (intAdd c.view.Position 1) m0)
              (c.view.operand (intAdd c.view.Position 2) m1) then 1 else 0) := by
  obtain ⟨c1, e1, v1⟩ := ReadNextGivenMode_spec c m0 hm0
  obtain ⟨c2, e2, v2⟩ := ReadNextGivenMode_spec c1 m1 hm1
  have hb : c1.view.operand (intAdd c1.view.Position 1) m1
      = c.view.operand (intAdd c.view.Position 2) m1 := by
    rw [v1]; simp [View.next, View.operand, intAdd_intAdd]
  have htg : c2.view.target (intAdd c2.view.Position 1) m2
      = c.view.target (intAdd c.view.Position 3) m2 := by
    rw [v2, v1]; simp [View.next, View.target, intAdd_intAdd]
  by_cases ht : test (c.view.operand (intAdd c.view.Position 1) m0)
      (c.view.operand (intAdd c.view.Position 2) m1) = true
  · obtain ⟨c3, e3, v3, p3⟩ := WriteNextGivenMode_spec c2 m2 1 hm2
    refine ⟨Next c3, ?_, ?_, ?_⟩
    · unfold stepCompare
      rw [modeAt_eq _ _ _ _ h0, Res.andThen_ok, e1, Res.andThen_ok, modeAt_eq _ _ _ _ h1,
        Res.andThen_ok, e2, Res.andThen_ok, hb, if_pos ht, modeAt_eq _ _ _ _ h2,
        Res.andThen_ok, e3, Res.andThen_ok]
    · rw [view_Next, v3, htg, v2, v1, if_pos ht]
      simp [View.next, intAdd_intAdd]
    · rw [htg] at p3
      rw [if_pos ht]; exact p3
  · obtain ⟨c3, e3, v3, p3⟩ := WriteNextGivenMode_spec c2 m2 0 hm2
    refine ⟨Next c3, ?_, ?_, ?_⟩
    · unfold stepCompare
      rw [modeAt_eq _ _ _ _ h0, Res.andThen_ok, e1, Res.andThen_ok, modeAt_eq _ _ _ _ h1,
        Res.andThen_ok, e2, Res.andThen_ok, hb, if_neg ht, modeAt_eq _ _ _ _ h2,
        Res.andThen_ok, e3, Res.andThen_ok]
    · rw [view_Next, v3, htg, v2, v1, if_neg ht]
      simp [View.next, intAdd_intAdd]
    · rw [htg] at p3
      rw [if_neg ht]; exact p3

theorem view_Jump (c : Computer) (address : Int) :
    (Jump c address).view = { c.view with Position := address } := by
  obtain ⟨h1, h2, h3, h4, h5, h6, h7, h8⟩ := CheckAddress_fields c address
  apply View.ext <;> simp only [Jump, Computer.view, h1, h2, h3, h4, h5, h6, h7, h8]
  funext x
  exact valueAt_CheckAddress c address x

theorem view_RelativeJump (c : Computer) (address : Int) :
    (RelativeJump c address).view
      = { c.view with RPosition := intAdd c.view.RPosition address } := by
  obtain ⟨h1, h2, h3, h4, h5, h6, h7, h8⟩ :=
    CheckAddress_fields c (intAdd c.RPosition address)
  apply View.ext <;> simp only [RelativeJump, Computer.view, h1, h2, h3, h4, h5, h6, h7, h8]
  funext x
  exact valueAt_CheckAddress c _ x

theorem stepJump_spec (test : Int → Bool) (opcode : Opcode) (c : Computer)
    (m0 m1 : Int)
    (h0 : opcode.Modes[0]? = some m0) (h1 : opcode.Modes[1]? = some m1)
    (hm0 : m0 = 0 ∨ m0 = 1 ∨ m0 = 2) (hm1 : m1 = 0 ∨ m1 = 1 ∨ m1 = 2) :
    ∃ c1, stepJump test opcode c = .ok () c1 ∧
      c1.view = { c.view with
        Position :=
          if test (c.view.operand (intAdd c.view.Position 1) m0)
          then c.view.operand (intAdd c.view.Position 2) m1
          else intAdd c.view.Position 3 } := by
  obtain ⟨c1, e1, v1⟩ := ReadNextGivenMode_spec c m0 hm0
  obtain ⟨c2, e2, v2⟩ := ReadNextGivenMode_spec c1 m1 hm1
  have hb : c1.view.operand (intAdd c1.view.Position 1) m1
      = c.view.operand (intAdd c.view.Position 2) m1 := by
    rw [v1]; simp [View.next, View.operand, intAdd_intAdd]
  by_cases ht : test (c.view.operand (intAdd c.view.Position 1) m0) = true
  · refine ⟨Jump c2 (c.view.operand (intAdd c.view.Position 2) m1), ?_, ?_⟩
    · unfold stepJump
      rw [modeAt_eq _ _ _ _ h0, Res.andThen_ok, e1, Res.andThen_ok, modeAt_eq _ _ _ _ h1,
        Res.andThen_ok, e2, Res.andThen_ok, hb, if_pos ht]
    · rw [view_Jump, v2, v1, if_pos ht]
      simp [View.next]
  · refine ⟨Next c2, ?_, ?_⟩
    · unfold stepJump
      rw [modeAt_eq _ _ _ _ h0, Res.andThen_ok, e1, Res.andThen_ok, modeAt_eq _ _ _ _ h1,
        Res.andThen_ok, e2, Res.andThen_ok, if_neg ht]
    · rw [view_Next, v2, v1, if_neg ht]
      simp [View.next, intAdd_intAdd]

theorem stepRelative_spec (opcode : Opcode) (c : Computer) (m0 : Int)
    (h0 : opcode.Modes[0]? = some m0) (hm0 : m0 = 0 ∨ m0 = 1 ∨ m0 = 2) :
    ∃ c1, stepRelative opcode c = .ok () c1 ∧
      c1.view = { c.view with
        Position := intAdd c.view.Position 2,
        RPosition := intAdd c.view.RPosition (c.view.operand (intAdd c.view.Position 1) m0) } := by
  obtain ⟨c1, e1, v1⟩ := ReadNextGivenMode_spec c m0 hm0
  refine ⟨Next (RelativeJump c1 (c.view.operand (intAdd c.view.Position 1) m0)), ?_, ?_⟩
  · unfold stepRelative
    rw [modeAt_eq _ _ _ _ h0, Res.andThen_ok, e1, Res.andThen_ok]
  · rw [view_Next, view_RelativeJump, v1]
    simp [View.next, intAdd_intAdd]

theorem stepOutput_spec (opcode : Opcode) (c : Computer) (w : World) (m0 : Int)
    (h0 : opcode.Modes[0]? = some m0) (hm0 : m0 = 0 ∨ m0 = 1 ∨ m0 = 2)
    (hq : c.OutQueue = none) :
    ∃ c1, stepOutput opcode c w
        = .ok c1 { w with
            emitted := w.emitted ++ [c.view.operand (intAdd c.view.Position 1) m0] } ∧
      c1.view = { c.view with Position := intAdd c.view.Position 2 } ∧ memoryKept c c1 := by
  obtain ⟨c1, e1, v1⟩ := ReadNextGivenMode_spec c m0 hm0
  have hq1 : c1.OutQueue = none := by
    have := congrArg View.OutQueue v1
    simpa [Computer.view, View.next, hq] using this
  refine ⟨Next c1, ?_, ?_, ReadNextGivenMode_kept c m0 _ c1 e1⟩
  · unfold stepOutput
    rw [modeAt_eq _ _ _ _ h0, Res.andThen_ok, e1]
    by_cases hb : c1.OutBuffer = none
    · simp [hb, hq1]
    · simp [hb, hq1]
  · rw [view_Next, v1]
    simp [View.next, intAdd_intAdd]

theorem ReadOpcode_congr (c c1 : Computer) (value : Int) (h : c1.Position = c.Position) :
    ReadOpcode c1 value = ReadOpcode c value := by
  unfold ReadOpcode; rw [h]

theorem ReadNextOpcode_of_decode (c : Computer) (opcode : Opcode)
    (hdec : ReadOpcode c (c.valueAt c.Position) = .ok opcode) :
    ∃ c0, ReadNextOpcode c = .ok opcode c0 ∧ c0.view = c.view ∧ memoryKept c c0 := by
  refine ⟨(Read c).2, ?_, view_ReadMemory c c.Position, ReadMemory_kept c c.Position⟩
  have hp : (Read c).2.Position = c.Position := (CheckAddress_fields c c.Position).1
  have hv : (Read c).1 = c.valueAt c.Position := ReadMemory_fst c c.Position
  unfold ReadNextOpcode
  simp only [ReadOpcode_congr c _ _ hp, hv, hdec]

/-- `Step` on a three-parameter instruction, on the view. -/
theorem Step_three_view (c : Computer) (w : World) (opcode : Opcode) (m0 m1 m2 : Int)
    (hdec : ReadOpcode c (c.valueAt c.Position) = .ok opcode)
    (hop : opcode.Value = 1 ∨ opcode.Value = 2 ∨ opcode.Value = 7 ∨ opcode.Value = 8)
    (h0 : opcode.Modes[0]? = some m0) (h1 : opcode.Modes[1]? = some m1)
    (h2 : opcode.Modes[2]? = some m2)
    (hm0 : m0 = 0 ∨ m0 = 1 ∨ m0 = 2) (hm1 : m1 = 0 ∨ m1 = 1 ∨ m1 = 2)
    (hm2 : m2 = 0 ∨ m2 = 2) :
    ∃ c1, Step c w = .ok c1 w ∧
      c1.view = { c.view with
        Position := intAdd c.view.Position 4,
        value := Function.update c.view.value
          (c.view.target (intAdd c.view.Position 3) m2)
          (threeParameterResult opcode.Value
            (c.view.operand (intAdd c.view.Position 1) m0)
            (c.view.operand (intAdd c.view.Position 2) m1)) } ∧
      c1.Memory (c.view.target (intAdd c.view.Position 3) m2)
        = some (threeParameterResult opcode.Value
            (c.view.operand (intAdd c.view.Position 1) m0)
            (c.view.operand (intAdd c.view.Position 2) m1)) := by
  obtain ⟨c0, hread, hv0, hk0⟩ := ReadNextOpcode_of_decode c opcode hdec
  rcases hop with h | h | h | h
  · obtain ⟨c1, e, v, p⟩ := stepArith_spec intAdd opcode c0 m0 m1 m2 h0 h1 h2 hm0 hm1 hm2
    rw [hv0] at v p
    refine ⟨c1, ?_, ?_, ?_⟩
    · simp only [Step, hread, h, e, StepResult.ofRes, Int.reduceEq, if_false, if_true]
    · simpa [threeParameterResult, h] using v
    · simpa [threeParameterResult, h] using p
  · obtain ⟨c1, e, v, p⟩ := stepArith_spec intMul opcode c0 m0 m1 m2 h0 h1 h2 hm0 hm1 hm2
    rw [hv0] at v p
    refine ⟨c1, ?_, ?_, ?_⟩
    · simp only [Step, hread, h, e, StepResult.ofRes, Int.reduceEq, if_false, if_true]
    · simpa [threeParameterResult, h] using v
    · simpa [threeParameterResult, h] using p
  · obtain ⟨c1, e, v, p⟩ := stepCompare_spec (fun a b => decide (a < b)) opcode c0 m0 m1 m2
      h0 h1 h2 hm0 hm1 hm2
    rw [hv0] at v p
    refine ⟨c1, ?_, ?_, ?_⟩
    · simp only [Step, hread, h, e, StepResult.ofRes, Int.reduceEq, if_false, if_true]
    · simpa [threeParameterResult, h] using v
    · simpa [threeParameterResult, h] using p
  · obtain ⟨c1, e, v, p⟩ := stepCompare_spec (fun a b => decide (a = b)) opcode c0 m0 m1 m2
      h0 h1 h2 hm0 hm1 hm2
    rw [hv0] at v p
    refine ⟨c1, ?_, ?_, ?_⟩
    · simp only [Step, hread, h, e, StepResult.ofRes, Int.reduceEq, if_false, if_true]
    · simpa [threeParameterResult, h] using v
    · simpa [threeParameterResult, h] using p

/-- `Step` on a jump, on the view. -/
theorem Step_jump_view (c : Computer) (w : World) (opcode : Opcode) (m0 m1 : Int)
    (hdec : ReadOpcode c (c.valueAt c.Position) = .ok opcode)
    (hop : opcode.Value = 5 ∨ opcode.Value = 6)
    (h0 : opcode.Modes[0]? = some m0) (h1 : opcode.Modes[1]? = some m1)
    (hm0 : m0 = 0 ∨ m0 = 1 ∨ m0 = 2) (hm1 : m1 = 0 ∨ m1 = 1 ∨ m1 = 2) :
    ∃ c1, Step c w = .ok c1 w ∧
      c1.view = { c.view with
        Position :=
          if jumpCondition opcode.Value (c.view.operand (intAdd c.view.Position 1) m0) = true
          then c.view.operand (intAdd c.view.Position 2) m1
          else intAdd c.view.Position 3 } := by
  obtain ⟨c0, hread, hv0, hk0⟩ := ReadNextOpcode_of_decode c opcode hdec
  rcases hop with h | h
  · obtain ⟨c1, e, v⟩ := stepJump_spec (fun check => decide (check ≠ 0)) opcode c0 m0 m1
      h0 h1 hm0 hm1
    rw [hv0] at v
    refine ⟨c1, ?_, ?_⟩
    · simp only [Step, hread, h, e, StepResult.ofRes, Int.reduceEq, if_false, if_true]
    · simpa [jumpCondition, h] using v
  · obtain ⟨c1, e, v⟩ := stepJump_spec (fun check => decide (check = 0)) opcode c0 m0 m1
      h0 h1 hm0 hm1
    rw [hv0] at v
    refine ⟨c1, ?_, ?_⟩
    · simp only [Step, hread, h, e, StepResult.ofRes, Int.reduceEq, if_false, if_true]
    · simpa [jumpCondition, h] using v

/-- `Step` on OUTPUT of a machine without an output queue, on the view. -/
theorem Step_output_view (c : Computer) (w : World) (opcode : Opcode) (m0 : Int)
    (hdec : ReadOpcode c (c.valueAt c.Position) = .ok opcode)
    (hop : opcode.Value = 4)
    (h0 : opcode.Modes[0]? = some m0) (hm0 : m0 = 0 ∨ m0 = 1 ∨ m0 = 2)
    (hq : c.OutQueue = none) :
    ∃ c1, Step c w
        = .ok c1 { w with
            emitted := w.emitted ++ [c.view.operand (intAdd c.view.Position 1) m0] } ∧
      c1.view = { c.view with Position := intAdd c.view.Position 2 } ∧ memoryKept c c1 := by
  obtain ⟨c0, hread, hv0, hk0⟩ := ReadNextOpcode_of_decode c opcode hdec
  have hq0 : c0.OutQueue = none := by
    have := congrArg View.OutQueue hv0
    simpa [Computer.view, hq] using this
  obtain ⟨c1, e, v, k⟩ := stepOutput_spec opcode c0 w m0 h0 hm0 hq0
  rw [hv0] at v e
  refine ⟨c1, ?_, v, memoryKept_trans hk0 k⟩
  simp only [Step, hread, hop, e, Int.reduceEq, if_false, if_true]

/-- `Step` on ADJUST-RELATIVE-BASE, on the view. -/
theorem Step_relative_view (c : Computer) (w : World) (opcode : Opcode) (m0 : Int)
    (hdec : ReadOpcode c (c.valueAt c.Position) = .ok opcode)
    (hop : opcode.Value = 9)
    (h0 : opcode.Modes[0]? = some m0) (hm0 : m0 = 0 ∨ m0 = 1 ∨ m0 = 2) :
    ∃ c1, Step c w = .ok c1 w ∧
      c1.view = { c.view with
        Position := intAdd c.view.Position 2,
        RPosition := intAdd c.view.RPosition (c.view.operand (intAdd c.view.Position 1) m0) } := by
  obtain ⟨c0, hread, hv0, hk0⟩ := ReadNextOpcode_of_decode c opcode hdec
  obtain ⟨c1, e, v⟩ := stepRelative_spec opcode c0 m0 h0 hm0
  rw [hv0] at v
  refine ⟨c1, ?_, v⟩
  simp only [Step, hread, hop, e, StepResult.ofRes, Int.reduceEq, if_false, if_true]

/-- `Step` on HALT, on the view. -/
theorem Step_halt_view (c : Computer) (w : World) (opcode : Opcode)
    (hdec : ReadOpcode c (c.valueAt c.Position) = .ok opcode)
    (hop : opcode.Value = 99) :
    ∃ c1, Step c w = .ok c1 w ∧ c1.view = { c.view with Halted := true } ∧
      memoryKept c c1 := by
  obtain ⟨c0, hread, hv0, hk0⟩ := ReadNextOpcode_of_decode c opcode hdec
  refine ⟨{ c0 with Halted := true }, ?_, ?_, hk0⟩
  · simp only [Step, hread, hop, Int.reduceEq, if_false, if_true]
  · rw [← hv0]; rfl

theorem fields_of_view_write (c c1 : Computer) (position dst val : Int)
    (hv : c1.view = { c.view with
      Position := position, value := Function.update c.view.value dst val }) :
    c1.Position = position ∧ c1.RPosition = c.RPosition ∧ c1.Halted = c.Halted ∧
    c1.valueAt dst = val ∧ ∀ x, x ≠ dst → c1.valueAt x = c.valueAt x := by
  have hP := congrArg View.Position hv
  have hR := congrArg View.RPosition hv
  have hH := congrArg View.Halted hv
  have hV := congrArg View.value hv
  simp only [Computer.view] at hP hR hH hV
  refine ⟨hP, hR, hH, ?_, ?_⟩
  · rw [hV]; simp
  · intro x hx
    rw [hV]; simp [Function.update, hx]

theorem fields_of_view_move (c c1 : Computer) (position : Int)
    (hv : c1.view = { c.view with Position := position }) :
    c1.Position = position ∧ c1.RPosition = c.RPosition ∧ c1.Halted = c.Halted ∧
    ∀ x, c1.valueAt x = c.valueAt x := by
  have hP := congrArg View.Position hv
  have hR := congrArg View.RPosition hv
  have hH := congrArg View.Halted hv
  have hV := congrArg View.value hv
  simp only [Computer.view] at hP hR hH hV
  exact ⟨hP, hR, hH, fun x => congrFun hV x⟩

/-- C1: when the instruction at `Position` decodes to ADD (1), MUL (2),
LESS-THAN (7) or EQUALS (8) with read modes in {0,1,2} for the first two
parameters and write mode 0 or 2 for the third, `Step` returns, the
destination resolved from the third parameter holds `f a b` for the operands
`a`, `b` resolved in the state before the step (`f` being Go's `+`, Go's `*`,
`1 if a < b else 0`, `1 if a = b else 0`), `Position` has moved by 4, and
`RPosition`, `Halted` and the value of every other address are as before
(an absent address reading as 0).  Go's `+` and `*` on `int` are `intAdd` and
`intMul`, the exact sum and product whenever these fit in 64 bits
(`intAdd_of_fits`, `intMul_of_fits`). -/
theorem step_three_parameter (c : Computer) (w : World) (opcode : Opcode) (m0 m1 m2 : Int)
    (hdec : ReadOpcode c (c.valueAt c.Position) = .ok opcode)
    (hop : opcode.Value = 1 ∨ opcode.Value = 2 ∨ opcode.Value = 7 ∨ opcode.Value = 8)
    (h0 : opcode.Modes[0]? = some m0) (h1 : opcode.Modes[1]? = some m1)
    (h2 : opcode.Modes[2]? = some m2)
    (hm0 : m0 = 0 ∨ m0 = 1 ∨ m0 = 2) (hm1 : m1 = 0 ∨ m1 = 1 ∨ m1 = 2)
    (hm2 : m2 = 0 ∨ m2 = 2) :
    ∃ c1, Step c w = .ok c1 w ∧
      c1.Position = intAdd c.Position 4 ∧ c1.RPosition = c.RPosition ∧
      c1.Halted = c.Halted ∧
      c1.valueAt (c.target (intAdd c.Position 3) m2)
        = threeParameterResult opcode.Value
            (c.operand (intAdd c.Position 1) m0) (c.operand (intAdd c.Position 2) m1) ∧
      ∀ x, x ≠ c.target (intAdd c.Position 3) m2 → c1.valueAt x = c.valueAt x := by
  obtain ⟨c1, hs, hv, _⟩ := Step_three_view c w opcode m0 m1 m2 hdec hop h0 h1 h2 hm0 hm1 hm2
  exact ⟨c1, hs, fields_of_view_write c c1 _ _ _ hv⟩

/-- Witness of C1: the instruction `1,5,6,7` (ADD, all modes 0) on the memory
image `1,5,6,7,99,30,12,0`. -/
theorem step_three_parameter_witness :
    ReadOpcode (machineOf [1, 5, 6, 7, 99, 30, 12, 0])
        ((machineOf [1, 5, 6, 7, 99, 30, 12, 0]).valueAt 0) = .ok ⟨1, [0, 0, 0]⟩ ∧
    ∃ c1, Step (machineOf [1, 5, 6, 7, 99, 30, 12, 0]) World.silent = .ok c1 World.silent ∧
      c1.Position = 4 ∧ c1.RPosition = 0 ∧ c1.Halted = false ∧ c1.valueAt 7 = 42 ∧
      ∀ x, x ≠ 7 → c1.valueAt x = (machineOf [1, 5, 6, 7, 99, 30, 12, 0]).valueAt x :=
  ⟨rfl, step_three_parameter (machineOf [1, 5, 6, 7, 99, 30, 12, 0]) World.silent
    ⟨1, [0, 0, 0]⟩ 0 0 0 rfl (Or.inl rfl) rfl rfl rfl (Or.inl rfl) (Or.inl rfl) (Or.inl rfl)⟩

/-- C2: when the instruction at `Position` decodes to JUMP-IF-TRUE (5) or
JUMP-IF-FALSE (6) with both modes in {0,1,2}, `Step` returns with `Position`
equal to the second operand when the condition on the first holds (`a ≠ 0`
for 5, `a = 0` for 6) and moved by 3 (Go's `+`, `intAdd`) otherwise;
`RPosition`, `Halted` and the value of every address are as before (an absent
address reading as 0). -/
theorem step_jump (c : Computer) (w : World) (opcode : Opcode) (m0 m1 : Int)
    (hdec : ReadOpcode c (c.valueAt c.Position) = .ok opcode)
    (hop : opcode.Value = 5 ∨ opcode.Value = 6)
    (h0 : opcode.Modes[0]? = some m0) (h1 : opcode.Modes[1]? = some m1)
    (hm0 : m0 = 0 ∨ m0 = 1 ∨ m0 = 2) (hm1 : m1 = 0 ∨ m1 = 1 ∨ m1 = 2) :
    ∃ c1, Step c w = .ok c1 w ∧
      c1.Position
        = (if jumpCondition opcode.Value (c.operand (intAdd c.Position 1) m0) = true
           then c.operand (intAdd c.Position 2) m1 else intAdd c.Position 3) ∧
      c1.RPosition = c.RPosition ∧ c1.Halted = c.Halted ∧
      ∀ x, c1.valueAt x = c.valueAt x := by
  obtain ⟨c1, hs, hv⟩ := Step_jump_view c w opcode m0 m1 hdec hop h0 h1 hm0 hm1
  exact ⟨c1, hs, fields_of_view_move c c1 _ hv⟩

/-- Witness of C2: the instruction `1105,1,7` (JUMP-IF-TRUE, both operands
immediate) jumps to 7. -/
theorem step_jump_witness :
    ReadOpcode (machineOf [1105, 1, 7, 1101, 0, 0, 8, 99, 1])
        ((machineOf [1105, 1, 7, 1101, 0, 0, 8, 99, 1]).valueAt 0) = .ok ⟨5, [1, 1]⟩ ∧
    ∃ c1, Step (machineOf [1105, 1, 7, 1101, 0, 0, 8, 99, 1]) World.silent
        = .ok c1 World.silent ∧
      c1.Position = 7 ∧ c1.RPosition = 0 ∧ c1.Halted = false ∧
      ∀ x, c1.valueAt x = (machineOf [1105, 1, 7, 1101, 0, 0, 8, 99, 1]).valueAt x :=
  ⟨rfl, step_jump (machineOf [1105, 1, 7, 1101, 0, 0, 8, 99, 1]) World.silent
    ⟨5, [1, 1]⟩ 1 1 rfl (Or.inl rfl) rfl rfl (Or.inr (Or.inl rfl)) (Or.inr (Or.inl rfl))⟩

/-! ### Decimal text -/

theorem natToStringAux_fuel (f1 : Nat) : ∀ (f2 n : Nat), n < f1 → n < f2 →
    natToStringAux f1 n = natToStringAux f2 n := by
  induction f1 with
  | zero => intro f2 n h; omega
  | succ f1 ih =>
    intro f2 n h1 h2
    cases f2 with
    | zero => omega
    | succ f2 =>
      unfold natToStringAux
      by_cases hn : n < 10
      · simp [hn]
      · simp only [hn, if_false]
        rw [ih f2 (n / 10) (by omega) (by omega)]

theorem natToString_lt (n : Nat) (h : n < 10) : natToString n = [digitChar n] := by
  unfold natToString natToStringAux
  simp [h]

theorem natToString_ge (n : Nat) (h : 10 ≤ n) :
    natToString n = natToString (n / 10) ++ [digitChar (n % 10)] := by
  unfold natToString
  conv_lhs => unfold natToStringAux
  have hn : ¬ n < 10 := by omega
  simp only [hn, if_false]
  rw [natToStringAux_fuel n (n / 10 + 1) (n / 10) (by omega) (by omega)]

theorem natToString_length_pos (n : Nat) : 0 < (natToString n).length := by
  by_cases h : n < 10
  · rw [natToString_lt n h]; simp
  · rw [natToString_ge n (by omega)]; simp

/-- The text read by the decoder once padded to two characters: the higher
digits followed by the two lowest. -/
theorem padded_split (n : Nat) :
    (if decide ((natToString n).length < 2) = true then '0' :: natToString n else natToString n)
      = (if n < 100 then [] else natToString (n / 100))
          ++ [digitChar (n / 10 % 10), digitChar (n % 10)] ∧
    (if decide ((natToString n).length < 2) = true then 2 else (natToString n).length)
      = (if n < 100 then [] else natToString (n / 100)).length + 2 := by
  by_cases h1 : n < 10
  · have e1 : n / 10 % 10 = 0 := by omega
    have e2 : n % 10 = n := by omega
    have e3 : n < 100 := by omega
    rw [natToString_lt n h1, e1, e2]
    simp [e3, digitChar]
  · by_cases h2 : n < 100
    · have e1 : n / 10 % 10 = n / 10 := by omega
      rw [natToString_ge n (by omega), natToString_lt (n / 10) (by omega), e1]
      simp [h2]
    · have e1 : n / 10 / 10 = n / 100 := by omega
      have hp := natToString_length_pos (n / 100)
      rw [natToString_ge n (by omega), natToString_ge (n / 10) (by omega), e1]
      have hlen : ¬ ((natToString (n / 100) ++ [digitChar (n / 10 % 10)]
          ++ [digitChar (n % 10)]).length < 2) := by
        simp only [List.length_append, List.length_singleton]; omega
      simp [h2, hlen]

theorem digitValue_digitChar (d : Nat) (h : d < 10) : digitValue (digitChar d) = some d := by
  interval_cases d <;> rfl

theorem digitChar_ne_minus (d : Nat) : digitChar d ≠ '-' := by
  unfold digitChar
  split <;> decide

theorem StringToInt_two_digits (a b : Nat) (ha : a < 10) (hb : b < 10) :
    StringToInt [digitChar a, digitChar b] = .ok ((a * 10 + b : Nat) : Int) := by
  unfold StringToInt
  have hne : ([digitChar a, digitChar b].head? = some '-') = False := by
    simp [digitChar_ne_minus]
  simp only [hne, if_false]
  simp [digitsToNat, digitValue_digitChar a ha, digitValue_digitChar b hb]

theorem padZeroes_eq (k : Nat) : ∀ params : List Char,
    padZeroes k params = List.replicate k '0' ++ params := by
  induction k with
  | zero => intro params; simp [padZeroes]
  | succ k ih =>
    intro params
    rw [padZeroes, ih, List.replicate_succ']
    simp

theorem runesToModes_digits (l : List Nat) (h : ∀ d ∈ l, d < 10) :
    runesToModes (l.map digitChar) = .ok (l.map (Nat.cast : Nat → Int)) := by
  induction l with
  | nil => rfl
  | cons d t ih =>
    have hd : d < 10 := h d (by simp)
    have ht := ih (fun x hx => h x (by simp [hx]))
    simp only [List.map_cons, runesToModes, RuneToInt, digitValue_digitChar d hd, ht]

theorem natToString_reverse (m : Nat) (hm : 0 < m) :
    (natToString m).reverse = (Nat.digits 10 m).map digitChar := by
  induction m using Nat.strong_induction_on with
  | _ m ih =>
    by_cases h : m < 10
    · rw [natToString_lt m h, Nat.digits_of_lt 10 m (by omega) h]
      simp
    · rw [natToString_ge m (by omega), Nat.digits_def' (by norm_num) hm]
      simp [ih (m / 10) (by omega) (by omega)]

theorem digits_getD (i : Nat) : ∀ m : Nat, (Nat.digits 10 m).getD i 0 = m / 10 ^ i % 10 := by
  induction i with
  | zero =>
    intro m
    by_cases hm : m = 0
    · subst hm; simp
    · rw [Nat.digits_def' (by norm_num) (by omega)]; simp
  | succ i ih =>
    intro m
    by_cases hm : m = 0
    · subst hm; simp
    · rw [Nat.digits_def' (by norm_num) (by omega)]
      simp only [List.getD_cons_succ]
      rw [ih, Nat.div_div_eq_div_mul, pow_succ, mul_comm]

theorem padded_getElem (D : List Nat) (k : Nat) : ∀ i, i < D.length + k →
    (D.map (Nat.cast : Nat → Int) ++ List.replicate k (0 : Int))[i]?
      = some ((D.getD i 0 : Nat) : Int) := by
  induction D with
  | nil =>
    intro i hi
    simp at hi
    simp [hi]
  | cons d t ih =>
    intro i hi
    cases i with
    | zero => simp
    | succ i =>
      have := ih i (by simp at hi; omega)
      simpa using this

/-! ### The decoder -/

theorem IntToString_natCast (n : Nat) : IntToString (n : Int) = natToString n := by
  unfold IntToString
  have h : ¬ ((n : Int) < 0) := by omega
  simp [h]

theorem higher_digits_reverse (n : Nat) :
    (if n < 100 then [] else natToString (n / 100)).reverse
      = (Nat.digits 10 (n / 100)).map digitChar := by
  by_cases h : n < 100
  · have e : n / 100 = 0 := by omega
    simp [h, e]
  · simp only [h, if_false]
    exact natToString_reverse (n / 100) (by omega)

/-- The decoder on a non-negative value other than 99: the operation is the
value modulo 100, the modes are the decimal digits of the value divided by
100, lowest first, filled with zeroes up to the arity of the operation. -/
theorem ReadOpcode_natCast (c : Computer) (n : Nat) (h : (n : Int) ≠ 99) :
    ReadOpcode c (n : Int) =
      match expectedModes ((n % 100 : Nat) : Int) with
      | none => .error (.unknownOpcode (n : Int) c.Position)
      | some k => .ok
          { Value := ((n % 100 : Nat) : Int),
            Modes := (Nat.digits 10 (n / 100)).map (Nat.cast : Nat → Int)
              ++ List.replicate (k - (Nat.digits 10 (n / 100)).length) 0 } := by
  obtain ⟨hs, hl⟩ := padded_split n
  have hrev := higher_digits_reverse n
  generalize (if n < 100 then [] else natToString (n / 100)) = pre at hs hl hrev
  have hlen : pre.length = (Nat.digits 10 (n / 100)).length := by
    have := congrArg List.length hrev
    simpa using this
  have hop : ((n / 10 % 10) * 10 + n % 10 : Nat) = n % 100 := by omega
  unfold ReadOpcode
  rw [if_neg h]
  simp only [IntToString_natCast, hs, hl]
  have hdrop : List.drop (pre.length + 2 - 2) (pre ++ [digitChar (n / 10 % 10), digitChar (n % 10)])
      = [digitChar (n / 10 % 10), digitChar (n % 10)] := by simp
  have htake : List.take (pre.length + 2 - 2) (pre ++ [digitChar (n / 10 % 10), digitChar (n % 10)])
      = pre := by simp
  rw [hdrop, htake,
    StringToInt_two_digits (n / 10 % 10) (n % 10) (Nat.mod_lt _ (by norm_num))
      (Nat.mod_lt _ (by norm_num)), hop]
  dsimp only
  cases hexp : expectedModes ((n % 100 : Nat) : Int) with
  | none => rfl
  | some k =>
    have hparams : (if pre.length < k then padZeroes (k - pre.length) pre else pre).reverse
        = (Nat.digits 10 (n / 100) ++ List.replicate (k - (Nat.digits 10 (n / 100)).length) 0).map
            digitChar := by
      by_cases hk : pre.length < k
      · rw [if_pos hk, padZeroes_eq, List.reverse_append, hrev, List.reverse_replicate, hlen]
        simp [digitChar]
      · have hz : k - (Nat.digits 10 (n / 100)).length = 0 := by omega
        rw [if_neg hk, hrev, hz]
        simp
    have hall : ∀ d ∈ Nat.digits 10 (n / 100)
        ++ List.replicate (k - (Nat.digits 10 (n / 100)).length) 0, d < 10 := by
      intro d hd
      rcases List.mem_append.mp hd with hd | hd
      · exact Nat.digits_lt_base (by norm_num) hd
      · rw [(List.mem_replicate.mp hd).2]; norm_num
    dsimp only
    rw [hparams, runesToModes_digits _ hall]
    simp

theorem expectedModes_eq (r : Int) :
    expectedModes r = if 1 ≤ r ∧ r ≤ 9 then some (arity r) else none := by
  unfold expectedModes arity
  split_ifs <;> first | rfl | omega

theorem ReadOpcode_nonneg (c : Computer) (v : Int) (h0 : 0 ≤ v) (h99 : v ≠ 99) :
    ReadOpcode c v =
      if 1 ≤ v % 100 ∧ v % 100 ≤ 9 then
        .ok { Value := v % 100,
              Modes := (Nat.digits 10 (v.toNat / 100)).map (Nat.cast : Nat → Int)
                ++ List.replicate (arity (v % 100) - (Nat.digits 10 (v.toNat / 100)).length) 0 }
      else .error (.unknownOpcode v c.Position) := by
  obtain ⟨n, rfl⟩ := Int.eq_ofNat_of_zero_le h0
  have hmod : ((n : Int) % 100) = ((n % 100 : Nat) : Int) := by norm_cast
  rw [ReadOpcode_natCast c n h99, hmod, expectedModes_eq]
  by_cases hr : 1 ≤ ((n % 100 : Nat) : Int) ∧ ((n % 100 : Nat) : Int) ≤ 9
  · simp only [hr, and_self, if_true, Int.toNat_ofNat]
  · simp only [hr, if_false]

theorem digits_length_le (k : Nat) : ∀ m : Nat, m < 10 ^ k → (Nat.digits 10 m).length ≤ k := by
  induction k with
  | zero =>
    intro m hm
    have : m = 0 := by simpa using hm
    subst this; simp
  | succ k ih =>
    intro m hm
    by_cases h0 : m = 0
    · subst h0; simp
    · rw [Nat.digits_def' (by norm_num) (by omega)]
      have : m / 10 < 10 ^ k := by
        rw [pow_succ] at hm
        omega
      simpa using ih (m / 10) this

/-- The counterexample to C3 as stated: the raw value 1102 decodes to
operation 2 (MUL), not to operation 1, with modes [1, 1, 0]. -/
theorem decode_1102_is_not_add :
    ReadOpcode (machineOf []) 1102 = .ok { Value := 2, Modes := [1, 1, 0] } ∧
    ReadOpcode (machineOf []) 1102 ≠ .ok { Value := 1, Modes := [1, 1, 0] } := by
  have h : ReadOpcode (machineOf []) 1102 = .ok { Value := 2, Modes := [1, 1, 0] } := rfl
  refine ⟨h, ?_⟩
  rw [h]
  intro hne
  injection hne with hne
  injection hne with hv _
  exact absurd hv (by decide)

/-- C3, amended: 99 decodes to operation 99 with no modes; a raw value
`v ≥ 0` other than 99 whose operation `v mod 100` is in 1..9 and whose higher
digits are at most as many as the arity decodes to operation `v mod 100` with
exactly arity-many modes, the `i`-th being the decimal digit
`(v div 10^(2+i)) mod 10`; 1102 decodes to operation 2 with modes [1, 1, 0];
a value below 100 decodes to modes that are all 0. -/
theorem decode_modes (c : Computer) (v : Int) (h0 : 0 ≤ v) (h99 : v ≠ 99)
    (hop : 1 ≤ v % 100 ∧ v % 100 ≤ 9) (hdigits : v / 100 < 10 ^ arity (v % 100)) :
    ReadOpcode c 99 = .ok { Value := 99, Modes := [] } ∧
    ReadOpcode c 1102 = .ok { Value := 2, Modes := [1, 1, 0] } ∧
    (∃ modes, ReadOpcode c v = .ok { Value := v % 100, Modes := modes } ∧
      modes.length = arity (v % 100) ∧
      ∀ i, i < arity (v % 100) → modes[i]? = some (v / 10 ^ (2 + i) % 10)) ∧
    (v < 100 →
      ReadOpcode c v = .ok { Value := v % 100, Modes := List.replicate (arity (v % 100)) 0 }) := by
  refine ⟨rfl, rfl, ?_, ?_⟩
  · rw [ReadOpcode_nonneg c v h0 h99, if_pos hop]
    obtain ⟨n, rfl⟩ := Int.eq_ofNat_of_zero_le h0
    have hm : n / 100 < 10 ^ arity ((n : Int) % 100) := by
      have : ((n / 100 : Nat) : Int) < ((10 ^ arity ((n : Int) % 100) : Nat) : Int) := by
        push_cast; exact hdigits
      exact_mod_cast this
    have hlen := digits_length_le _ _ hm
    refine ⟨_, rfl, ?_, ?_⟩
    · simp only [Int.toNat_ofNat, List.length_append, List.length_map, List.length_replicate]
      omega
    · intro i hi
      simp only [Int.toNat_ofNat]
      rw [padded_getElem _ _ i (by omega), digits_getD]
      congr 1
      have e : n / 100 / 10 ^ i = n / 10 ^ (2 + i) := by
        rw [Nat.div_div_eq_div_mul, pow_add]; norm_num
      rw [e]
      push_cast
      rfl
  · intro hlt
    rw [ReadOpcode_nonneg c v h0 h99, if_pos hop]
    obtain ⟨n, rfl⟩ := Int.eq_ofNat_of_zero_le h0
    have hn : n / 100 = 0 := by omega
    simp [hn]

/-- Witness of C3: the raw value 21101 (ADD with modes 1, 1, 2). -/
theorem decode_modes_witness :
    ∃ modes, ReadOpcode (machineOf []) 21101 = .ok { Value := 21101 % 100, Modes := modes } ∧
      modes.length = arity (21101 % 100) ∧
      ∀ i, i < arity (21101 % 100) → modes[i]? = some (21101 / 10 ^ (2 + i) % 10) :=
  (decode_modes (machineOf []) 21101 (by decide) (by decide) (by decide) (by decide)).2.2.1

/-- C10: for a raw value `v ≥ 0` the decoder fails exactly when `v` is not 99
and `v mod 100` is not one of 1..9; the values 0 and 199 fail; `Step` panics
when `Position` holds such a value, and when `Position` is an absent
address. -/
theorem decode_fails_iff (c : Computer) (w : World) (v : Int) (h0 : 0 ≤ v) :
    ((∃ e, ReadOpcode c v = .error e) ↔ (v ≠ 99 ∧ ¬ (1 ≤ v % 100 ∧ v % 100 ≤ 9))) ∧
    (∃ e, ReadOpcode c 0 = .error e) ∧
    (∃ e, ReadOpcode c 199 = .error e) ∧
    (c.valueAt c.Position = v → v ≠ 99 → ¬ (1 ≤ v % 100 ∧ v % 100 ≤ 9) →
      ∃ fault c1, Step c w = .panic fault c1 w) ∧
    (c.Memory c.Position = none → ∃ fault c1, Step c w = .panic fault c1 w) := by
  have hfail : ∀ (c0 : Computer) (u : Int), 0 ≤ u → u ≠ 99 → ¬ (1 ≤ u % 100 ∧ u % 100 ≤ 9) →
      ReadOpcode c0 u = .error (.unknownOpcode u c0.Position) := by
    intro c0 u hu0 hu99 hu
    rw [ReadOpcode_nonneg c0 u hu0 hu99, if_neg hu]
  have hstep : ∀ u : Int, c.valueAt c.Position = u → 0 ≤ u → u ≠ 99 →
      ¬ (1 ≤ u % 100 ∧ u % 100 ≤ 9) → ∃ fault c1, Step c w = .panic fault c1 w := by
    intro u hval hu0 hu99 hu
    have hv : (Read c).1 = u := by rw [← hval]; exact ReadMemory_fst c c.Position
    refine ⟨.unknownOpcode u (Read c).2.Position, (Read c).2, ?_⟩
    unfold Step ReadNextOpcode
    simp only [hv, hfail (Read c).2 u hu0 hu99 hu]
  refine ⟨⟨?_, ?_⟩, ?_, ?_, ?_, ?_⟩
  · rintro ⟨e, he⟩
    refine ⟨?_, ?_⟩
    · intro h; subst h; exact absurd he (by simp [ReadOpcode])
    · intro hop
      by_cases h99 : v = 99
      · subst h99; exact absurd he (by simp [ReadOpcode])
      · rw [ReadOpcode_nonneg c v h0 h99, if_pos hop] at he
        exact absurd he (by simp)
  · rintro ⟨h99, hop⟩
    exact ⟨_, hfail c v h0 h99 hop⟩
  · exact ⟨_, hfail c 0 (by decide) (by decide) (by decide)⟩
  · exact ⟨_, hfail c 199 (by decide) (by decide) (by decide)⟩
  · intro hval h99 hop
    exact hstep v hval h0 h99 hop
  · intro habsent
    have hval : c.valueAt c.Position = 0 := by simp [Computer.valueAt, habsent]
    exact hstep 0 hval (by decide) (by decide) (by decide)

/-- Witness of C10: the raw value 199 on the machine for the program `199`. -/
theorem decode_fails_iff_witness :
    ((∃ e, ReadOpcode (machineOf [199]) 199 = .error e) ↔
      ((199 : Int) ≠ 99 ∧ ¬ (1 ≤ (199 : Int) % 100 ∧ (199 : Int) % 100 ≤ 9))) ∧
    ∃ fault c1, Step (machineOf [199]) World.silent = .panic fault c1 World.silent :=
  ⟨(decode_fails_iff (machineOf [199]) World.silent 199 (by decide)).1,
   (decode_fails_iff (machineOf [199]) World.silent 199 (by decide)).2.2.2.1 rfl
     (by decide) (by decide)⟩

/-! ### Runs -/

theorem Run_step (fuel : Nat) (c : Computer) (w : World) (c1 : Computer) (w1 : World)
    (hs : Step c w = .ok c1 w1) (hh : c1.Halted = false) :
    Run (fuel + 1) c w = Run fuel c1 w1 := by
  rw [Run, hs]
  simp [hh]

theorem Run_halt (fuel : Nat) (c : Computer) (w : World) (c1 : Computer) (w1 : World)
    (hs : Step c w = .ok c1 w1) (hh : c1.Halted = true) :
    Run (fuel + 1) c w = .done c1.Memory c1 w1 := by
  rw [Run, hs]
  simp [hh]

/-! ### The parser -/

theorem Split_field (field rest : List Char) (h : ',' ∉ field) :
    Split (field ++ ',' :: rest) = field :: Split rest := by
  induction field with
  | nil => simp [Split]
  | cons r rs ih =>
    have hr : r ≠ ',' := fun e => h (by simp [e])
    have hrs : ',' ∉ rs := fun e => h (by simp [e])
    simp [Split, hr, ih hrs]

theorem Split_single (field : List Char) (h : ',' ∉ field) : Split field = [field] := by
  induction field with
  | nil => rfl
  | cons r rs ih =>
    have hr : r ≠ ',' := fun e => h (by simp [e])
    have hrs : ',' ∉ rs := fun e => h (by simp [e])
    simp [Split, hr, ih hrs]

theorem Split_joinFields (fields : List (List Char)) (hne : fields ≠ [])
    (h : ∀ field ∈ fields, ',' ∉ field) : Split (joinFields fields) = fields := by
  induction fields with
  | nil => exact absurd rfl hne
  | cons field rest ih =>
    cases rest with
    | nil => simpa [joinFields] using Split_single field (h field (by simp))
    | cons g t =>
      have hrest := ih (by simp) (fun f hf => h f (by simp [hf]))
      simp only [joinFields] at hrest ⊢
      rw [Split_field field _ (h field (by simp)), hrest]

theorem digitsToNat_append (l : List Char) (r : Char) : ∀ acc : Nat,
    digitsToNat (l ++ [r]) acc
      = match digitsToNat l acc with
        | some a => (match digitValue r with
                     | some d => some (a * 10 + d)
                     | none => none)
        | none => none := by
  induction l with
  | nil =>
    intro acc
    simp only [List.nil_append, digitsToNat]
  | cons x xs ih =>
    intro acc
    simp only [List.cons_append, digitsToNat]
    cases digitValue x with
    | none => rfl
    | some d => exact ih _

theorem digitsToNat_natToString (n : Nat) : digitsToNat (natToString n) 0 = some n := by
  induction n using Nat.strong_induction_on with
  | _ n ih =>
    by_cases h : n < 10
    · rw [natToString_lt n h]
      simp [digitsToNat, digitValue_digitChar n h]
    · rw [natToString_ge n (by omega), digitsToNat_append, ih (n / 10) (by omega),
        digitValue_digitChar (n % 10) (Nat.mod_lt _ (by norm_num))]
      simp only [Option.some.injEq]
      omega

theorem natToString_chars (n : Nat) : ∀ r ∈ natToString n, ∃ d, r = digitChar d := by
  induction n using Nat.strong_induction_on with
  | _ n ih =>
    intro r hr
    by_cases h : n < 10
    · rw [natToString_lt n h] at hr
      exact ⟨n, by simpa using hr⟩
    · rw [natToString_ge n (by omega)] at hr
      rcases List.mem_append.mp hr with hr | hr
      · exact ih (n / 10) (by omega) r hr
      · exact ⟨n % 10, by simpa using hr⟩

theorem digitChar_ne_comma (d : Nat) : digitChar d ≠ ',' := by
  unfold digitChar
  split <;> decide

theorem natToString_head (n : Nat) : (natToString n).head? ≠ some '-' := by
  intro h
  have hmem : '-' ∈ natToString n := by
    cases hl : natToString n with
    | nil => rw [hl] at h; simp at h
    | cons x xs =>
      rw [hl] at h
      simp only [List.head?_cons, Option.some.injEq] at h
      simp [h]
  obtain ⟨d, hd⟩ := natToString_chars n '-' hmem
  exact digitChar_ne_minus d hd.symm

theorem natToString_ne_nil (n : Nat) : natToString n ≠ [] := by
  intro h
  have := natToString_length_pos n
  rw [h] at this
  simp at this

theorem StringToInt_IntToString (x : Int) : StringToInt (IntToString x) = .ok x := by
  unfold IntToString
  by_cases hx : x < 0
  · simp only [hx, if_true]
    unfold StringToInt
    simp only [List.head?_cons, if_true, List.tail_cons, natToString_ne_nil, if_false,
      digitsToNat_natToString]
    congr 1
    omega
  · simp only [hx, if_false]
    unfold StringToInt
    simp only [natToString_head, if_false, natToString_ne_nil, digitsToNat_natToString]
    congr 1
    omega

theorem IntToString_comma (x : Int) : ',' ∉ IntToString x := by
  have hn : ∀ n, ',' ∉ natToString n := by
    intro n h
    obtain ⟨d, hd⟩ := natToString_chars n ',' h
    exact digitChar_ne_comma d hd.symm
  unfold IntToString
  split
  · intro h
    rcases List.mem_cons.mp h with h | h
    · exact absurd h (by decide)
    · exact hn _ h
  · exact hn _

theorem parseFields_IntToString (codes : List Int) :
    parseFields (codes.map IntToString) = .ok codes := by
  induction codes with
  | nil => rfl
  | cons x xs ih => simp only [List.map_cons, parseFields, StringToInt_IntToString, ih]

theorem Parser_programText (codes : List Int) (hne : codes ≠ []) :
    Parser (programText codes) = .ok codes := by
  unfold Parser programText
  rw [Split_joinFields _ (by simpa using hne), parseFields_IntToString]
  intro field hfield
  obtain ⟨x, _, rfl⟩ := List.mem_map.mp hfield
  exact IntToString_comma x

/-- The counterexample to C8 as stated: the sequence of length 0 is written
as the empty text, which `Parser` does not read back as the empty sequence:
`strings.Split` gives one empty field, and that field is not an integer. -/
theorem parser_empty_sequence :
    programText [] = [] ∧ Split [] = [[]] ∧
    Parser (programText []) = .error (.parseError []) ∧
    Parser (programText []) ≠ .ok [] := by
  refine ⟨rfl, rfl, rfl, ?_⟩
  intro h
  have h2 : Parser (programText []) = .error (.parseError []) := rfl
  rw [h2] at h
  cases h

/-- C8, amended: for every sequence of integers that is not empty (negatives
included), `Parser` applied to its program text returns exactly the
sequence, in the same order and of the same length. -/
theorem parser_round_trip (codes : List Int) (hne : codes ≠ []) :
    Parser (programText codes) = .ok codes :=
  Parser_programText codes hne

/-- Witness of C8: a sequence with negative elements. -/
theorem parser_round_trip_witness :
    Parser (programText [109, -1, 204, -1, 0, 99]) = .ok [109, -1, 204, -1, 0, 99] :=
  parser_round_trip [109, -1, 204, -1, 0, 99] (by simp)

theorem New_programText (codes : List Int) (hne : codes ≠ []) :
    New (programText codes) = .ok (machineOf codes) := by
  unfold New
  rw [Parser_programText codes hne]
  rfl

theorem BufferedNew_programText (codes : List Int) (hne : codes ≠ []) :
    BufferedNew (programText codes) = .ok (bufferedMachineOf codes) := by
  unfold BufferedNew
  rw [Parser_programText codes hne]
  rfl

theorem fields_of_view (c : Computer) (V : View) (h : c.view = V) :
    c.Position = V.Position ∧ c.RPosition = V.RPosition ∧ c.Halted = V.Halted ∧
    c.OutQueue = V.OutQueue ∧ ∀ x, c.valueAt x = V.value x := by
  subst h
  exact ⟨rfl, rfl, rfl, rfl, fun _ => rfl⟩

/-- The run of `1102,a,b,7,4,7,99,0` from any machine that shows this memory
image, stands at address 0 and has no output queue. -/
theorem run_multiply (c0 : Computer) (w : World) (a b : Int)
    (hval : ∀ x, c0.valueAt x = (machineOf [1102, a, b, 7, 4, 7, 99, 0]).valueAt x)
    (hP : c0.Position = 0) (hH : c0.Halted = false) (hQ : c0.OutQueue = none) :
    ∃ c3, Run 3 c0 w = .done c3.Memory c3 { w with emitted := w.emitted ++ [intMul a b] } ∧
      c3.Halted = true := by
  have e0 : c0.view.value 0 = 1102 := (hval 0).trans rfl
  have e1 : c0.view.value 1 = a := (hval 1).trans rfl
  have e2 : c0.view.value 2 = b := (hval 2).trans rfl
  have e3 : c0.view.value 3 = 7 := (hval 3).trans rfl
  have e4 : c0.view.value 4 = 4 := (hval 4).trans rfl
  have e5 : c0.view.value 5 = 7 := (hval 5).trans rfl
  have e6 : c0.view.value 6 = 99 := (hval 6).trans rfl
  have hP0 : c0.view.Position = 0 := hP
  have i1 : intAdd 0 1 = 1 := by decide
  have i2 : intAdd 0 2 = 2 := by decide
  have i3 : intAdd 0 3 = 3 := by decide
  have i4 : intAdd 0 4 = 4 := by decide
  have i5 : intAdd 4 1 = 5 := by decide
  have i6 : intAdd 4 2 = 6 := by decide
  -- MUL
  obtain ⟨c1, s1, v1, _⟩ := Step_three_view c0 w ⟨2, [1, 1, 0]⟩ 1 1 0
    (by rw [hP]; exact (congrArg (ReadOpcode c0) e0).trans rfl)
    (Or.inr (Or.inl rfl)) rfl rfl rfl (Or.inr (Or.inl rfl)) (Or.inr (Or.inl rfl)) (Or.inl rfl)
  simp only [hP0, i1, i2, i3, i4, View.operand, View.target, threeParameterResult, e1, e2, e3,
    Int.reduceEq, if_false, if_true] at v1
  obtain ⟨p1, r1, h1, q1, val1⟩ := fields_of_view c1 _ v1
  simp only [] at p1 r1 h1 q1 val1
  have f4 : c1.valueAt 4 = 4 := by rw [val1]; simp [Function.update, e4]
  have f5 : c1.valueAt 5 = 7 := by rw [val1]; simp [Function.update, e5]
  have f6 : c1.valueAt 6 = 99 := by rw [val1]; simp [Function.update, e6]
  have f7 : c1.valueAt 7 = intMul a b := by rw [val1]; simp [Function.update]
  -- OUTPUT
  obtain ⟨c2, s2, v2, _⟩ := Step_output_view c1 w ⟨4, [0]⟩ 0
    (by rw [p1, f4]; rfl) rfl rfl (Or.inl rfl) (by rw [q1]; exact hQ)
  have hP1 : c1.view.Position = 4 := p1
  have g5 : c1.view.value 5 = 7 := f5
  have g7 : c1.view.value 7 = intMul a b := f7
  simp only [hP1, i5, i6, View.operand, g5, g7, if_true] at v2 s2
  obtain ⟨p2, r2, h2, q2, val2⟩ := fields_of_view c2 _ v2
  simp only [] at p2 r2 h2 q2 val2
  -- HALT
  obtain ⟨c3, s3, v3, _⟩ := Step_halt_view c2
    { w with emitted := w.emitted ++ [intMul a b] } ⟨99, []⟩
    (by rw [p2, val2]; show ReadOpcode c2 (c1.valueAt 6) = _; rw [f6]; rfl) rfl
  obtain ⟨p3, r3, h3, q3, val3⟩ := fields_of_view c3 _ v3
  refine ⟨c3, ?_, h3⟩
  rw [Run_step 2 c0 w c1 w s1 (by rw [h1]; exact hH),
    Run_step 1 c1 w c2 _ s2 (by rw [h2, ← hH]; exact h1.trans rfl),
    Run_halt 0 c2 _ c3 _ s3 h3]

/-- Go's `*` is the exact product whenever that fits in 64 bits. -/
theorem intMul_of_fits (a b : Int) (h : isInt64 (a * b)) : intMul a b = a * b :=
  wrapInt_of_isInt64 _ h

theorem RunResult.of_done (r : RunResult) (memory : MemoryMap) (c : Computer) (w : World)
    (h : r = .done memory c w) :
    r.returned = true ∧ r.computer = c ∧ r.world = w ∧ r.memory = some memory := by
  subst h
  exact ⟨rfl, rfl, rfl, rfl⟩

/-- C6: for all `a`, `b` whose product fits in a signed 64-bit integer, the
program `1102,a,b,7,4,7,99,0` is read back from its text, its run returns
(three steps) with `Halted` set, and the values emitted are exactly one value,
the exact product `a * b`; this holds for the console machine and for the
machine with channels; for `a = b = 34915192` the output is
1219070632396864. -/
theorem wide_multiplication (a b : Int) (hfit : isInt64 (a * b)) :
    New (programText (multiplyProgram a b)) = .ok (machineOf (multiplyProgram a b)) ∧
    (Run 3 (machineOf (multiplyProgram a b)) World.silent).returned = true ∧
    (Run 3 (machineOf (multiplyProgram a b)) World.silent).computer.Halted = true ∧
    (Run 3 (machineOf (multiplyProgram a b)) World.silent).world.emitted = [a * b] ∧
    BufferedNew (programText (multiplyProgram a b))
      = .ok (bufferedMachineOf (multiplyProgram a b)) ∧
    (Run 3 (bufferedMachineOf (multiplyProgram a b)) World.silent).returned = true ∧
    (Run 3 (bufferedMachineOf (multiplyProgram a b)) World.silent).world.emitted = [a * b] ∧
    New ("1102,34915192,34915192,7,4,7,99,0".toList)
      = .ok (machineOf (multiplyProgram 34915192 34915192)) ∧
    (Run 3 (machineOf (multiplyProgram 34915192 34915192)) World.silent).world.emitted
      = [1219070632396864] := by
  obtain ⟨c3, hrun, hh⟩ := run_multiply (machineOf (multiplyProgram a b)) World.silent a b
    (fun _ => rfl) rfl rfl rfl
  obtain ⟨d3, hrun2, _⟩ := run_multiply (bufferedMachineOf (multiplyProgram a b)) World.silent
    a b (fun _ => rfl) rfl rfl rfl
  obtain ⟨r1, r2, r3, _⟩ := RunResult.of_done _ _ _ _ hrun
  obtain ⟨b1, _, b3, _⟩ := RunResult.of_done _ _ _ _ hrun2
  refine ⟨New_programText _ (by simp [multiplyProgram]), r1, ?_, ?_,
    BufferedNew_programText _ (by simp [multiplyProgram]), b1, ?_, rfl, by decide⟩
  · rw [r2]; exact hh
  · rw [r3, intMul_of_fits a b hfit]; rfl
  · rw [b3, intMul_of_fits a b hfit]; rfl

/-- Witness of C6: `a = b = 65536`, whose product 4294967296 needs more than
32 bits. -/
theorem wide_multiplication_witness :
    isInt64 (65536 * 65536) ∧
    (Run 3 (machineOf (multiplyProgram 65536 65536)) World.silent).world.emitted
      = [65536 * 65536] :=
  ⟨by decide, (wide_multiplication 65536 65536 (by decide)).2.2.2.1⟩

/-- The run of `109,k,21101,v,0,j,204,j,99` from any machine that shows this
memory image, stands at address 0 with relative base 0 and has no output
queue. -/
theorem run_relative (c0 : Computer) (w : World) (k j v : Int)
    (hk : isInt64 k) (hv : isInt64 v)
    (h6 : intAdd k j ≠ 6) (h7 : intAdd k j ≠ 7) (h8 : intAdd k j ≠ 8)
    (hval : ∀ x, c0.valueAt x = (machineOf (relativeProgram k j v)).valueAt x)
    (hP : c0.Position = 0) (hR : c0.RPosition = 0) (hH : c0.Halted = false)
    (hQ : c0.OutQueue = none) :
    ∃ c4, Run 4 c0 w = .done c4.Memory c4 { w with emitted := w.emitted ++ [v] } ∧
      c4.Halted = true ∧ c4.RPosition = k ∧ c4.Memory (intAdd k j) = some v := by
  have e0 : c0.view.value 0 = 109 := (hval 0).trans rfl
  have e1 : c0.view.value 1 = k := (hval 1).trans rfl
  have e2 : c0.view.value 2 = 21101 := (hval 2).trans rfl
  have e3 : c0.view.value 3 = v := (hval 3).trans rfl
  have e4 : c0.view.value 4 = 0 := (hval 4).trans rfl
  have e5 : c0.view.value 5 = j := (hval 5).trans rfl
  have e6 : c0.view.value 6 = 204 := (hval 6).trans rfl
  have e7 : c0.view.value 7 = j := (hval 7).trans rfl
  have e8 : c0.view.value 8 = 99 := (hval 8).trans rfl
  have hP0 : c0.view.Position = 0 := hP
  have hR0 : c0.view.RPosition = 0 := hR
  have i1 : intAdd 0 1 = 1 := by decide
  have i2 : intAdd 0 2 = 2 := by decide
  have i3 : intAdd 2 1 = 3 := by decide
  have i4 : intAdd 2 2 = 4 := by decide
  have i5 : intAdd 2 3 = 5 := by decide
  have i6 : intAdd 2 4 = 6 := by decide
  have i7 : intAdd 6 1 = 7 := by decide
  have i8 : intAdd 6 2 = 8 := by decide
  have ik : intAdd 0 k = k := by
    unfold intAdd; rw [zero_add]; exact wrapInt_of_isInt64 k hk
  have iv : intAdd v 0 = v := by
    unfold intAdd; rw [add_zero]; exact wrapInt_of_isInt64 v hv
  -- ADJUST-RELATIVE-BASE
  obtain ⟨c1, s1, v1⟩ := Step_relative_view c0 w ⟨9, [1]⟩ 1
    (by rw [hP]; exact (congrArg (ReadOpcode c0) e0).trans rfl) rfl rfl (Or.inr (Or.inl rfl))
  simp only [hP0, hR0, i1, i2, View.operand, e1, ik, Int.reduceEq, if_false, if_true] at v1
  obtain ⟨p1, r1, h1, q1, val1⟩ := fields_of_view c1 _ v1
  simp only [] at p1 r1 h1 q1 val1
  have hP1 : c1.view.Position = 2 := p1
  have hR1 : c1.view.RPosition = k := r1
  have g : ∀ x, c1.view.value x = c0.view.value x := val1
  -- ADD
  obtain ⟨c2, s2, v2, m2⟩ := Step_three_view c1 w ⟨1, [1, 1, 2]⟩ 1 1 2
    (by rw [p1, val1, e2]; rfl)
    (Or.inl rfl) rfl rfl rfl (Or.inr (Or.inl rfl)) (Or.inr (Or.inl rfl)) (Or.inr rfl)
  simp only [hP1, hR1, i3, i4, i5, i6, View.operand, View.target, threeParameterResult, g, e3,
    e4, e5, iv, Int.reduceEq, if_false, if_true] at v2 m2
  obtain ⟨p2, r2, h2, q2, val2⟩ := fields_of_view c2 _ v2
  simp only [] at p2 r2 h2 q2 val2
  have hP2 : c2.view.Position = 6 := p2
  have hR2 : c2.view.RPosition = k := r2
  have f6 : c2.view.value 6 = 204 := by
    rw [show c2.view.value 6 = c2.valueAt 6 from rfl, val2]
    simp [Function.update, Ne.symm h6, g, e6]
  have f7 : c2.view.value 7 = j := by
    rw [show c2.view.value 7 = c2.valueAt 7 from rfl, val2]
    simp [Function.update, Ne.symm h7, g, e7]
  have f8 : c2.view.value 8 = 99 := by
    rw [show c2.view.value 8 = c2.valueAt 8 from rfl, val2]
    simp [Function.update, Ne.symm h8, g, e8]
  have fd : c2.view.value (intAdd k j) = v := by
    rw [show c2.view.value (intAdd k j) = c2.valueAt (intAdd k j) from rfl, val2]
    simp [Function.update]
  -- OUTPUT
  obtain ⟨c3, s3, v3, k3⟩ := Step_output_view c2 w ⟨4, [2]⟩ 2
    (by rw [p2]; exact (congrArg (ReadOpcode c2) f6).trans rfl) rfl rfl (Or.inr (Or.inr rfl))
    (q2.trans (q1.trans hQ))
  simp only [hP2, hR2, i7, i8, View.operand, f7, fd, Int.reduceEq, if_false] at v3 s3
  obtain ⟨p3, r3, h3, q3, val3⟩ := fields_of_view c3 _ v3
  simp only [] at p3 r3 h3 q3 val3
  -- HALT
  obtain ⟨c4, s4, v4, k4⟩ := Step_halt_view c3 { w with emitted := w.emitted ++ [v] } ⟨99, []⟩
    (by rw [p3, val3]; exact (congrArg (ReadOpcode c3) f8).trans rfl) rfl
  obtain ⟨p4, r4, h4, q4, val4⟩ := fields_of_view c4 _ v4
  simp only [] at p4 r4 h4 q4 val4
  have hf1 : c1.Halted = false := h1.trans hH
  have hf2 : c2.Halted = false := h2.trans hf1
  have hf3 : c3.Halted = false := h3.trans hf2
  refine ⟨c4, ?_, h4, ?_, ?_⟩
  · rw [Run_step 3 c0 w c1 w s1 hf1, Run_step 2 c1 w c2 w s2 hf2, Run_step 1 c2 w c3 _ s3 hf3,
      Run_halt 0 c3 _ c4 _ s4 h4]
  · exact r4.trans r3
  · have hsome : (c4.Memory (intAdd k j)).isSome = true :=
      k4 _ (k3 _ (by rw [m2]; rfl))
    have hvalue : c4.valueAt (intAdd k j) = v :=
      (val4 _).trans ((val3 _).trans fd)
    unfold Computer.valueAt at hvalue
    cases hm : c4.Memory (intAdd k j) with
    | none => rw [hm] at hsome; simp at hsome
    | some y => rw [hm] at hvalue; simpa using hvalue

/-- C7: for all 64-bit `k`, `j`, `v` such that the address `k + j` (Go's `+`)
is none of 6, 7, 8, the program `109,k,21101,v,0,j,204,j,99` is read back from
its text and its run from the fresh machine returns (four steps) with `Halted`
set and `RPosition = k`; the address `k + j` is present in the returned memory
and holds `v`; the values emitted are exactly `[v]`.  Both the write and the
read in Relative mode resolve to relative base plus offset.  The address is
the exact sum whenever that fits in 64 bits. -/
theorem relative_round_trip (k j v : Int) (hk : isInt64 k) (hv : isInt64 v)
    (h6 : intAdd k j ≠ 6) (h7 : intAdd k j ≠ 7) (h8 : intAdd k j ≠ 8) :
    New (programText (relativeProgram k j v)) = .ok (machineOf (relativeProgram k j v)) ∧
    (Run 4 (machineOf (relativeProgram k j v)) World.silent).returned = true ∧
    (Run 4 (machineOf (relativeProgram k j v)) World.silent).computer.Halted = true ∧
    (Run 4 (machineOf (relativeProgram k j v)) World.silent).computer.RPosition = k ∧
    ((Run 4 (machineOf (relativeProgram k j v)) World.silent).memory.map
      fun memory => memory (intAdd k j)) = some (some v) ∧
    (Run 4 (machineOf (relativeProgram k j v)) World.silent).world.emitted = [v] ∧
    (Run 4 (bufferedMachineOf (relativeProgram k j v)) World.silent).world.emitted = [v] ∧
    (isInt64 (k + j) → intAdd k j = k + j) := by
  obtain ⟨c4, hrun, hh, hr, hm⟩ := run_relative (machineOf (relativeProgram k j v))
    World.silent k j v hk hv h6 h7 h8 (fun _ => rfl) rfl rfl rfl rfl
  obtain ⟨d4, hrun2, _⟩ := run_relative (bufferedMachineOf (relativeProgram k j v))
    World.silent k j v hk hv h6 h7 h8 (fun _ => rfl) rfl rfl rfl rfl
  obtain ⟨r1, r2, r3, r4⟩ := RunResult.of_done _ _ _ _ hrun
  obtain ⟨_, _, b3, _⟩ := RunResult.of_done _ _ _ _ hrun2
  refine ⟨New_programText _ (by simp [relativeProgram]), r1, ?_, ?_, ?_, ?_, ?_,
    fun hfit => wrapInt_of_isInt64 _ hfit⟩
  · rw [r2]; exact hh
  · rw [r2]; exact hr
  · rw [r4]; simp [hm]
  · rw [r3]; rfl
  · rw [b3]; rfl

/-- Witness of C7: base `k = 1000000000000`, offset `j = -999999999900`,
value `v = -7`; the address is 100, absent from the program. -/
theorem relative_round_trip_witness :
    (Run 4 (machineOf (relativeProgram 1000000000000 (-999999999900) (-7)))
      World.silent).computer.RPosition = 1000000000000 ∧
    ((Run 4 (machineOf (relativeProgram 1000000000000 (-999999999900) (-7)))
      World.silent).memory.map
        fun memory => memory (intAdd 1000000000000 (-999999999900))) = some (some (-7)) ∧
    (Run 4 (machineOf (relativeProgram 1000000000000 (-999999999900) (-7)))
      World.silent).world.emitted = [-7] :=
  have h := relative_round_trip 1000000000000 (-999999999900) (-7) (by decide) (by decide)
    (by decide) (by decide) (by decide)
  ⟨h.2.2.2.1, h.2.2.2.2.1, h.2.2.2.2.2.1⟩

/-- C4: the machine `New` builds from `1,9,10,3,2,3,11,0,99,30,40,50` runs to
its end in three steps: `Run` returns, `Halted` is set, the returned memory
holds 3500 at address 0 and 70 at address 3, and `Position` is 8, where the
memory holds 99. -/
theorem run_sample_program :
    New ("1,9,10,3,2,3,11,0,99,30,40,50".toList) = .ok (machineOf sampleCodes) ∧
    (Run 3 (machineOf sampleCodes) World.silent).returned = true ∧
    (Run 3 (machineOf sampleCodes) World.silent).computer.Halted = true ∧
    ((Run 3 (machineOf sampleCodes) World.silent).memory.map fun memory => memory 0)
      = some (some 3500) ∧
    ((Run 3 (machineOf sampleCodes) World.silent).memory.map fun memory => memory 3)
      = some (some 70) ∧
    (Run 3 (machineOf sampleCodes) World.silent).computer.Position = 8 ∧
    (Run 3 (machineOf sampleCodes) World.silent).computer.valueAt 8 = 99 := by
  refine ⟨rfl, ?_, ?_, ?_, ?_, ?_, ?_⟩ <;> decide

/-- One round of the self-reproducing program: five steps. -/
theorem quine_round (i : Nat) (hi : i < 15) (fuel : Nat) :
    Run (fuel + 5) (quineState i) (quineWorld i)
      = Run fuel (quineState (i + 1)) (quineWorld (i + 1)) := by
  interval_cases i <;> rfl

theorem quine_rounds (i : Nat) (hi : i ≤ 15) : ∀ fuel : Nat,
    Run (5 * i + fuel) (quineState 0) (quineWorld 0)
      = Run fuel (quineState i) (quineWorld i) := by
  induction i with
  | zero => intro fuel; simp
  | succ i ih =>
    intro fuel
    have e : 5 * (i + 1) + fuel = 5 * i + (fuel + 5) := by omega
    rw [e, ih (by omega) (fuel + 5), quine_round i (by omega) fuel]

/-- C5: the machine `BufferedNew` builds from the self-reproducing program,
run with nothing to read, returns after 81 steps with `Halted` set, and the
values its OUTPUT instructions emitted are, in order, the 16 values of the
program. -/
theorem run_quine :
    BufferedNew ("109,1,204,-1,1001,100,1,100,1008,100,16,101,1006,101,0,99".toList)
      = .ok (bufferedMachineOf quineCodes) ∧
    (Run 81 (bufferedMachineOf quineCodes) World.silent).returned = true ∧
    (Run 81 (bufferedMachineOf quineCodes) World.silent).computer.Halted = true ∧
    (Run 81 (bufferedMachineOf quineCodes) World.silent).world.emitted
      = [109, 1, 204, -1, 1001, 100, 1, 100, 1008, 100, 16, 101, 1006, 101, 0, 99] ∧
    (Run 81 (bufferedMachineOf quineCodes) World.silent).world.supply = [] := by
  have hloop : Run 81 (bufferedMachineOf quineCodes) World.silent
      = Run 6 (quineState 15) (quineWorld 15) := quine_rounds 15 (le_refl _) 6
  rw [hloop]
  refine ⟨rfl, ?_, ?_, ?_, ?_⟩ <;> decide

/-! ### Decoding at a present address -/

theorem CheckAddress_of_present (c : Computer) (a v : Int) (h : c.Memory a = some v) :
    CheckAddress c a = c := by
  unfold CheckAddress
  rw [h]

theorem ReadOpcode_zero (c : Computer) :
    ReadOpcode c 0 = .error (.unknownOpcode 0 c.Position) := rfl

theorem Memory_of_valueAt (c : Computer) (a v : Int) (h : c.valueAt a = v) (hv : v ≠ 0) :
    c.Memory a = some v := by
  unfold Computer.valueAt at h
  cases hm : c.Memory a with
  | none => rw [hm] at h; exact absurd h.symm hv
  | some y => rw [hm] at h; simpa using h

/-- An instruction that decodes stands at a present address, so decoding it
leaves the machine as it is. -/
theorem ReadNextOpcode_of_decode_eq (c : Computer) (opcode : Opcode)
    (hdec : ReadOpcode c (c.valueAt c.Position) = .ok opcode) :
    ReadNextOpcode c = .ok opcode c ∧ c.Memory c.Position = some (c.valueAt c.Position) := by
  have hne : c.valueAt c.Position ≠ 0 := by
    intro h0
    rw [h0, ReadOpcode_zero] at hdec
    cases hdec
  have hmem := Memory_of_valueAt c c.Position _ rfl hne
  refine ⟨?_, hmem⟩
  have h1 : Read c = (c.valueAt c.Position, c) := by
    unfold Read ReadMemory
    rw [CheckAddress_of_present c _ _ hmem]
    simp [Computer.valueAt]
  unfold ReadNextOpcode
  rw [h1]
  simp only [hdec]

theorem ReadOpcode_ninety_nine (c : Computer) :
    ReadOpcode c 99 = .ok { Value := 99, Modes := [] } := rfl

/-- `Step` on a present 99: only `Halted` is set. -/
theorem Step_at_halt (c : Computer) (w : World) (h : c.Memory c.Position = some 99) :
    Step c w = .ok { c with Halted := true } w := by
  have hval : c.valueAt c.Position = 99 := by simp [Computer.valueAt, h]
  have hdec : ReadOpcode c (c.valueAt c.Position) = .ok { Value := 99, Modes := [] } := by
    rw [hval]; rfl
  obtain ⟨hread, _⟩ := ReadNextOpcode_of_decode_eq c _ hdec
  simp only [Step, hread, Int.reduceEq, if_false, if_true]

/-! ### `StepUntil` -/

/-- C20: when `Position` holds 99 and 99 is not among the opcodes asked for,
`StepUntil` does not return: after any number `n + 1 ≥ 1` of turns of its
loop no opcode has been returned and the machine is the starting machine with
`Halted` set to true, the world being as before. -/
theorem stepUntil_loops_at_halt (c : Computer) (w : World) (opcodes : List Int)
    (hhalt : c.Memory c.Position = some 99) (hnot : (99 : Int) ∉ opcodes) (n : Nat) :
    StepUntil (n + 1) opcodes c w = .outOfFuel { c with Halted := true } w := by
  induction n generalizing c with
  | zero =>
    have hval : c.valueAt c.Position = 99 := by simp [Computer.valueAt, hhalt]
    obtain ⟨hread, _⟩ := ReadNextOpcode_of_decode_eq c { Value := 99, Modes := [] }
      (by rw [hval]; rfl)
    have hfind : opcodes.find? (fun opcode => decide (opcode = (99 : Int))) = none := by
      rw [List.find?_eq_none]
      intro x hx
      simp only [decide_eq_true_eq]
      intro h
      exact hnot (h ▸ hx)
    simp only [StepUntil, hread, hfind, Step_at_halt c w hhalt]
  | succ n ih =>
    have hval : c.valueAt c.Position = 99 := by simp [Computer.valueAt, hhalt]
    obtain ⟨hread, _⟩ := ReadNextOpcode_of_decode_eq c { Value := 99, Modes := [] }
      (by rw [hval]; rfl)
    have hfind : opcodes.find? (fun opcode => decide (opcode = (99 : Int))) = none := by
      rw [List.find?_eq_none]
      intro x hx
      simp only [decide_eq_true_eq]
      intro h
      exact hnot (h ▸ hx)
    have hnext := ih { c with Halted := true } hhalt
    rw [StepUntil]
    simp only [hread, hfind, Step_at_halt c w hhalt]
    exact hnext

/-- Witness of C20: the program `99` and the opcodes 3 and 4. -/
theorem stepUntil_loops_at_halt_witness :
    StepUntil (5 + 1) [3, 4] (machineOf [99]) World.silent
      = .outOfFuel { machineOf [99] with Halted := true } World.silent :=
  stepUntil_loops_at_halt (machineOf [99]) World.silent [3, 4] rfl (by decide) 5

/-- C14: when the instruction at `Position` decodes to an operation that is
among the opcodes asked for, `StepUntil` returns that operation and the
machine and the world are exactly as before (same memory map, same set of
present addresses, same registers and queues); when it decodes to an
operation that is not among them, `StepUntil` goes on as `StepUntil` from the
state after one `Step` (one turn of the loop later), and ends as that `Step`
does when it panics or waits for ever. -/
theorem stepUntil_breakpoint (c : Computer) (w : World) (opcodes : List Int)
    (opcode : Opcode) (hdec : ReadOpcode c (c.valueAt c.Position) = .ok opcode) (n : Nat) :
    (opcode.Value ∈ opcodes → StepUntil (n + 1) opcodes c w = .found opcode.Value c w) ∧
    (opcode.Value ∉ opcodes →
      (∀ c1 w1, Step c w = .ok c1 w1 →
        StepUntil (n + 1) opcodes c w = StepUntil n opcodes c1 w1) ∧
      (∀ fault c1 w1, Step c w = .panic fault c1 w1 →
        StepUntil (n + 1) opcodes c w = .panic fault c1 w1) ∧
      (∀ c1 w1, Step c w = .blocked c1 w1 →
        StepUntil (n + 1) opcodes c w = .blocked c1 w1)) := by
  obtain ⟨hread, _⟩ := ReadNextOpcode_of_decode_eq c opcode hdec
  refine ⟨?_, ?_⟩
  · intro hmem
    have hfind : opcodes.find? (fun x => decide (x = opcode.Value)) = some opcode.Value := by
      induction opcodes with
      | nil => simp at hmem
      | cons x xs ih =>
        by_cases hx : x = opcode.Value
        · simp [List.find?, hx]
        · have hxs : opcode.Value ∈ xs := by
            rcases List.mem_cons.mp hmem with h | h
            · exact absurd h.symm hx
            · exact h
          simp only [List.find?, hx, decide_False]
          exact ih hxs
    simp only [StepUntil, hread, hfind]
  · intro hnot
    have hfind : opcodes.find? (fun x => decide (x = opcode.Value)) = none := by
      rw [List.find?_eq_none]
      intro x hx
      simp only [decide_eq_true_eq]
      intro h
      exact hnot (h ▸ hx)
    refine ⟨?_, ?_, ?_⟩
    · intro c1 w1 hs
      rw [StepUntil]
      simp only [hread, hfind, hs]
    · intro fault c1 w1 hs
      rw [StepUntil]
      simp only [hread, hfind, hs]
    · intro c1 w1 hs
      rw [StepUntil]
      simp only [hread, hfind, hs]

/-- Witness of C14: on `4,0,99` with the opcodes 4 and 99 `StepUntil` stops at
once on OUTPUT (4) and leaves the machine as it is. -/
theorem stepUntil_breakpoint_witness :
    ReadOpcode (machineOf [4, 0, 99]) ((machineOf [4, 0, 99]).valueAt 0)
      = .ok { Value := 4, Modes := [0] } ∧
    StepUntil (0 + 1) [4, 99] (machineOf [4, 0, 99]) World.silent
      = .found 4 (machineOf [4, 0, 99]) World.silent :=
  ⟨rfl, (stepUntil_breakpoint (machineOf [4, 0, 99]) World.silent [4, 99]
    { Value := 4, Modes := [0] } rfl 0).1 (by decide)⟩

/-! ### Halting -/

/-- The counterexample to C17 as stated: `Step` does not look at `Halted`.  On
a machine with `Halted` set and an ADD instruction at `Position` it executes
the instruction: address 5 goes from 2 to 4 and `Position` from 0 to 4. -/
theorem halted_step_executes :
    (Run 2 (machineOf [1, 5, 5, 5, 99, 1]) World.silent).returned = true ∧
    haltedAdder.Halted = true ∧ haltedAdder.Position = 0 ∧ haltedAdder.valueAt 5 = 2 ∧
    (Step haltedAdder World.silent).failed = false ∧
    (Step haltedAdder World.silent).computer.Position = 4 ∧
    (Step haltedAdder World.silent).computer.valueAt 5 = 4 := by
  refine ⟨?_, ?_, ?_, ?_, ?_, ?_, ?_⟩ <;> decide

/-- `Step` on a halted machine whose `Position` holds 99 returns the same
machine and world. -/
theorem Step_of_halted_at_halt (c : Computer) (w : World)
    (hhalted : c.Halted = true) (hhalt : c.Memory c.Position = some 99) :
    Step c w = .ok c w := by
  rw [Step_at_halt c w hhalt]
  congr 1
  cases c
  simp only at hhalted
  subst hhalted
  rfl

/-- C17, amended: in every state in which `Halted` is true and `Position`
holds 99, `Step` executes nothing: it returns the very same machine (memory
map, `Position`, `RPosition`, `Halted`, queues and buffers) and the same
world. -/
theorem halted_at_halt_is_terminal (c : Computer) (w : World)
    (hhalted : c.Halted = true) (hhalt : c.Memory c.Position = some 99) :
    Step c w = .ok c w := by
  rw [Step_at_halt c w hhalt]
  congr 1
  cases c
  simp only at hhalted
  subst hhalted
  rfl

/-- Witness of C17 (amended): the program `99` after its halt. -/
theorem halted_at_halt_is_terminal_witness :
    Step { machineOf [99] with Halted := true } World.silent
      = .ok { machineOf [99] with Halted := true } World.silent :=
  halted_at_halt_is_terminal { machineOf [99] with Halted := true } World.silent rfl rfl

/-! ### What `Step` never changes -/

theorem fixed_CheckAddress (c : Computer) (a : Int) : (CheckAddress c a).fixed = c.fixed := by
  unfold CheckAddress
  split <;> rfl

theorem fixed_ReadMemory (c : Computer) (a : Int) : (ReadMemory c a).2.fixed = c.fixed :=
  fixed_CheckAddress c a

theorem fixed_WriteMemory (c : Computer) (a v : Int) : (WriteMemory c a v).fixed = c.fixed :=
  fixed_CheckAddress c a

theorem fixed_Jump (c : Computer) (a : Int) : (Jump c a).fixed = c.fixed :=
  fixed_CheckAddress c a

theorem fixed_RelativeJump (c : Computer) (a : Int) : (RelativeJump c a).fixed = c.fixed :=
  fixed_CheckAddress c _

theorem fixed_ReadNext (c : Computer) : (ReadNext c).2.fixed = c.fixed :=
  fixed_CheckAddress (Next c) _

theorem fixed_ReadNextGivenMode (c : Computer) (mode : Int) :
    (ReadNextGivenMode c mode).computer.fixed = c.fixed := by
  unfold ReadNextGivenMode
  split_ifs
  · exact (fixed_ReadMemory _ _).trans (fixed_ReadNext c)
  · exact fixed_ReadNext c
  · exact (fixed_ReadMemory _ _).trans (fixed_ReadNext c)
  · rfl

theorem fixed_WriteNextGivenMode (c : Computer) (mode value : Int) :
    (WriteNextGivenMode c mode value).computer.fixed = c.fixed := by
  unfold WriteNextGivenMode
  split_ifs
  · exact (fixed_WriteMemory _ _ _).trans (fixed_ReadNext c)
  · rfl
  · exact (fixed_WriteMemory _ _ _).trans (fixed_ReadNext c)
  · rfl

theorem fixed_modeAt (opcode : Opcode) (i : Nat) (c : Computer) :
    (modeAt opcode i c).computer.fixed = c.fixed := by
  unfold modeAt
  split <;> rfl

theorem Res.fixed_andThen {α β : Type} (r : Res α) (k : α → Computer → Res β) (c : Computer)
    (hr : r.computer.fixed = c.fixed) (hk : ∀ a c0, (k a c0).computer.fixed = c0.fixed) :
    (r.andThen k).computer.fixed = c.fixed := by
  cases r with
  | ok a c0 => exact (hk a c0).trans hr
  | panic f c0 => exact hr

theorem fixed_stepArith (op : Int → Int → Int) (opcode : Opcode) (c : Computer) :
    (stepArith op opcode c).computer.fixed = c.fixed := by
  unfold stepArith
  refine Res.fixed_andThen _ _ _ (fixed_modeAt _ _ _) (fun _ c0 => ?_)
  refine Res.fixed_andThen _ _ _ (fixed_ReadNextGivenMode _ _) (fun _ c1 => ?_)
  refine Res.fixed_andThen _ _ _ (fixed_modeAt _ _ _) (fun _ c2 => ?_)
  refine Res.fixed_andThen _ _ _ (fixed_ReadNextGivenMode _ _) (fun _ c3 => ?_)
  refine Res.fixed_andThen _ _ _ (fixed_modeAt _ _ _) (fun _ c4 => ?_)
  exact Res.fixed_andThen _ _ _ (fixed_WriteNextGivenMode _ _ _) (fun _ c5 => rfl)

theorem fixed_stepCompare (test : Int → Int → Bool) (opcode : Opcode) (c : Computer) :
    (stepCompare test opcode c).computer.fixed = c.fixed := by
  unfold stepCompare
  refine Res.fixed_andThen _ _ _ (fixed_modeAt _ _ _) (fun _ c0 => ?_)
  refine Res.fixed_andThen _ _ _ (fixed_ReadNextGivenMode _ _) (fun _ c1 => ?_)
  refine Res.fixed_andThen _ _ _ (fixed_modeAt _ _ _) (fun _ c2 => ?_)
  refine Res.fixed_andThen _ _ _ (fixed_ReadNextGivenMode _ _) (fun _ c3 => ?_)
  refine Res.fixed_andThen _ _ _ ?_ (fun _ c5 => rfl)
  split
  · exact Res.fixed_andThen _ _ _ (fixed_modeAt _ _ _)
      (fun _ c4 => fixed_WriteNextGivenMode _ _ _)
  · exact Res.fixed_andThen _ _ _ (fixed_modeAt _ _ _)
      (fun _ c4 => fixed_WriteNextGivenMode _ _ _)

theorem fixed_stepJump (test : Int → Bool) (opcode : Opcode) (c : Computer) :
    (stepJump test opcode c).computer.fixed = c.fixed := by
  unfold stepJump
  refine Res.fixed_andThen _ _ _ (fixed_modeAt _ _ _) (fun _ c0 => ?_)
  refine Res.fixed_andThen _ _ _ (fixed_ReadNextGivenMode _ _) (fun _ c1 => ?_)
  refine Res.fixed_andThen _ _ _ (fixed_modeAt _ _ _) (fun _ c2 => ?_)
  refine Res.fixed_andThen _ _ _ (fixed_ReadNextGivenMode _ _) (fun _ c3 => ?_)
  split
  · exact fixed_Jump _ _
  · rfl

theorem fixed_stepStore (opcode : Opcode) (c : Computer) (input : Int) :
    (stepStore opcode c input).computer.fixed = c.fixed := by
  unfold stepStore
  refine Res.fixed_andThen _ _ _ (fixed_modeAt _ _ _) (fun _ c0 => ?_)
  exact Res.fixed_andThen _ _ _ (fixed_WriteNextGivenMode _ _ _) (fun _ c1 => rfl)

theorem fixed_stepRelative (opcode : Opcode) (c : Computer) :
    (stepRelative opcode c).computer.fixed = c.fixed := by
  unfold stepRelative
  refine Res.fixed_andThen _ _ _ (fixed_modeAt _ _ _) (fun _ c0 => ?_)
  refine Res.fixed_andThen _ _ _ (fixed_ReadNextGivenMode _ _) (fun _ c1 => ?_)
  exact fixed_RelativeJump _ _

theorem computer_ofRes (r : Res Unit) (w : World) :
    (StepResult.ofRes r w).computer = r.computer := by
  cases r <;> rfl

theorem fixed_stepInput (opcode : Opcode) (c : Computer) (w : World) :
    (stepInput opcode c w).computer.fixed = c.fixed := by
  unfold stepInput
  split_ifs
  · split
    · rfl
    · rw [computer_ofRes]; exact fixed_stepStore _ _ _
  · split
    · rfl
    · rw [computer_ofRes]; exact fixed_stepStore _ _ _
  · split
    · rw [computer_ofRes]; exact fixed_stepStore _ _ _
    · split
      · rfl
      · rw [computer_ofRes]; exact (fixed_stepStore _ _ _).trans rfl

theorem fixed_stepOutput (opcode : Opcode) (c : Computer) (w : World) :
    (stepOutput opcode c w).computer.fixed = c.fixed := by
  have h : ((modeAt opcode 0 c).andThen fun mode0 computer =>
      ReadNextGivenMode computer mode0).computer.fixed = c.fixed :=
    Res.fixed_andThen _ _ _ (fixed_modeAt _ _ _) (fun _ c0 => fixed_ReadNextGivenMode _ _)
  unfold stepOutput
  split
  · rename_i f c1 heq
    rw [heq] at h
    exact h
  · rename_i v c1 heq
    rw [heq] at h
    split_ifs
    · exact h
    · exact h
    · split
      · exact h
      · exact h

theorem ReadOpcode_value_ne_99 (c : Computer) (v : Int) (opcode : Opcode) (hv : v ≠ 99)
    (h : ReadOpcode c v = .ok opcode) : opcode.Value ≠ 99 := by
  unfold ReadOpcode at h
  rw [if_neg hv] at h
  simp only at h
  split at h
  · cases h
  · rename_i op _
    split at h
    · cases h
    · rename_i k hexp
      split at h
      · cases h
      · injection h with h
        rw [← h]
        intro h99
        simp only at h99
        rw [h99] at hexp
        have hnone : expectedModes 99 = none := by decide
        rw [hnone] at hexp
        cases hexp

/-- `Step` leaves the program, `Halted` and the channels as they are, unless
it is the HALT of a present 99, which sets `Halted` and nothing else. -/
theorem Step_fixed (c : Computer) (w : World) :
    (Step c w).computer.fixed = c.fixed ∨
    (c.Memory c.Position = some 99 ∧ Step c w = .ok { c with Halted := true } w) := by
  by_cases h99 : c.valueAt c.Position = 99
  · right
    have hmem := Memory_of_valueAt c c.Position 99 h99 (by decide)
    exact ⟨hmem, Step_at_halt c w hmem⟩
  · left
    have hfix : (Read c).2.fixed = c.fixed := fixed_ReadMemory c c.Position
    have hval : (Read c).1 = c.valueAt c.Position := ReadMemory_fst c c.Position
    cases hdec : ReadOpcode (Read c).2 (Read c).1 with
    | error e =>
      have hread : ReadNextOpcode c = .panic e (Read c).2 := by
        unfold ReadNextOpcode
        simp only [hdec]
      simp only [Step, hread]
      exact hfix
    | ok opcode =>
      have hne : opcode.Value ≠ 99 :=
        ReadOpcode_value_ne_99 _ _ _ (by rw [hval]; exact h99) hdec
      have hread : ReadNextOpcode c = .ok opcode (Read c).2 := by
        unfold ReadNextOpcode
        simp only [hdec]
      simp only [Step, hread]
      split_ifs
      · rw [computer_ofRes]; exact (fixed_stepArith _ _ _).trans hfix
      · rw [computer_ofRes]; exact (fixed_stepArith _ _ _).trans hfix
      · exact (fixed_stepInput _ _ _).trans hfix
      · exact (fixed_stepOutput _ _ _).trans hfix
      · rw [computer_ofRes]; exact (fixed_stepJump _ _ _).trans hfix
      · rw [computer_ofRes]; exact (fixed_stepJump _ _ _).trans hfix
      · rw [computer_ofRes]; exact (fixed_stepCompare _ _ _).trans hfix
      · rw [computer_ofRes]; exact (fixed_stepCompare _ _ _).trans hfix
      · rw [computer_ofRes]; exact (fixed_stepRelative _ _).trans hfix
      · exact hfix

/-! ### The memory a program is loaded into -/

theorem fillMemory_apply (codes : List Int) : ∀ (c : Int) (memory : MemoryMap) (a : Int),
    fillMemory codes c memory a
      = if c ≤ a ∧ a < c + codes.length then codes[(a - c).toNat]? else memory a := by
  induction codes with
  | nil =>
    intro c memory a
    have h : ¬ (c ≤ a ∧ a < c + ((([] : List Int).length : Nat) : Int)) := by
      simp only [List.length_nil, Nat.cast_zero]; omega
    rw [if_neg h]
    rfl
  | cons x xs ih =>
    intro c memory a
    rw [fillMemory, ih]
    simp only [List.length_cons, Nat.cast_add, Nat.cast_one, MemoryMap.store]
    by_cases hac : a = c
    · subst hac
      have h1 : ¬ (a + 1 ≤ a ∧ a < a + 1 + (xs.length : Int)) := by omega
      have h2 : a ≤ a ∧ a < a + ((xs.length : Int) + 1) := by omega
      rw [if_neg h1, if_pos h2]
      simp
    · by_cases hin : c + 1 ≤ a ∧ a < c + 1 + (xs.length : Int)
      · have h2 : c ≤ a ∧ a < c + ((xs.length : Int) + 1) := by omega
        have h3 : (a - c).toNat = (a - (c + 1)).toNat + 1 := by omega
        rw [if_pos hin, if_pos h2, h3]
        simp
      · have h2 : ¬ (c ≤ a ∧ a < c + ((xs.length : Int) + 1)) := by omega
        rw [if_neg hin, if_neg h2]
        simp [hac]

/-- `createMemoryMap`: address `a` holds `codes[a]` for `0 ≤ a < len(codes)`,
and no other address is present. -/
theorem createMemoryMap_apply (codes : List Int) (a : Int) :
    createMemoryMap codes a = if 0 ≤ a then codes[a.toNat]? else none := by
  unfold createMemoryMap
  rw [fillMemory_apply]
  by_cases h0 : 0 ≤ a
  · by_cases hlt : a < codes.length
    · have h : 0 ≤ a ∧ a < 0 + (codes.length : Int) := by omega
      rw [if_pos h, if_pos h0]
      simp
    · have h : ¬ (0 ≤ a ∧ a < 0 + (codes.length : Int)) := by omega
      have hnone : codes[a.toNat]? = none := by
        rw [List.getElem?_eq_none]
        omega
      rw [if_neg h, if_pos h0, hnone]
  · have h : ¬ (0 ≤ a ∧ a < 0 + (codes.length : Int)) := by omega
    rw [if_neg h, if_neg h0]

/-! ### Reachable states -/

theorem Reachable.trans {a b c : Computer} (hab : Reachable a b) (hbc : Reachable b c) :
    Reachable a c := by
  induction hbc with
  | start => exact hab
  | step c0 c1 w w1 _ hstep ih => exact Reachable.step c0 c1 w w1 ih hstep

theorem Run_done (fuel : Nat) : ∀ (c : Computer) (w : World) (memory : MemoryMap)
    (c1 : Computer) (w1 : World), Run fuel c w = .done memory c1 w1 →
    Reachable c c1 ∧ c1.Halted = true ∧ memory = c1.Memory := by
  induction fuel with
  | zero => intro c w memory c1 w1 h; simp [Run] at h
  | succ fuel ih =>
    intro c w memory c1 w1 h
    rw [Run] at h
    cases hs : Step c w with
    | ok c2 w2 =>
      rw [hs] at h
      simp only at h
      by_cases hh : c2.Halted = true
      · rw [if_pos hh] at h
        injection h with hm hc hw
        subst hc
        exact ⟨Reachable.step c c2 w w2 Reachable.start hs, hh, hm.symm⟩
      · rw [if_neg hh] at h
        obtain ⟨hr, hhalt, hmem⟩ := ih c2 w2 memory c1 w1 h
        exact ⟨Reachable.trans (Reachable.step c c2 w w2 Reachable.start hs) hr, hhalt, hmem⟩
    | panic f c2 w2 => rw [hs] at h; simp at h
    | blocked c2 w2 => rw [hs] at h; simp at h

theorem Step_ok_fixed (c : Computer) (w : World) (c1 : Computer) (w1 : World)
    (hs : Step c w = .ok c1 w1) :
    c1.Codes = c.Codes ∧
    (c1.Halted = c.Halted ∨ (c.Memory c.Position = some 99 ∧ c1 = { c with Halted := true })) := by
  rcases Step_fixed c w with h | ⟨hmem, h⟩
  · rw [hs] at h
    have h1 : c1.fixed = c.fixed := h
    unfold Computer.fixed at h1
    simp only [Prod.mk.injEq] at h1
    exact ⟨h1.1, Or.inl h1.2.1⟩
  · rw [hs] at h
    injection h with hc _
    exact ⟨by rw [hc], Or.inr ⟨hmem, hc⟩⟩

theorem Reachable.codes {start c : Computer} (h : Reachable start c) : c.Codes = start.Codes := by
  induction h with
  | start => rfl
  | step c0 c1 w w1 _ hstep ih => exact (Step_ok_fixed c0 w c1 w1 hstep).1.trans ih

theorem Reachable.halted {start c : Computer} (h : Reachable start c)
    (hstart : start.Halted = false) (hhalted : c.Halted = true) :
    c.Memory c.Position = some 99 := by
  induction h with
  | start => rw [hstart] at hhalted; cases hhalted
  | step c0 c1 w w1 _ hstep ih =>
    rcases (Step_ok_fixed c0 w c1 w1 hstep).2 with hsame | ⟨hmem, hc⟩
    · have hmem := ih (hsame ▸ hhalted)
      have hs := Step_at_halt c0 w hmem
      rw [hstep] at hs
      injection hs with hc _
      rw [hc]
      exact hmem
    · rw [hc]
      exact hmem

theorem New_eq (t : List Char) (p : List Int) (hp : Parser t = .ok p) :
    New t = .ok (machineOf p) ∧ BufferedNew t = .ok (bufferedMachineOf p) ∧
    QueuedNew t = .ok (queuedMachineOf p) := by
  unfold New BufferedNew QueuedNew
  rw [hp]
  exact ⟨rfl, rfl, rfl⟩

/-- C19: in every state reached by calls of `Step` that return, from a start
with `Halted` false (the state a constructor, `Reset` or `Load` gives),
`Halted = true` implies that `Position` is a present address holding 99; hence
every further `Step` on such a state returns and leaves machine and world
exactly as they are, and once `Run` has returned a memory, any later `Step`
leaves the machine as it is and any later `Run` returns that same memory. -/
theorem halted_means_at_halt (start c : Computer) (hstart : start.Halted = false)
    (hreach : Reachable start c) :
    (c.Halted = true →
      c.Memory c.Position = some 99 ∧ c.valueAt c.Position = 99 ∧
      (∀ w, Step c w = .ok c w) ∧
      (∀ fuel w, Run (fuel + 1) c w = .done c.Memory c w)) ∧
    (∀ fuel w memory c1 w1, Run fuel c w = .done memory c1 w1 →
      (∀ w2, Step c1 w2 = .ok c1 w2) ∧
      (∀ fuel2 w2, Run (fuel2 + 1) c1 w2 = .done memory c1 w2)) ∧
    (∀ p, (machineOf p).Halted = false ∧ (bufferedMachineOf p).Halted = false ∧
      (queuedMachineOf p).Halted = false) ∧
    (∀ c0, (Reset c0).Halted = false) ∧
    (∀ c0 t c1, Load c0 t = .ok c1 → c1.Halted = false) := by
  have key : ∀ c2, Reachable start c2 → c2.Halted = true →
      c2.Memory c2.Position = some 99 ∧ c2.valueAt c2.Position = 99 ∧
      (∀ w, Step c2 w = .ok c2 w) ∧
      (∀ fuel w, Run (fuel + 1) c2 w = .done c2.Memory c2 w) := by
    intro c2 hr hh
    have hmem := Reachable.halted hr hstart hh
    have hstep : ∀ w, Step c2 w = .ok c2 w := fun w => Step_of_halted_at_halt c2 w hh hmem
    refine ⟨hmem, by simp [Computer.valueAt, hmem], hstep, ?_⟩
    intro fuel w
    rw [Run, hstep w]
    simp [hh]
  refine ⟨key c hreach, ?_, fun _ => ⟨rfl, rfl, rfl⟩, fun _ => rfl, ?_⟩
  · intro fuel w memory c1 w1 hrun
    obtain ⟨hr, hh, hm⟩ := Run_done fuel c w memory c1 w1 hrun
    obtain ⟨_, _, hstep, hrun2⟩ := key c1 (Reachable.trans hreach hr) hh
    refine ⟨hstep, ?_⟩
    intro fuel2 w2
    rw [hm]
    exact hrun2 fuel2 w2
  · intro c0 t c1 hload
    unfold Load at hload
    split at hload
    · cases hload
    · injection hload with hload
      rw [← hload]
      rfl

/-- Witness of C19: the first program of `TestComputer` after its run. -/
theorem halted_means_at_halt_witness :
    (Run 3 (machineOf sampleCodes) World.silent).computer.Halted = true ∧
    (Run 3 (machineOf sampleCodes) World.silent).computer.valueAt
      (Run 3 (machineOf sampleCodes) World.silent).computer.Position = 99 :=
  ⟨by decide, ((halted_means_at_halt (machineOf sampleCodes)
    (Run 3 (machineOf sampleCodes) World.silent).computer rfl
    (Run_done 3 (machineOf sampleCodes) World.silent _ _ _ rfl).1).1 (by decide)).2.1⟩

/-- C15: for a machine built by a constructor from the program codes `p` and
advanced by any number of calls of `Step` that return, `Reset` gives
`Position = 0`, `RPosition = 0`, `Halted = false` and the memory that holds
`p[a]` at every address `0 ≤ a < len(p)` and has no other address present;
`Codes` is still `p`, and `InQueue`, `OutQueue` and the channels are those the
machine had before `Reset`.  The same holds for the machine `RunAndReset`
ends with. -/
theorem reset_restores_program (t : List Char) (p : List Int) (start c : Computer)
    (hp : Parser t = .ok p)
    (hstart : New t = .ok start ∨ BufferedNew t = .ok start ∨ QueuedNew t = .ok start)
    (hreach : Reachable start c) :
    c.Codes = p ∧
    (Reset c).Position = 0 ∧ (Reset c).RPosition = 0 ∧ (Reset c).Halted = false ∧
    (∀ a : Int, (Reset c).Memory a = if 0 ≤ a then p[a.toNat]? else none) ∧
    (Reset c).InQueue = c.InQueue ∧ (Reset c).OutQueue = c.OutQueue ∧
    (Reset c).InBuffer = c.InBuffer ∧ (Reset c).OutBuffer = c.OutBuffer ∧
    (∀ fuel w memory c1 w1, RunAndReset fuel c w = .done memory c1 w1 →
      c1.Position = 0 ∧ c1.RPosition = 0 ∧ c1.Halted = false ∧
      ∀ a : Int, c1.Memory a = if 0 ≤ a then p[a.toNat]? else none) := by
  obtain ⟨h1, h2, h3⟩ := New_eq t p hp
  have hcodes0 : start.Codes = p := by
    rcases hstart with h | h | h
    · rw [h1] at h; injection h with h; rw [← h]; rfl
    · rw [h2] at h; injection h with h; rw [← h]; rfl
    · rw [h3] at h; injection h with h; rw [← h]; rfl
  have hcodes : c.Codes = p := (Reachable.codes hreach).trans hcodes0
  have hmem : ∀ c2 : Computer, c2.Codes = p →
      ∀ a : Int, (Reset c2).Memory a = if 0 ≤ a then p[a.toNat]? else none := by
    intro c2 h2 a
    show createMemoryMap c2.Codes a = _
    rw [h2, createMemoryMap_apply]
  refine ⟨hcodes, rfl, rfl, rfl, hmem c hcodes, rfl, rfl, rfl, rfl, ?_⟩
  intro fuel w memory c1 w1 hrun
  unfold RunAndReset at hrun
  cases hr : Run fuel c w with
  | done m c2 w2 =>
    rw [hr] at hrun
    injection hrun with _ hc _
    obtain ⟨hreach2, _, _⟩ := Run_done fuel c w m c2 w2 hr
    have hc2 : c2.Codes = p := (Reachable.codes hreach2).trans hcodes
    rw [← hc]
    exact ⟨rfl, rfl, rfl, hmem c2 hc2⟩
  | panic f c2 w2 => rw [hr] at hrun; cases hrun
  | blocked c2 w2 => rw [hr] at hrun; cases hrun
  | outOfFuel c2 w2 => rw [hr] at hrun; cases hrun

/-- Witness of C15: the first program of `TestComputer`, run to its end. -/
theorem reset_restores_program_witness :
    (Reset (Run 3 (machineOf sampleCodes) World.silent).computer).Position = 0 ∧
    (Reset (Run 3 (machineOf sampleCodes) World.silent).computer).Halted = false ∧
    ∀ a : Int, (Reset (Run 3 (machineOf sampleCodes) World.silent).computer).Memory a
      = if 0 ≤ a then sampleCodes[a.toNat]? else none :=
  have h := reset_restores_program ("1,9,10,3,2,3,11,0,99,30,40,50".toList) sampleCodes
    (machineOf sampleCodes) (Run 3 (machineOf sampleCodes) World.silent).computer rfl
    (Or.inl rfl) (Run_done 3 (machineOf sampleCodes) World.silent _ _ _ rfl).1
  ⟨h.2.1, h.2.2.2.1, h.2.2.2.2.1⟩

/-! ### The queues -/

theorem stepStore_spec (opcode : Opcode) (c : Computer) (input m0 : Int)
    (h0 : opcode.Modes[0]? = some m0) (hm0 : m0 = 0 ∨ m0 = 2) :
    ∃ c1, stepStore opcode c input = .ok () c1 ∧
      c1.view = { c.view with
        Position := intAdd c.view.Position 2,
        value := Function.update c.view.value
          (c.view.target (intAdd c.view.Position 1) m0) input } := by
  obtain ⟨c1, e1, v1, _⟩ := WriteNextGivenMode_spec c m0 input hm0
  refine ⟨Next c1, ?_, ?_⟩
  · unfold stepStore
    rw [modeAt_eq _ _ _ _ h0, Res.andThen_ok, e1, Res.andThen_ok]
  · rw [view_Next, v1]
    simp [View.next, intAdd_intAdd]

/-- `Step` on INPUT of a machine that reads from a queue which is not empty,
on the view. -/
theorem Step_input_queue_view (c : Computer) (w : World) (opcode : Opcode) (m0 : Int)
    (queue : List Int) (input : Int)
    (hdec : ReadOpcode c (c.valueAt c.Position) = .ok opcode)
    (hop : opcode.Value = 3)
    (h0 : opcode.Modes[0]? = some m0) (hm0 : m0 = 0 ∨ m0 = 2)
    (hb : c.InBuffer = none) (hq : c.InQueue = some queue)
    (hlast : queue.getLast? = some input) :
    ∃ c1, Step c w = .ok c1 w ∧
      c1.view = { c.view with
        Position := intAdd c.view.Position 2,
        value := Function.update c.view.value
          (c.view.target (intAdd c.view.Position 1) m0) input,
        InQueue := some queue.dropLast } := by
  obtain ⟨hread, _⟩ := ReadNextOpcode_of_decode_eq c opcode hdec
  obtain ⟨c1, e1, v1⟩ := stepStore_spec opcode { c with InQueue := some queue.dropLast }
    input m0 h0 hm0
  refine ⟨c1, ?_, v1⟩
  have hne : ¬ (c.InBuffer = none ∧ c.InQueue = none) := by
    rw [hq]; simp
  have hnb : ¬ (c.InBuffer ≠ none) := by rw [hb]; simp
  simp only [Step, hread, hop, Int.reduceEq, if_false, if_true]
  unfold stepInput
  rw [if_neg hne, if_neg hnb]
  simp only [hq, hlast, e1, StepResult.ofRes]

/-- `Step` on INPUT of a machine that reads from a queue which is empty: the
index panic, in the state before the step. -/
theorem Step_input_queue_empty (c : Computer) (w : World) (opcode : Opcode)
    (hdec : ReadOpcode c (c.valueAt c.Position) = .ok opcode)
    (hop : opcode.Value = 3)
    (hb : c.InBuffer = none) (hq : c.InQueue = some []) :
    Step c w = .panic .indexOutOfRange c w := by
  obtain ⟨hread, _⟩ := ReadNextOpcode_of_decode_eq c opcode hdec
  have hne : ¬ (c.InBuffer = none ∧ c.InQueue = none) := by
    rw [hq]; simp
  have hnb : ¬ (c.InBuffer ≠ none) := by rw [hb]; simp
  simp only [Step, hread, hop, Int.reduceEq, if_false, if_true]
  unfold stepInput
  rw [if_neg hne, if_neg hnb]
  simp only [hq, List.getLast?_nil]

/-- `Step` on OUTPUT of a machine that writes to a queue, on the view. -/
theorem Step_output_queue_view (c : Computer) (w : World) (opcode : Opcode) (m0 : Int)
    (queue : List Int)
    (hdec : ReadOpcode c (c.valueAt c.Position) = .ok opcode)
    (hop : opcode.Value = 4)
    (h0 : opcode.Modes[0]? = some m0) (hm0 : m0 = 0 ∨ m0 = 1 ∨ m0 = 2)
    (hb : c.OutBuffer = none) (hq : c.OutQueue = some queue) :
    ∃ c1, Step c w = .ok c1 w ∧
      c1.view = { c.view with
        Position := intAdd c.view.Position 2,
        OutQueue := some (queue ++ [c.view.operand (intAdd c.view.Position 1) m0]) } := by
  obtain ⟨hread, _⟩ := ReadNextOpcode_of_decode_eq c opcode hdec
  obtain ⟨c1, e1, v1⟩ := ReadNextGivenMode_spec c m0 hm0
  have hb1 : c1.OutBuffer = none := by
    have := congrArg View.OutBuffer v1
    simpa [Computer.view, View.next, hb] using this
  have hq1 : c1.OutQueue = some queue := by
    have := congrArg View.OutQueue v1
    simpa [Computer.view, View.next, hq] using this
  refine ⟨Next { c1 with OutQueue := some (queue ++ [c.view.operand (intAdd c.view.Position 1) m0]) },
    ?_, ?_⟩
  · have hne : ¬ (c1.OutBuffer = none ∧ c1.OutQueue = none) := by
      rw [hq1]; simp
    have hnb : ¬ (c1.OutBuffer ≠ none) := by rw [hb1]; simp
    simp only [Step, hread, hop, Int.reduceEq, if_false, if_true]
    unfold stepOutput
    simp only [modeAt_eq _ _ _ _ h0, Res.andThen_ok, e1]
    rw [if_neg hne, if_neg hnb]
    simp only [hq1]
  · have hv : ({ c1 with OutQueue := some (queue ++ [c.view.operand (intAdd c.view.Position 1) m0]) } :
        Computer).view
        = { c1.view with
            OutQueue := some (queue ++ [c.view.operand (intAdd c.view.Position 1) m0]) } := rfl
    rw [view_Next, hv, v1]
    simp [View.next, intAdd_intAdd]

theorem Input_queue (c : Computer) (w : World) (v : Int) (queue : List Int)
    (hb : c.InBuffer = none) (hq : c.InQueue = some queue) :
    Input c w v = .ok ({ c with InQueue := some (queue ++ [v]) }, w) := by
  have hne : ¬ (c.InBuffer = none ∧ c.InQueue = none) := by
    rw [hq]; simp
  have hnb : ¬ (c.InBuffer ≠ none) := by rw [hb]; simp
  unfold Input
  rw [if_neg hne, if_neg hnb]
  simp only [hq]

theorem Output_queue (c : Computer) (w : World) (queue : List Int) (a : Int)
    (hb : c.OutBuffer = none) (hq : c.OutQueue = some (queue ++ [a])) :
    Output c w = .ok a { c with OutQueue := some queue } w := by
  have hnb : ¬ (c.OutBuffer ≠ none) := by rw [hb]; simp
  unfold Output
  rw [if_neg hnb]
  have hlast : (queue ++ [a]).getLast? = some a := by simp
  simp only [hq, hlast, List.dropLast_concat]

/-- The effect of a queue INPUT read off the view. -/
theorem fields_of_view_input (c c1 : Computer) (position dst val : Int)
    (queue : Option (List Int))
    (hv : c1.view = { c.view with
      Position := position, value := Function.update c.view.value dst val,
      InQueue := queue }) :
    c1.valueAt dst = val ∧ (∀ x, x ≠ dst → c1.valueAt x = c.valueAt x) ∧
    c1.Position = position ∧ c1.InQueue = queue ∧ c1.RPosition = c.RPosition ∧
    c1.Halted = c.Halted ∧ c1.OutQueue = c.OutQueue := by
  have hP := congrArg View.Position hv
  have hR := congrArg View.RPosition hv
  have hH := congrArg View.Halted hv
  have hV := congrArg View.value hv
  have hI := congrArg View.InQueue hv
  have hO := congrArg View.OutQueue hv
  simp only [Computer.view] at hP hR hH hV hI hO
  refine ⟨?_, ?_, hP, hI, hR, hH, hO⟩
  · rw [hV]; simp
  · intro x hx
    rw [hV]; simp [Function.update, hx]

/-- The counterexample to C13 as stated: on the queue machine for `103,0,99`
the instruction at `Position` is INPUT and `InQueue` is empty; after
`Input(5)` the retried `Step` does not succeed, it panics on the write
target in Immediate mode. -/
theorem retried_input_fails :
    (queuedMachineOf [103, 0, 99]).InQueue = some [] ∧
    ReadOpcode (queuedMachineOf [103, 0, 99]) ((queuedMachineOf [103, 0, 99]).valueAt 0)
      = .ok { Value := 3, Modes := [1] } ∧
    (Step (queuedMachineOf [103, 0, 99]) World.silent).failed = true ∧
    Input (queuedMachineOf [103, 0, 99]) World.silent 5
      = .ok ({ queuedMachineOf [103, 0, 99] with InQueue := some [5] }, World.silent) ∧
    (Step { queuedMachineOf [103, 0, 99] with InQueue := some [5] } World.silent).failed
      = true := by
  refine ⟨rfl, rfl, ?_, rfl, ?_⟩ <;> decide

/-- C13, amended: on a machine that reads from a queue (`InBuffer` nil),
whose `InQueue` is empty and whose instruction at `Position` is INPUT, `Step`
panics and the machine and the world are exactly as before (memory map,
`Position`, `RPosition`, `Halted`, `InQueue`, `OutQueue`); `Input(v)` then puts
`v` in the queue, and, when the write mode of the instruction is 0 or 2, the
retried `Step` returns, has stored `v` at the destination, has moved
`Position` by 2 and has left `InQueue` empty, every other value, `RPosition`,
`Halted` and `OutQueue` being as before. -/
theorem empty_queue_input (c : Computer) (w : World) (opcode : Opcode)
    (hb : c.InBuffer = none) (hq : c.InQueue = some [])
    (hdec : ReadOpcode c (c.valueAt c.Position) = .ok opcode) (hop : opcode.Value = 3) :
    Step c w = .panic .indexOutOfRange c w ∧
    ∀ v : Int,
      Input c w v = .ok ({ c with InQueue := some [v] }, w) ∧
      ∀ m0, opcode.Modes[0]? = some m0 → (m0 = 0 ∨ m0 = 2) →
        ∃ c1, Step { c with InQueue := some [v] } w = .ok c1 w ∧
          c1.valueAt (c.target (intAdd c.Position 1) m0) = v ∧
          (∀ x, x ≠ c.target (intAdd c.Position 1) m0 → c1.valueAt x = c.valueAt x) ∧
          c1.Position = intAdd c.Position 2 ∧ c1.InQueue = some [] ∧
          c1.RPosition = c.RPosition ∧ c1.Halted = c.Halted ∧ c1.OutQueue = c.OutQueue := by
  refine ⟨Step_input_queue_empty c w opcode hdec hop hb hq, ?_⟩
  intro v
  refine ⟨by simpa using Input_queue c w v [] hb hq, ?_⟩
  intro m0 h0 hm0
  obtain ⟨c1, hs, hv⟩ := Step_input_queue_view { c with InQueue := some [v] } w opcode m0
    [v] v hdec hop h0 hm0 hb rfl rfl
  exact ⟨c1, hs, fields_of_view_input c c1 _ _ _ _ hv⟩

/-- Witness of C13 (amended): the queue machine for `3,0,99`. -/
theorem empty_queue_input_witness :
    Step (queuedMachineOf [3, 0, 99]) World.silent
      = .panic .indexOutOfRange (queuedMachineOf [3, 0, 99]) World.silent ∧
    ∃ c1, Step { queuedMachineOf [3, 0, 99] with InQueue := some [5] } World.silent
        = .ok c1 World.silent ∧ c1.valueAt 0 = 5 ∧ c1.InQueue = some [] :=
  have h := empty_queue_input (queuedMachineOf [3, 0, 99]) World.silent
    { Value := 3, Modes := [0] } rfl rfl rfl rfl
  have h2 := (h.2 5).2 0 rfl (Or.inl rfl)
  ⟨h.1, h2.choose, h2.choose_spec.1, h2.choose_spec.2.1, h2.choose_spec.2.2.2.2.1⟩

/-- C18: on a machine with queues on both sides (`InBuffer` and `OutBuffer`
nil), (i) after `Input(v)` a `Step` on an INPUT instruction with write mode 0
or 2 stores `v` at its destination and leaves `InQueue` as it was before
`Input(v)`; of two values given as `Input(x)` then `Input(y)`, `y` is the one
stored and `x` stays in the queue; (ii) after a `Step` on an OUTPUT
instruction, which appends the emitted value `a` to `OutQueue`, `Output()`
returns `a` and leaves `OutQueue` as it was before that `Step`. -/
theorem queues_are_stacks (c : Computer) (w : World) (opcode : Opcode) (m0 : Int)
    (qin qout : List Int)
    (hib : c.InBuffer = none) (hiq : c.InQueue = some qin)
    (hob : c.OutBuffer = none) (hoq : c.OutQueue = some qout)
    (hdec : ReadOpcode c (c.valueAt c.Position) = .ok opcode)
    (h0 : opcode.Modes[0]? = some m0) :
    (opcode.Value = 3 → (m0 = 0 ∨ m0 = 2) →
      (∀ v : Int,
        Input c w v = .ok ({ c with InQueue := some (qin ++ [v]) }, w) ∧
        ∃ c1, Step { c with InQueue := some (qin ++ [v]) } w = .ok c1 w ∧
          c1.valueAt (c.target (intAdd c.Position 1) m0) = v ∧
          c1.InQueue = c.InQueue) ∧
      (∀ x y : Int,
        Input { c with InQueue := some (qin ++ [x]) } w y
          = .ok ({ c with InQueue := some (qin ++ [x] ++ [y]) }, w) ∧
        ∃ c1, Step { c with InQueue := some (qin ++ [x] ++ [y]) } w = .ok c1 w ∧
          c1.valueAt (c.target (intAdd c.Position 1) m0) = y ∧
          c1.InQueue = some (qin ++ [x]))) ∧
    (opcode.Value = 4 → (m0 = 0 ∨ m0 = 1 ∨ m0 = 2) →
      ∃ c1, Step c w = .ok c1 w ∧
        c1.OutQueue = some (qout ++ [c.operand (intAdd c.Position 1) m0]) ∧
        ∃ c2, Output c1 w = .ok (c.operand (intAdd c.Position 1) m0) c2 w ∧
          c2.OutQueue = c.OutQueue) := by
  refine ⟨?_, ?_⟩
  · intro hop hm0
    have hstep : ∀ (queue : List Int) (v : Int),
        ∃ c1, Step { c with InQueue := some (queue ++ [v]) } w = .ok c1 w ∧
          c1.valueAt (c.target (intAdd c.Position 1) m0) = v ∧
          c1.InQueue = some queue := by
      intro queue v
      obtain ⟨c1, hs, hv⟩ := Step_input_queue_view { c with InQueue := some (queue ++ [v]) }
        w opcode m0 (queue ++ [v]) v hdec hop h0 hm0 hib rfl (by simp)
      obtain ⟨f1, _, _, f4, _⟩ := fields_of_view_input c c1 _ _ _ _ hv
      exact ⟨c1, hs, f1, by simpa using f4⟩
    refine ⟨?_, ?_⟩
    · intro v
      obtain ⟨c1, hs, hval, hqueue⟩ := hstep qin v
      exact ⟨Input_queue c w v qin hib hiq, c1, hs, hval, hqueue.trans hiq.symm⟩
    · intro x y
      exact ⟨Input_queue { c with InQueue := some (qin ++ [x]) } w y (qin ++ [x]) hib rfl,
        hstep (qin ++ [x]) y⟩
  · intro hop hm0
    obtain ⟨c1, hs, hv⟩ := Step_output_queue_view c w opcode m0 qout hdec hop h0 hm0 hob hoq
    have hq1 : c1.OutQueue = some (qout ++ [c.operand (intAdd c.Position 1) m0]) :=
      congrArg View.OutQueue hv
    have hb1 : c1.OutBuffer = none := (congrArg View.OutBuffer hv).trans hob
    refine ⟨c1, hs, hq1, { c1 with OutQueue := some qout }, ?_, hoq.symm⟩
    exact Output_queue c1 w qout _ hb1 hq1

/-- Witness of C18: the queue machine for `3,0,4,0,99`. -/
theorem queues_are_stacks_witness :
    ∃ c1, Step { queuedMachineOf [3, 0, 4, 0, 99] with InQueue := some ([] ++ [7] ++ [8]) }
        World.silent = .ok c1 World.silent ∧
      c1.valueAt 0 = 8 ∧ c1.InQueue = some ([] ++ [7]) :=
  have h := (queues_are_stacks (queuedMachineOf [3, 0, 4, 0, 99]) World.silent
    { Value := 3, Modes := [0] } 0 [] [] rfl rfl rfl rfl rfl rfl).1 rfl (Or.inl rfl)
  (h.2 7 8).2

/-! ### Illegal modes -/

theorem ReadNextGivenMode_panic (c : Computer) (mode : Int)
    (h : ¬ (mode = 0 ∨ mode = 1 ∨ mode = 2)) :
    ReadNextGivenMode c mode = .panic (.unknownMode mode) c := by
  push_neg at h
  unfold ReadNextGivenMode
  rw [if_neg h.1, if_neg h.2.1, if_neg h.2.2]

theorem WriteNextGivenMode_immediate (c : Computer) (value : Int) :
    WriteNextGivenMode c 1 value = .panic .illegalWriteMode c := rfl

theorem WriteNextGivenMode_panic (c : Computer) (mode value : Int)
    (h : ¬ (mode = 0 ∨ mode = 2)) :
    ∃ fault, WriteNextGivenMode c mode value = .panic fault c := by
  push_neg at h
  unfold WriteNextGivenMode
  rw [if_neg h.1]
  by_cases h1 : mode = 1
  · rw [if_pos h1]; exact ⟨_, rfl⟩
  · rw [if_neg h1, if_neg h.2]; exact ⟨_, rfl⟩

theorem Res.andThen_panic {α β : Type} (fault : Fault) (c : Computer)
    (k : α → Computer → Res β) : (Res.panic fault c).andThen k = .panic fault c := rfl

theorem stepArith_panic (op : Int → Int → Int) (opcode : Opcode) (c : Computer)
    (m0 m1 m2 : Int)
    (h0 : opcode.Modes[0]? = some m0) (h1 : opcode.Modes[1]? = some m1)
    (h2 : opcode.Modes[2]? = some m2)
    (hbad : ¬ ((m0 = 0 ∨ m0 = 1 ∨ m0 = 2) ∧ (m1 = 0 ∨ m1 = 1 ∨ m1 = 2) ∧ (m2 = 0 ∨ m2 = 2))) :
    ∃ fault c1, stepArith op opcode c = .panic fault c1 ∧ c1.view.value = c.view.value := by
  unfold stepArith
  rw [modeAt_eq _ _ _ _ h0, Res.andThen_ok]
  by_cases hm0 : m0 = 0 ∨ m0 = 1 ∨ m0 = 2
  · obtain ⟨c1, e1, v1⟩ := ReadNextGivenMode_spec c m0 hm0
    rw [e1, Res.andThen_ok, modeAt_eq _ _ _ _ h1, Res.andThen_ok]
    by_cases hm1 : m1 = 0 ∨ m1 = 1 ∨ m1 = 2
    · obtain ⟨c2, e2, v2⟩ := ReadNextGivenMode_spec c1 m1 hm1
      rw [e2, Res.andThen_ok, modeAt_eq _ _ _ _ h2, Res.andThen_ok]
      obtain ⟨fault, e3⟩ := WriteNextGivenMode_panic c2 m2
        (op (c.view.operand (intAdd c.view.Position 1) m0)
          (c1.view.operand (intAdd c1.view.Position 1) m1)) (fun h => hbad ⟨hm0, hm1, h⟩)
      rw [e3]
      exact ⟨fault, c2, rfl, by rw [v2, v1]; rfl⟩
    · rw [ReadNextGivenMode_panic c1 m1 hm1]
      exact ⟨_, c1, rfl, by rw [v1]; rfl⟩
  · rw [ReadNextGivenMode_panic c m0 hm0]
    exact ⟨_, c, rfl, rfl⟩

theorem stepCompare_panic (test : Int → Int → Bool) (opcode : Opcode) (c : Computer)
    (m0 m1 m2 : Int)
    (h0 : opcode.Modes[0]? = some m0) (h1 : opcode.Modes[1]? = some m1)
    (h2 : opcode.Modes[2]? = some m2)
    (hbad : ¬ ((m0 = 0 ∨ m0 = 1 ∨ m0 = 2) ∧ (m1 = 0 ∨ m1 = 1 ∨ m1 = 2) ∧ (m2 = 0 ∨ m2 = 2))) :
    ∃ fault c1, stepCompare test opcode c = .panic fault c1 ∧
      c1.view.value = c.view.value := by
  unfold stepCompare
  rw [modeAt_eq _ _ _ _ h0, Res.andThen_ok]
  by_cases hm0 : m0 = 0 ∨ m0 = 1 ∨ m0 = 2
  · obtain ⟨c1, e1, v1⟩ := ReadNextGivenMode_spec c m0 hm0
    rw [e1, Res.andThen_ok, modeAt_eq _ _ _ _ h1, Res.andThen_ok]
    by_cases hm1 : m1 = 0 ∨ m1 = 1 ∨ m1 = 2
    · obtain ⟨c2, e2, v2⟩ := ReadNextGivenMode_spec c1 m1 hm1
      rw [e2, Res.andThen_ok]
      have hm2 : ¬ (m2 = 0 ∨ m2 = 2) := fun h => hbad ⟨hm0, hm1, h⟩
      have hv : c2.view.value = c.view.value := by rw [v2, v1]; rfl
      by_cases ht : test (c.view.operand (intAdd c.view.Position 1) m0)
          (c1.view.operand (intAdd c1.view.Position 1) m1) = true
      · obtain ⟨fault, e3⟩ := WriteNextGivenMode_panic c2 m2 1 hm2
        rw [if_pos ht, modeAt_eq _ _ _ _ h2, Res.andThen_ok, e3]
        exact ⟨fault, c2, rfl, hv⟩
      · obtain ⟨fault, e3⟩ := WriteNextGivenMode_panic c2 m2 0 hm2
        rw [if_neg ht, modeAt_eq _ _ _ _ h2, Res.andThen_ok, e3]
        exact ⟨fault, c2, rfl, hv⟩
    · rw [ReadNextGivenMode_panic c1 m1 hm1]
      exact ⟨_, c1, rfl, by rw [v1]; rfl⟩
  · rw [ReadNextGivenMode_panic c m0 hm0]
    exact ⟨_, c, rfl, rfl⟩

theorem stepJump_panic (test : Int → Bool) (opcode : Opcode) (c : Computer)
    (m0 m1 : Int)
    (h0 : opcode.Modes[0]? = some m0) (h1 : opcode.Modes[1]? = some m1)
    (hbad : ¬ ((m0 = 0 ∨ m0 = 1 ∨ m0 = 2) ∧ (m1 = 0 ∨ m1 = 1 ∨ m1 = 2))) :
    ∃ fault c1, stepJump test opcode c = .panic fault c1 ∧ c1.view.value = c.view.value := by
  unfold stepJump
  rw [modeAt_eq _ _ _ _ h0, Res.andThen_ok]
  by_cases hm0 : m0 = 0 ∨ m0 = 1 ∨ m0 = 2
  · obtain ⟨c1, e1, v1⟩ := ReadNextGivenMode_spec c m0 hm0
    rw [e1, Res.andThen_ok, modeAt_eq _ _ _ _ h1, Res.andThen_ok,
      ReadNextGivenMode_panic c1 m1 (fun h => hbad ⟨hm0, h⟩)]
    exact ⟨_, c1, rfl, by rw [v1]; rfl⟩
  · rw [ReadNextGivenMode_panic c m0 hm0]
    exact ⟨_, c, rfl, rfl⟩

theorem stepRelative_panic (opcode : Opcode) (c : Computer) (m0 : Int)
    (h0 : opcode.Modes[0]? = some m0) (hbad : ¬ (m0 = 0 ∨ m0 = 1 ∨ m0 = 2)) :
    ∃ fault c1, stepRelative opcode c = .panic fault c1 ∧ c1.view.value = c.view.value := by
  unfold stepRelative
  rw [modeAt_eq _ _ _ _ h0, Res.andThen_ok, ReadNextGivenMode_panic c m0 hbad]
  exact ⟨_, c, rfl, rfl⟩

theorem stepOutput_panic (opcode : Opcode) (c : Computer) (w : World) (m0 : Int)
    (h0 : opcode.Modes[0]? = some m0) (hbad : ¬ (m0 = 0 ∨ m0 = 1 ∨ m0 = 2)) :
    ∃ fault, stepOutput opcode c w = .panic fault c w := by
  unfold stepOutput
  rw [modeAt_eq _ _ _ _ h0, Res.andThen_ok, ReadNextGivenMode_panic c m0 hbad]
  exact ⟨_, rfl⟩

theorem stepStore_panic (opcode : Opcode) (c : Computer) (input m0 : Int)
    (h0 : opcode.Modes[0]? = some m0) (hbad : ¬ (m0 = 0 ∨ m0 = 2)) :
    ∃ fault, stepStore opcode c input = .panic fault c := by
  obtain ⟨fault, e⟩ := WriteNextGivenMode_panic c m0 input hbad
  unfold stepStore
  rw [modeAt_eq _ _ _ _ h0, Res.andThen_ok, e]
  exact ⟨fault, rfl⟩

theorem stepInput_fails (opcode : Opcode) (c : Computer) (w : World) (m0 : Int)
    (h0 : opcode.Modes[0]? = some m0) (hbad : ¬ (m0 = 0 ∨ m0 = 2)) :
    (stepInput opcode c w).failed = true ∧
    (stepInput opcode c w).computer.view.value = c.view.value ∧
    ((stepInput opcode c w).failed = true →
      (∃ fault c1 w1, stepInput opcode c w = .panic fault c1 w1) ∨
      (c.InBuffer ≠ none ∧ w.supply = [] ∧ stepInput opcode c w = .blocked c w)) := by
  have hstore : ∀ (c0 : Computer) (input : Int) (w0 : World),
      ∃ fault, StepResult.ofRes (stepStore opcode c0 input) w0 = .panic fault c0 w0 := by
    intro c0 input w0
    obtain ⟨fault, e⟩ := stepStore_panic opcode c0 input m0 h0 hbad
    exact ⟨fault, by rw [e]; rfl⟩
  unfold stepInput
  by_cases hc : c.InBuffer = none ∧ c.InQueue = none
  · rw [if_pos hc]
    cases hs : w.supply with
    | nil => exact ⟨rfl, rfl, fun _ => Or.inl ⟨_, _, _, rfl⟩⟩
    | cons input rest =>
      obtain ⟨fault, e⟩ := hstore c input { w with supply := rest }
      simp only [e]
      exact ⟨rfl, rfl, fun _ => Or.inl ⟨_, _, _, rfl⟩⟩
  · rw [if_neg hc]
    by_cases hb : c.InBuffer ≠ none
    · rw [if_pos hb]
      cases hs : w.supply with
      | nil => exact ⟨rfl, rfl, fun _ => Or.inr ⟨hb, rfl, rfl⟩⟩
      | cons input rest =>
        obtain ⟨fault, e⟩ := hstore c input { w with supply := rest }
        simp only [e]
        exact ⟨rfl, rfl, fun _ => Or.inl ⟨_, _, _, rfl⟩⟩
    · rw [if_neg hb]
      cases hq : c.InQueue with
      | none =>
        obtain ⟨fault, e⟩ := hstore c 0 w
        simp only [e]
        exact ⟨rfl, rfl, fun _ => Or.inl ⟨_, _, _, rfl⟩⟩
      | some queue =>
        dsimp only
        cases hl : queue.getLast? with
        | none => exact ⟨rfl, rfl, fun _ => Or.inl ⟨_, _, _, rfl⟩⟩
        | some input =>
          obtain ⟨fault, e⟩ := hstore { c with InQueue := some queue.dropLast } input w
          simp only [e]
          exact ⟨rfl, rfl, fun _ => Or.inl ⟨_, _, _, rfl⟩⟩

theorem ReadOpcode_mode_digit (c : Computer) (v : Int) (h0 : 0 ≤ v)
    (hop : 1 ≤ v % 100 ∧ v % 100 ≤ 9) :
    ∃ opcode, ReadOpcode c v = .ok opcode ∧ opcode.Value = v % 100 ∧
      ∀ i, i < arity (v % 100) → opcode.Modes[i]? = some (v / 10 ^ (2 + i) % 10) := by
  have h99 : v ≠ 99 := by intro h; subst h; omega
  rw [ReadOpcode_nonneg c v h0 h99, if_pos hop]
  refine ⟨_, rfl, rfl, ?_⟩
  obtain ⟨n, rfl⟩ := Int.eq_ofNat_of_zero_le h0
  intro i hi
  simp only [Int.toNat_ofNat]
  rw [padded_getElem _ _ i (by omega), digits_getD]
  congr 1
  have e : n / 100 / 10 ^ i = n / 10 ^ (2 + i) := by
    rw [Nat.div_div_eq_div_mul, pow_add]; norm_num
  rw [e]
  push_cast
  rfl

theorem Step_three_fail (c : Computer) (w : World) (opcode : Opcode) (m0 m1 m2 : Int)
    (hdec : ReadOpcode c (c.valueAt c.Position) = .ok opcode)
    (hop : opcode.Value = 1 ∨ opcode.Value = 2 ∨ opcode.Value = 7 ∨ opcode.Value = 8)
    (h0 : opcode.Modes[0]? = some m0) (h1 : opcode.Modes[1]? = some m1)
    (h2 : opcode.Modes[2]? = some m2)
    (hbad : ¬ ((m0 = 0 ∨ m0 = 1 ∨ m0 = 2) ∧ (m1 = 0 ∨ m1 = 1 ∨ m1 = 2) ∧ (m2 = 0 ∨ m2 = 2))) :
    ∃ fault c1, Step c w = .panic fault c1 w ∧ c1.view.value = c.view.value := by
  obtain ⟨c0, hread, hv0, _⟩ := ReadNextOpcode_of_decode c opcode hdec
  rcases hop with h | h | h | h
  · obtain ⟨fault, c1, e, hv⟩ := stepArith_panic intAdd opcode c0 m0 m1 m2 h0 h1 h2 hbad
    refine ⟨fault, c1, ?_, by rw [hv, hv0]⟩
    simp only [Step, hread, h, e, StepResult.ofRes, Int.reduceEq, if_false, if_true]
  · obtain ⟨fault, c1, e, hv⟩ := stepArith_panic intMul opcode c0 m0 m1 m2 h0 h1 h2 hbad
    refine ⟨fault, c1, ?_, by rw [hv, hv0]⟩
    simp only [Step, hread, h, e, StepResult.ofRes, Int.reduceEq, if_false, if_true]
  · obtain ⟨fault, c1, e, hv⟩ := stepCompare_panic (fun a b => decide (a < b)) opcode c0
      m0 m1 m2 h0 h1 h2 hbad
    refine ⟨fault, c1, ?_, by rw [hv, hv0]⟩
    simp only [Step, hread, h, e, StepResult.ofRes, Int.reduceEq, if_false, if_true]
  · obtain ⟨fault, c1, e, hv⟩ := stepCompare_panic (fun a b => decide (a = b)) opcode c0
      m0 m1 m2 h0 h1 h2 hbad
    refine ⟨fault, c1, ?_, by rw [hv, hv0]⟩
    simp only [Step, hread, h, e, StepResult.ofRes, Int.reduceEq, if_false, if_true]

theorem Step_jump_fail (c : Computer) (w : World) (opcode : Opcode) (m0 m1 : Int)
    (hdec : ReadOpcode c (c.valueAt c.Position) = .ok opcode)
    (hop : opcode.Value = 5 ∨ opcode.Value = 6)
    (h0 : opcode.Modes[0]? = some m0) (h1 : opcode.Modes[1]? = some m1)
    (hbad : ¬ ((m0 = 0 ∨ m0 = 1 ∨ m0 = 2) ∧ (m1 = 0 ∨ m1 = 1 ∨ m1 = 2))) :
    ∃ fault c1, Step c w = .panic fault c1 w ∧ c1.view.value = c.view.value := by
  obtain ⟨c0, hread, hv0, _⟩ := ReadNextOpcode_of_decode c opcode hdec
  rcases hop with h | h
  · obtain ⟨fault, c1, e, hv⟩ := stepJump_panic (fun check => decide (check ≠ 0)) opcode c0
      m0 m1 h0 h1 hbad
    refine ⟨fault, c1, ?_, by rw [hv, hv0]⟩
    simp only [Step, hread, h, e, StepResult.ofRes, Int.reduceEq, if_false, if_true]
  · obtain ⟨fault, c1, e, hv⟩ := stepJump_panic (fun check => decide (check = 0)) opcode c0
      m0 m1 h0 h1 hbad
    refine ⟨fault, c1, ?_, by rw [hv, hv0]⟩
    simp only [Step, hread, h, e, StepResult.ofRes, Int.reduceEq, if_false, if_true]

theorem Step_relative_fail (c : Computer) (w : World) (opcode : Opcode) (m0 : Int)
    (hdec : ReadOpcode c (c.valueAt c.Position) = .ok opcode) (hop : opcode.Value = 9)
    (h0 : opcode.Modes[0]? = some m0) (hbad : ¬ (m0 = 0 ∨ m0 = 1 ∨ m0 = 2)) :
    ∃ fault c1, Step c w = .panic fault c1 w ∧ c1.view.value = c.view.value := by
  obtain ⟨c0, hread, hv0, _⟩ := ReadNextOpcode_of_decode c opcode hdec
  obtain ⟨fault, c1, e, hv⟩ := stepRelative_panic opcode c0 m0 h0 hbad
  refine ⟨fault, c1, ?_, by rw [hv, hv0]⟩
  simp only [Step, hread, hop, e, StepResult.ofRes, Int.reduceEq, if_false, if_true]

theorem Step_output_fail (c : Computer) (w : World) (opcode : Opcode) (m0 : Int)
    (hdec : ReadOpcode c (c.valueAt c.Position) = .ok opcode) (hop : opcode.Value = 4)
    (h0 : opcode.Modes[0]? = some m0) (hbad : ¬ (m0 = 0 ∨ m0 = 1 ∨ m0 = 2)) :
    ∃ fault c1, Step c w = .panic fault c1 w ∧ c1.view.value = c.view.value := by
  obtain ⟨c0, hread, hv0, _⟩ := ReadNextOpcode_of_decode c opcode hdec
  obtain ⟨fault, e⟩ := stepOutput_panic opcode c0 w m0 h0 hbad
  refine ⟨fault, c0, ?_, by rw [hv0]⟩
  simp only [Step, hread, hop, e, Int.reduceEq, if_false, if_true]

theorem Step_input_fail (c : Computer) (w : World) (opcode : Opcode) (m0 : Int)
    (hdec : ReadOpcode c (c.valueAt c.Position) = .ok opcode) (hop : opcode.Value = 3)
    (h0 : opcode.Modes[0]? = some m0) (hbad : ¬ (m0 = 0 ∨ m0 = 2)) :
    (Step c w).failed = true ∧ (Step c w).computer.view.value = c.view.value ∧
    ((∃ fault c1 w1, Step c w = .panic fault c1 w1) ∨ (c.InBuffer ≠ none ∧ w.supply = [])) := by
  obtain ⟨c0, hread, hv0, _⟩ := ReadNextOpcode_of_decode c opcode hdec
  obtain ⟨hf, hv, hc⟩ := stepInput_fails opcode c0 w m0 h0 hbad
  have hstep : Step c w = stepInput opcode c0 w := by
    simp only [Step, hread, hop, Int.reduceEq, if_false, if_true]
  have hb : c0.InBuffer = c.InBuffer := congrArg View.InBuffer hv0
  rw [hstep]
  refine ⟨hf, by rw [hv, hv0], ?_⟩
  rcases hc hf with h | ⟨h1, h2, _⟩
  · exact Or.inl h
  · exact Or.inr ⟨by rw [← hb]; exact h1, h2⟩

/-- `Step` does not run to the end an instruction with a mode it does not
accept among the parameters of its operation, and no address changes its
value. -/
theorem Step_illegal_mode (c : Computer) (w : World) (v : Int)
    (hv : c.valueAt c.Position = v) (h0 : 0 ≤ v) (hop : 1 ≤ v % 100 ∧ v % 100 ≤ 9)
    (hbad : ∃ i, i < arity (v % 100) ∧ ¬ legalMode (v % 100) i (v / 10 ^ (2 + i) % 10)) :
    (Step c w).failed = true ∧ (∀ x, (Step c w).computer.valueAt x = c.valueAt x) ∧
    ((∃ fault c1 w1, Step c w = .panic fault c1 w1) ∨
      (v % 100 = 3 ∧ c.InBuffer ≠ none ∧ w.supply = [])) := by
  obtain ⟨opcode, hdec, hval, hmodes⟩ := ReadOpcode_mode_digit c v h0 hop
  rw [← hv] at hdec
  obtain ⟨i, hi, hl⟩ := hbad
  have hpanic : (∃ fault c1, Step c w = .panic fault c1 w ∧ c1.view.value = c.view.value) →
      (Step c w).failed = true ∧ (∀ x, (Step c w).computer.valueAt x = c.valueAt x) ∧
      ((∃ fault c1 w1, Step c w = .panic fault c1 w1) ∨
        (v % 100 = 3 ∧ c.InBuffer ≠ none ∧ w.supply = [])) := by
    rintro ⟨fault, c1, e, hvalue⟩
    rw [e]
    exact ⟨rfl, fun x => congrFun hvalue x, Or.inl ⟨_, _, _, rfl⟩⟩
  have hcases : v % 100 = 1 ∨ v % 100 = 2 ∨ v % 100 = 7 ∨ v % 100 = 8 ∨
      v % 100 = 5 ∨ v % 100 = 6 ∨ v % 100 = 9 ∨ v % 100 = 4 ∨ v % 100 = 3 := by omega
  have three : (v % 100 = 1 ∨ v % 100 = 2 ∨ v % 100 = 7 ∨ v % 100 = 8) →
      ∃ fault c1, Step c w = .panic fault c1 w ∧ c1.view.value = c.view.value := by
    intro h
    have ha : arity (v % 100) = 3 := by
      rcases h with h | h | h | h <;> rw [h] <;> rfl
    have hne : v % 100 ≠ 3 := by omega
    rw [ha] at hi hmodes
    refine Step_three_fail c w opcode _ _ _ hdec (by rw [hval]; exact h)
      (hmodes 0 (by omega)) (hmodes 1 (by omega)) (hmodes 2 (by omega)) ?_
    rintro ⟨l0, l1, l2⟩
    apply hl
    unfold legalMode
    interval_cases i
    · rw [if_neg (by omega)]; exact l0
    · rw [if_neg (by omega)]; exact l1
    · rw [if_pos (by omega)]; exact l2
  have two : (v % 100 = 5 ∨ v % 100 = 6) →
      ∃ fault c1, Step c w = .panic fault c1 w ∧ c1.view.value = c.view.value := by
    intro h
    have ha : arity (v % 100) = 2 := by
      rcases h with h | h <;> rw [h] <;> rfl
    rw [ha] at hi hmodes
    refine Step_jump_fail c w opcode _ _ hdec (by rw [hval]; exact h)
      (hmodes 0 (by omega)) (hmodes 1 (by omega)) ?_
    rintro ⟨l0, l1⟩
    apply hl
    unfold legalMode
    interval_cases i
    · rw [if_neg (by omega)]; exact l0
    · rw [if_neg (by omega)]; exact l1
  rcases hcases with h | h | h | h | h | h | h | h | h
  · exact hpanic (three (by omega))
  · exact hpanic (three (by omega))
  · exact hpanic (three (by omega))
  · exact hpanic (three (by omega))
  · exact hpanic (two (by omega))
  · exact hpanic (two (by omega))
  · have ha : arity (v % 100) = 1 := by rw [h]; rfl
    rw [ha] at hi hmodes
    refine hpanic (Step_relative_fail c w opcode _ hdec (by rw [hval]; exact h)
      (hmodes 0 (by omega)) ?_)
    intro l0
    apply hl
    unfold legalMode
    interval_cases i
    rw [if_neg (by omega)]; exact l0
  · have ha : arity (v % 100) = 1 := by rw [h]; rfl
    rw [ha] at hi hmodes
    refine hpanic (Step_output_fail c w opcode _ hdec (by rw [hval]; exact h)
      (hmodes 0 (by omega)) ?_)
    intro l0
    apply hl
    unfold legalMode
    interval_cases i
    rw [if_neg (by omega)]; exact l0
  · have ha : arity (v % 100) = 1 := by rw [h]; rfl
    rw [ha] at hi hmodes
    have hb : ¬ (v / 10 ^ (2 + 0) % 10 = 0 ∨ v / 10 ^ (2 + 0) % 10 = 2) := by
      intro l0
      apply hl
      unfold legalMode
      interval_cases i
      rw [if_pos (Or.inr h)]; exact l0
    obtain ⟨hf, hvalue, hc⟩ := Step_input_fail c w opcode _ hdec (by rw [hval]; exact h)
      (hmodes 0 (by omega)) hb
    refine ⟨hf, fun x => congrFun hvalue x, ?_⟩
    rcases hc with hc | hc
    · exact Or.inl hc
    · exact Or.inr ⟨h, hc⟩

/-- C11: `WriteNextGivenMode` with mode 1 panics in the state it was called
in, for every state and value: `Position` has not moved and nothing was
written.  Hence when the instruction at `Position` is an ADD, MUL, LESS-THAN
or EQUALS whose third mode is 1 (the digit of the ten thousands of the raw
value, as in 11101), `Step` panics, and when it is an INPUT whose mode is 1
(the digit of the hundreds, as in 103), `Step` does not return: it panics, or,
on a machine that reads from a channel nobody has sent to, it waits for ever;
in both cases no address has changed its value. -/
theorem immediate_write_target (c : Computer) (w : World) (v : Int)
    (hv : c.valueAt c.Position = v) (h0 : 0 ≤ v) :
    (∀ (c0 : Computer) (value : Int),
      WriteNextGivenMode c0 1 value = .panic .illegalWriteMode c0) ∧
    ((v % 100 = 1 ∨ v % 100 = 2 ∨ v % 100 = 7 ∨ v % 100 = 8) → v / 10000 % 10 = 1 →
      (Step c w).failed = true ∧ (∃ fault c1 w1, Step c w = .panic fault c1 w1) ∧
      ∀ x, (Step c w).computer.valueAt x = c.valueAt x) ∧
    (v % 100 = 3 → v / 100 % 10 = 1 →
      (Step c w).failed = true ∧
      ((∃ fault c1 w1, Step c w = .panic fault c1 w1) ∨
        (c.InBuffer ≠ none ∧ w.supply = [])) ∧
      ∀ x, (Step c w).computer.valueAt x = c.valueAt x) ∧
    (∀ opcode : Opcode, ReadOpcode c v = .ok opcode →
      (opcode.Value = 1 ∨ opcode.Value = 2 ∨ opcode.Value = 7 ∨ opcode.Value = 8) →
      opcode.Modes[2]? = some 1 →
      (Step c w).failed = true ∧ ∀ x, (Step c w).computer.valueAt x = c.valueAt x) ∧
    (∀ opcode : Opcode, ReadOpcode c v = .ok opcode → opcode.Value = 3 →
      opcode.Modes[0]? = some 1 →
      (Step c w).failed = true ∧ ∀ x, (Step c w).computer.valueAt x = c.valueAt x) ∧
    ReadOpcode c 11101 = .ok { Value := 1, Modes := [1, 1, 1] } ∧
    ReadOpcode c 103 = .ok { Value := 3, Modes := [1] } := by
  refine ⟨fun c0 value => rfl, ?_, ?_, ?_, ?_, rfl, rfl⟩
  · intro hop hdigit
    have ha : arity (v % 100) = 3 := by
      rcases hop with h | h | h | h <;> rw [h] <;> rfl
    obtain ⟨hf, hvalue, hc⟩ := Step_illegal_mode c w v hv h0 (by omega)
      ⟨2, by omega, by
        unfold legalMode
        rw [if_pos (Or.inl rfl)]
        have e : v / 10 ^ (2 + 2) % 10 = 1 := by norm_num; exact hdigit
        rw [e]; decide⟩
    refine ⟨hf, ?_, hvalue⟩
    rcases hc with hc | hc
    · exact hc
    · omega
  · intro hop hdigit
    have ha : arity (v % 100) = 1 := by rw [hop]; rfl
    obtain ⟨hf, hvalue, hc⟩ := Step_illegal_mode c w v hv h0 (by omega)
      ⟨0, by omega, by
        unfold legalMode
        rw [if_pos (Or.inr hop)]
        have e : v / 10 ^ (2 + 0) % 10 = 1 := by norm_num; exact hdigit
        rw [e]; decide⟩
    refine ⟨hf, ?_, hvalue⟩
    rcases hc with hc | hc
    · exact Or.inl hc
    · exact Or.inr hc.2
  · intro opcode hdec hop h2
    rw [← hv] at hdec
    have hlen : 2 < opcode.Modes.length := by
      by_contra hl
      rw [List.getElem?_eq_none (by omega)] at h2
      cases h2
    obtain ⟨fault, c1, e, hvalue⟩ := Step_three_fail c w opcode opcode.Modes[0]
      opcode.Modes[1] 1 hdec hop (List.getElem?_eq_getElem (by omega))
      (List.getElem?_eq_getElem (by omega)) h2 (by
        rintro ⟨_, _, h | h⟩ <;> exact absurd h (by decide))
    rw [e]
    exact ⟨rfl, fun x => congrFun hvalue x⟩
  · intro opcode hdec hop h1
    rw [← hv] at hdec
    obtain ⟨hf, hvalue, _⟩ := Step_input_fail c w opcode 1 hdec hop h1 (by
      rintro (h | h) <;> exact absurd h (by decide))
    exact ⟨hf, fun x => congrFun hvalue x⟩

/-- Witness of C11: the programs `11101,5,6,0,99` and `103,0,99`. -/
theorem immediate_write_target_witness :
    (Step (machineOf [11101, 5, 6, 0, 99]) World.silent).failed = true ∧
    (Step (machineOf [103, 0, 99]) World.silent).failed = true :=
  ⟨((immediate_write_target (machineOf [11101, 5, 6, 0, 99]) World.silent 11101 rfl
      (by decide)).2.1 (Or.inl (by decide)) (by decide)).1,
   ((immediate_write_target (machineOf [103, 0, 99]) World.silent 103 rfl
      (by decide)).2.2.1 (by decide) (by decide)).1⟩

/-- The counterexample to C12 as stated: the value 3004 is non-negative, its
operation code is 4 (OUTPUT) and its higher digits are 3 and 0, one of them
other than 0, 1 and 2; on the program `3004,0,99` the decoder gives the modes
[0, 3], `Step` reads only the first, emits the value at address 0 and returns
with `Position` at 2. -/
theorem high_mode_digit_ignored :
    (machineOf [3004, 0, 99]).valueAt (machineOf [3004, 0, 99]).Position = 3004 ∧
    (3004 : Int) % 100 = 4 ∧ (3004 : Int) / 1000 % 10 = 3 ∧
    ReadOpcode (machineOf [3004, 0, 99]) 3004 = .ok { Value := 4, Modes := [0, 3] } ∧
    (Step (machineOf [3004, 0, 99]) World.silent).failed = false ∧
    (Step (machineOf [3004, 0, 99]) World.silent).computer.Position = 2 ∧
    (Step (machineOf [3004, 0, 99]) World.silent).world.emitted = [3004] := by
  refine ⟨rfl, by decide, by decide, rfl, ?_, ?_, ?_⟩ <;> decide

/-- C12, amended: when the value `v` at `Position` is non-negative, has an
operation code `v mod 100` in 1..9 and has a digit other than 0, 1 and 2 among
the mode digits of its parameters (digit `i` is `(v div 10^(2+i)) mod 10`, for
`i` below the number of parameters of the operation: 3 for ADD, MUL, LESS-THAN
and EQUALS, 2 for the jumps, 1 for INPUT, OUTPUT and ADJUST-RELATIVE-BASE),
`Step` does not run the instruction to the end: it panics, or, on an INPUT of
a machine that reads from a channel nobody has sent to, it waits for ever; no
address has changed its value. -/
theorem unknown_mode_digit (c : Computer) (w : World) (v : Int)
    (hv : c.valueAt c.Position = v) (h0 : 0 ≤ v) (hop : 1 ≤ v % 100 ∧ v % 100 ≤ 9)
    (i : Nat) (hi : i < arity (v % 100)) (hbad : 2 < v / 10 ^ (2 + i) % 10) :
    (Step c w).failed = true ∧
    ((∃ fault c1 w1, Step c w = .panic fault c1 w1) ∨
      (v % 100 = 3 ∧ c.InBuffer ≠ none ∧ w.supply = [])) ∧
    ∀ x, (Step c w).computer.valueAt x = c.valueAt x := by
  obtain ⟨hf, hvalue, hc⟩ := Step_illegal_mode c w v hv h0 hop
    ⟨i, hi, by
      unfold legalMode
      split_ifs <;> omega⟩
  exact ⟨hf, hc, hvalue⟩

/-- Witness of C12 (amended): the program `301,0,0,0,99`, an ADD whose first
mode digit is 3. -/
theorem unknown_mode_digit_witness :
    (Step (machineOf [301, 0, 0, 0, 99]) World.silent).failed = true :=
  (unknown_mode_digit (machineOf [301, 0, 0, 0, 99]) World.silent 301 rfl (by decide)
    (by decide) 0 (by decide) (by decide)).1

/-! ### The output queue is write-only for `Step` -/

theorem quiet_CheckAddress (c : Computer) (a : Int) :
    CheckAddress c.quiet a = (CheckAddress c a).quiet := by
  unfold CheckAddress
  have h : c.quiet.Memory a = c.Memory a := rfl
  rw [h]
  cases c.Memory a <;> rfl

theorem quiet_ReadMemory (c : Computer) (a : Int) :
    ReadMemory c.quiet a = ((ReadMemory c a).1, (ReadMemory c a).2.quiet) := by
  unfold ReadMemory
  simp only [quiet_CheckAddress]
  rfl

theorem quiet_WriteMemory (c : Computer) (a v : Int) :
    WriteMemory c.quiet a v = (WriteMemory c a v).quiet := by
  unfold WriteMemory
  simp only [quiet_CheckAddress]
  rfl

theorem quiet_Jump (c : Computer) (a : Int) : Jump c.quiet a = (Jump c a).quiet := by
  unfold Jump
  simp only [quiet_CheckAddress]
  rfl

theorem quiet_RelativeJump (c : Computer) (a : Int) :
    RelativeJump c.quiet a = (RelativeJump c a).quiet := by
  unfold RelativeJump
  have h : c.quiet.RPosition = c.RPosition := rfl
  simp only [h, quiet_CheckAddress]
  rfl

theorem quiet_ReadNext (c : Computer) :
    ReadNext c.quiet = ((ReadNext c).1, (ReadNext c).2.quiet) :=
  quiet_ReadMemory (Next c) _

theorem quiet_ReadFromNext (c : Computer) :
    ReadFromNext c.quiet = ((ReadFromNext c).1, (ReadFromNext c).2.quiet) := by
  unfold ReadFromNext
  simp only [quiet_ReadNext, quiet_ReadMemory]

theorem quiet_ReadRelativeNext (c : Computer) :
    ReadRelativeNext c.quiet = ((ReadRelativeNext c).1, (ReadRelativeNext c).2.quiet) := by
  unfold ReadRelativeNext ReadRelative
  simp only [quiet_ReadNext]
  exact quiet_ReadMemory _ _

theorem quiet_ReadNextGivenMode (c : Computer) (mode : Int) :
    ReadNextGivenMode c.quiet mode = (ReadNextGivenMode c mode).quiet := by
  unfold ReadNextGivenMode
  split_ifs
  · simp only [quiet_ReadFromNext]; rfl
  · simp only [quiet_ReadNext]; rfl
  · simp only [quiet_ReadRelativeNext]; rfl
  · rfl

theorem quiet_WriteNextGivenMode (c : Computer) (mode value : Int) :
    WriteNextGivenMode c.quiet mode value = (WriteNextGivenMode c mode value).quiet := by
  unfold WriteNextGivenMode
  split_ifs
  · unfold WriteToNext
    simp only [quiet_ReadNext, quiet_WriteMemory]; rfl
  · rfl
  · unfold WriteToRelative
    have h : c.quiet.RPosition = c.RPosition := rfl
    simp only [quiet_ReadNext, quiet_WriteMemory, h]; rfl
  · rfl

theorem quiet_modeAt (opcode : Opcode) (i : Nat) (c : Computer) :
    modeAt opcode i c.quiet = (modeAt opcode i c).quiet := by
  unfold modeAt
  split <;> rfl

theorem Res.quiet_andThen {α β : Type} (r r1 : Res α) (k : α → Computer → Res β)
    (hr : r1 = r.quiet) (hk : ∀ a c, k a c.quiet = (k a c).quiet) :
    r1.andThen k = (r.andThen k).quiet := by
  subst hr
  cases r with
  | ok a c => exact hk a c
  | panic f c => rfl

theorem quiet_stepArith (op : Int → Int → Int) (opcode : Opcode) (c : Computer) :
    stepArith op opcode c.quiet = (stepArith op opcode c).quiet := by
  unfold stepArith
  refine Res.quiet_andThen _ _ _ (quiet_modeAt _ _ _) (fun _ c0 => ?_)
  refine Res.quiet_andThen _ _ _ (quiet_ReadNextGivenMode _ _) (fun _ c1 => ?_)
  refine Res.quiet_andThen _ _ _ (quiet_modeAt _ _ _) (fun _ c2 => ?_)
  refine Res.quiet_andThen _ _ _ (quiet_ReadNextGivenMode _ _) (fun _ c3 => ?_)
  refine Res.quiet_andThen _ _ _ (quiet_modeAt _ _ _) (fun _ c4 => ?_)
  exact Res.quiet_andThen _ _ _ (quiet_WriteNextGivenMode _ _ _) (fun _ c5 => rfl)

theorem quiet_stepCompare (test : Int → Int → Bool) (opcode : Opcode) (c : Computer) :
    stepCompare test opcode c.quiet = (stepCompare test opcode c).quiet := by
  unfold stepCompare
  refine Res.quiet_andThen _ _ _ (quiet_modeAt _ _ _) (fun _ c0 => ?_)
  refine Res.quiet_andThen _ _ _ (quiet_ReadNextGivenMode _ _) (fun _ c1 => ?_)
  refine Res.quiet_andThen _ _ _ (quiet_modeAt _ _ _) (fun _ c2 => ?_)
  refine Res.quiet_andThen _ _ _ (quiet_ReadNextGivenMode _ _) (fun _ c3 => ?_)
  refine Res.quiet_andThen _ _ _ ?_ (fun _ c5 => rfl)
  split
  · exact Res.quiet_andThen _ _ _ (quiet_modeAt _ _ _)
      (fun _ c4 => quiet_WriteNextGivenMode _ _ _)
  · exact Res.quiet_andThen _ _ _ (quiet_modeAt _ _ _)
      (fun _ c4 => quiet_WriteNextGivenMode _ _ _)

theorem quiet_stepJump (test : Int → Bool) (opcode : Opcode) (c : Computer) :
    stepJump test opcode c.quiet = (stepJump test opcode c).quiet := by
  unfold stepJump
  refine Res.quiet_andThen _ _ _ (quiet_modeAt _ _ _) (fun _ c0 => ?_)
  refine Res.quiet_andThen _ _ _ (quiet_ReadNextGivenMode _ _) (fun _ c1 => ?_)
  refine Res.quiet_andThen _ _ _ (quiet_modeAt _ _ _) (fun _ c2 => ?_)
  refine Res.quiet_andThen _ _ _ (quiet_ReadNextGivenMode _ _) (fun _ c3 => ?_)
  split
  · rw [quiet_Jump]; rfl
  · rfl

theorem quiet_stepStore (opcode : Opcode) (c : Computer) (input : Int) :
    stepStore opcode c.quiet input = (stepStore opcode c input).quiet := by
  unfold stepStore
  refine Res.quiet_andThen _ _ _ (quiet_modeAt _ _ _) (fun _ c0 => ?_)
  exact Res.quiet_andThen _ _ _ (quiet_WriteNextGivenMode _ _ _) (fun _ c1 => rfl)

theorem quiet_stepRelative (opcode : Opcode) (c : Computer) :
    stepRelative opcode c.quiet = (stepRelative opcode c).quiet := by
  unfold stepRelative
  refine Res.quiet_andThen _ _ _ (quiet_modeAt _ _ _) (fun _ c0 => ?_)
  refine Res.quiet_andThen _ _ _ (quiet_ReadNextGivenMode _ _) (fun _ c1 => ?_)
  rw [quiet_RelativeJump]; rfl

theorem quiet_ofRes (r : Res Unit) (w : World) :
    StepResult.ofRes r.quiet w.quiet = (StepResult.ofRes r w).quiet := by
  cases r <;> rfl

theorem quiet_stepInput (opcode : Opcode) (c : Computer) (w : World) :
    stepInput opcode c.quiet w.quiet = (stepInput opcode c w).quiet := by
  have hb : c.quiet.InBuffer = c.InBuffer := rfl
  have hq : c.quiet.InQueue = c.InQueue := rfl
  have hs : w.quiet.supply = w.supply := rfl
  unfold stepInput
  rw [hb, hq, hs]
  split_ifs
  · cases w.supply with
    | nil => rfl
    | cons input rest =>
      simp only [quiet_stepStore]
      exact quiet_ofRes _ { w with supply := rest }
  · cases w.supply with
    | nil => rfl
    | cons input rest =>
      simp only [quiet_stepStore]
      exact quiet_ofRes _ { w with supply := rest }
  · cases c.InQueue with
    | none =>
      simp only [quiet_stepStore]
      exact quiet_ofRes _ w
    | some queue =>
      dsimp only
      cases queue.getLast? with
      | none => rfl
      | some input =>
        exact (congrArg (fun r => StepResult.ofRes r w.quiet)
          (quiet_stepStore opcode { c with InQueue := some queue.dropLast } input)).trans
          (quiet_ofRes _ w)

theorem quiet_stepOutput (opcode : Opcode) (c : Computer) (w : World) :
    (stepOutput opcode c.quiet w.quiet).quiet = (stepOutput opcode c w).quiet := by
  have h : ((modeAt opcode 0 c.quiet).andThen fun mode0 computer =>
      ReadNextGivenMode computer mode0)
      = ((modeAt opcode 0 c).andThen fun mode0 computer =>
          ReadNextGivenMode computer mode0).quiet :=
    Res.quiet_andThen _ _ _ (quiet_modeAt _ _ _) (fun _ c0 => quiet_ReadNextGivenMode _ _)
  unfold stepOutput
  rw [h]
  cases ((modeAt opcode 0 c).andThen fun mode0 computer =>
      ReadNextGivenMode computer mode0) with
  | panic fault c1 => rfl
  | ok value c1 =>
    have hb : c1.quiet.OutBuffer = c1.OutBuffer := rfl
    have hq : c1.quiet.OutQueue = none := rfl
    simp only [Res.quiet, hb, hq]
    by_cases hbuf : c1.OutBuffer = none
    · have hn : ¬ (c1.OutBuffer ≠ none) := fun h => h hbuf
      rw [if_pos ⟨hbuf, trivial⟩]
      cases hqueue : c1.OutQueue with
      | none => rw [if_pos ⟨hbuf, rfl⟩]; rfl
      | some queue =>
        rw [if_neg (fun h => by cases h.2), if_neg hn]
        rfl
    · have hn : c1.OutBuffer ≠ none := hbuf
      rw [if_neg (fun h => hbuf h.1), if_pos hn, if_neg (fun h => hbuf h.1), if_pos hn]
      rfl

theorem StepResult.quiet_quiet (r : StepResult) : r.quiet.quiet = r.quiet := by
  cases r <;> rfl

theorem quiet_ReadNextOpcode (c : Computer) :
    ReadNextOpcode c.quiet = (ReadNextOpcode c).quiet := by
  unfold ReadNextOpcode Read
  have hp : c.quiet.Position = c.Position := rfl
  simp only [quiet_ReadMemory, hp]
  rw [ReadOpcode_congr (ReadMemory c c.Position).2 (ReadMemory c c.Position).2.quiet _ rfl]
  cases ReadOpcode (ReadMemory c c.Position).2 (ReadMemory c c.Position).1 <;> rfl

theorem quiet_Step (c : Computer) (w : World) :
    (Step c.quiet w.quiet).quiet = (Step c w).quiet := by
  unfold Step
  rw [quiet_ReadNextOpcode]
  cases ReadNextOpcode c with
  | panic fault c0 => rfl
  | ok opcode c0 =>
    simp only [Res.quiet]
    by_cases h1 : opcode.Value = 1
    · simp only [h1, Int.reduceEq, if_false, if_true]
      rw [quiet_stepArith, quiet_ofRes, StepResult.quiet_quiet]
    by_cases h2 : opcode.Value = 2
    · simp only [h2, Int.reduceEq, if_false, if_true]
      rw [quiet_stepArith, quiet_ofRes, StepResult.quiet_quiet]
    by_cases h3 : opcode.Value = 3
    · simp only [h3, Int.reduceEq, if_false, if_true]
      rw [quiet_stepInput, StepResult.quiet_quiet]
    by_cases h4 : opcode.Value = 4
    · simp only [h4, Int.reduceEq, if_false, if_true]
      exact quiet_stepOutput opcode c0 w
    by_cases h5 : opcode.Value = 5
    · simp only [h5, Int.reduceEq, if_false, if_true]
      rw [quiet_stepJump, quiet_ofRes, StepResult.quiet_quiet]
    by_cases h6 : opcode.Value = 6
    · simp only [h6, Int.reduceEq, if_false, if_true]
      rw [quiet_stepJump, quiet_ofRes, StepResult.quiet_quiet]
    by_cases h7 : opcode.Value = 7
    · simp only [h7, Int.reduceEq, if_false, if_true]
      rw [quiet_stepCompare, quiet_ofRes, StepResult.quiet_quiet]
    by_cases h8 : opcode.Value = 8
    · simp only [h8, Int.reduceEq, if_false, if_true]
      rw [quiet_stepCompare, quiet_ofRes, StepResult.quiet_quiet]
    by_cases h9 : opcode.Value = 9
    · simp only [h9, Int.reduceEq, if_false, if_true]
      rw [quiet_stepRelative, quiet_ofRes, StepResult.quiet_quiet]
    simp only [h1, h2, h3, h4, h5, h6, h7, h8, h9, if_false]
    split <;> rfl

theorem Run_quiet : ∀ (fuel : Nat) (c c1 : Computer) (w w1 : World),
    c.quiet = c1.quiet → w.quiet = w1.quiet →
    (Run fuel c w).memory = (Run fuel c1 w1).memory := by
  intro fuel
  induction fuel with
  | zero => intro c c1 w w1 _ _; rfl
  | succ n ih =>
    intro c c1 w w1 hc hw
    have hs : (Step c w).quiet = (Step c1 w1).quiet := by
      rw [← quiet_Step c w, ← quiet_Step c1 w1, hc, hw]
    unfold Run
    cases h1 : Step c w with
    | ok c2 w2 =>
      cases h2 : Step c1 w1 with
      | ok c3 w3 =>
        rw [h1, h2] at hs
        simp only [StepResult.quiet, StepResult.ok.injEq] at hs
        have hh : c2.quiet.Halted = c3.quiet.Halted := congrArg (fun x : Computer => x.Halted) hs.1
        change c2.Halted = c3.Halted at hh
        have hm : c2.quiet.Memory = c3.quiet.Memory := congrArg (fun x : Computer => x.Memory) hs.1
        change c2.Memory = c3.Memory at hm
        dsimp only
        rw [← hh]
        by_cases hhalt : c2.Halted = true
        · rw [if_pos hhalt, if_pos hhalt]
          simp only [RunResult.memory, hm]
        · rw [if_neg hhalt, if_neg hhalt]
          exact ih c2 c3 w2 w3 hs.1 hs.2
      | panic f c3 w3 => rw [h1, h2] at hs; cases hs
      | blocked c3 w3 => rw [h1, h2] at hs; cases hs
    | panic f c2 w2 =>
      cases h2 : Step c1 w1 with
      | ok c3 w3 => rw [h1, h2] at hs; cases hs
      | panic f c3 w3 => rfl
      | blocked c3 w3 => rfl
    | blocked c2 w2 =>
      cases h2 : Step c1 w1 with
      | ok c3 w3 => rw [h1, h2] at hs; cases hs
      | panic f c3 w3 => rfl
      | blocked c3 w3 => rfl

/-- The counterexample to C16 as stated: the queue machine for `99` has been
given `Input(7)`; after `Load("3,0,99")` it still has 7 in `InQueue`, and
`Run` returns with 7 at address 0; on the machine `QueuedNew("3,0,99")` gives,
`Run` does not return, whatever the fuel: its first `Step` panics on the empty
queue. -/
theorem load_keeps_pending_input :
    Input (queuedMachineOf [99]) World.silent 7
      = .ok ({ queuedMachineOf [99] with InQueue := some [7] }, World.silent) ∧
    QueuedNew ("3,0,99".toList) = .ok (queuedMachineOf [3, 0, 99]) ∧
    (∃ loaded,
      Load { queuedMachineOf [99] with InQueue := some [7] } ("3,0,99".toList) = .ok loaded ∧
      loaded.InQueue = some [7] ∧
      (Run 2 loaded World.silent).returned = true ∧
      (Run 2 loaded World.silent).computer.valueAt 0 = 7) ∧
    ∀ fuel, (Run fuel (queuedMachineOf [3, 0, 99]) World.silent).returned = false := by
  refine ⟨rfl, rfl,
    ⟨Reset { queuedMachineOf [99] with InQueue := some [7], Codes := [3, 0, 99] },
      rfl, rfl, by decide, by decide⟩, ?_⟩
  intro fuel
  cases fuel <;> rfl

/-- C16, amended: for every machine state `c` and every program text `t` a
constructor accepts, `c.Load(t)` gives a state with the same `Codes`,
`Memory`, `Position` (0), `RPosition` (0) and `Halted` (false) as the machine
freshly constructed from `t`, and with the buffers and queues of `c`;
consequently, when `InBuffer`, `InQueue` and `OutBuffer` of `c` are those of
the fresh machine (`OutQueue` may differ), `Run` after `Load(t)` returns, for
the same supply of input, the same memory as `Run` on the fresh machine, and
does not return when that one does not. -/
theorem load_equals_fresh (c : Computer) (t : List Char) (fresh : Computer)
    (hfresh : New t = .ok fresh ∨ BufferedNew t = .ok fresh ∨ QueuedNew t = .ok fresh) :
    ∃ loaded, Load c t = .ok loaded ∧
      loaded.Codes = fresh.Codes ∧ loaded.Memory = fresh.Memory ∧
      loaded.Position = 0 ∧ fresh.Position = 0 ∧
      loaded.RPosition = 0 ∧ fresh.RPosition = 0 ∧
      loaded.Halted = false ∧ fresh.Halted = false ∧
      loaded.InBuffer = c.InBuffer ∧ loaded.OutBuffer = c.OutBuffer ∧
      loaded.InQueue = c.InQueue ∧ loaded.OutQueue = c.OutQueue ∧
      (c.InBuffer = fresh.InBuffer → c.InQueue = fresh.InQueue →
        c.OutBuffer = fresh.OutBuffer →
        ∀ fuel w, (Run fuel loaded w).memory = (Run fuel fresh w).memory) := by
  cases hp : Parser t with
  | error e =>
    unfold New BufferedNew QueuedNew at hfresh
    rw [hp] at hfresh
    rcases hfresh with h | h | h <;> cases h
  | ok p =>
    obtain ⟨h1, h2, h3⟩ := New_eq t p hp
    have hload : Load c t = .ok (Reset { c with Codes := p }) := by
      unfold Load; rw [hp]
    have key : ∀ f : Computer, f.Codes = p → f.Memory = createMemoryMap p →
        f.Position = 0 → f.RPosition = 0 → f.Halted = false → fresh = f →
        ∃ loaded, Load c t = .ok loaded ∧
          loaded.Codes = fresh.Codes ∧ loaded.Memory = fresh.Memory ∧
          loaded.Position = 0 ∧ fresh.Position = 0 ∧
          loaded.RPosition = 0 ∧ fresh.RPosition = 0 ∧
          loaded.Halted = false ∧ fresh.Halted = false ∧
          loaded.InBuffer = c.InBuffer ∧ loaded.OutBuffer = c.OutBuffer ∧
          loaded.InQueue = c.InQueue ∧ loaded.OutQueue = c.OutQueue ∧
          (c.InBuffer = fresh.InBuffer → c.InQueue = fresh.InQueue →
            c.OutBuffer = fresh.OutBuffer →
            ∀ fuel w, (Run fuel loaded w).memory = (Run fuel fresh w).memory) := by
      intro f hc hm hpos hrp hh hf
      subst hf
      refine ⟨_, hload, hc.symm, hm.symm, rfl, hpos, rfl, hrp, rfl, hh, rfl, rfl, rfl, rfl, ?_⟩
      intro hib hiq hob fuel w
      refine Run_quiet fuel _ _ w w ?_ rfl
      cases fresh with
      | mk pos rpos codes memory ib ob iq oq halted =>
        simp only at hc hm hpos hrp hh hib hiq hob
        subst hc hm hpos hrp hh
        simp only [Computer.quiet, Reset, hib, hiq, hob]
    rcases hfresh with h | h | h
    · rw [h1] at h; injection h with h
      exact key _ rfl rfl rfl rfl rfl h.symm
    · rw [h2] at h; injection h with h
      exact key _ rfl rfl rfl rfl rfl h.symm
    · rw [h3] at h; injection h with h
      exact key _ rfl rfl rfl rfl rfl h.symm

/-- Witness of C16 (amended): the queue machine that ran `104,5,99` and holds
5 in `OutQueue`, loaded with the first program of `TestComputer`. -/
theorem load_equals_fresh_witness :
    ∃ loaded,
      Load (Run 2 (queuedMachineOf [104, 5, 99]) World.silent).computer
        ("1,9,10,3,2,3,11,0,99,30,40,50".toList) = .ok loaded ∧
      loaded.OutQueue = some [5] ∧
      ∀ fuel w, (Run fuel loaded w).memory
        = (Run fuel (queuedMachineOf sampleCodes) w).memory := by
  obtain ⟨loaded, hl, _, _, _, _, _, _, _, _, _, _, _, hq, hrun⟩ :=
    load_equals_fresh (Run 2 (queuedMachineOf [104, 5, 99]) World.silent).computer
      ("1,9,10,3,2,3,11,0,99,30,40,50".toList) (queuedMachineOf sampleCodes)
      (Or.inr (Or.inr rfl))
  exact ⟨loaded, hl, hq.trans (by decide), hrun rfl rfl rfl⟩

end Intcode
